import Mathlib

/-!
Verification development for the dynamic-config-manager repository.

The file shallowly embeds the auto-fix / validation-policy engine of
src/dynamic_config_manager/validation.py and the ConfigInstance write
operations of src/dynamic_config_manager/manager2.py, and proves or
refutes the frozen claims about them.

Modelling conventions:
* Python runtime values are modelled by the inductive type PyVal.  Python
  floats are modelled by exact rationals (every IEEE double is a rational;
  claims about exact float rounding noise are out of scope).  Python bool
  is a subclass of int, so bool values count as numeric.
* Python exceptions that the source catches are modelled by Option; an
  exception that would escape a fixer is modelled by Except PErr.
* Python expression parsing (ast.parse) is not re-implemented; the
  evaluator is parametrised by an arbitrary parse function of type
  Parse := String -> Option Ast, and theorems quantify over it.
* The path_string and multiple_ranges format categories are outside the
  embedding (the former needs a filesystem); the remaining format
  categories and all generic checks are embedded in full.
-/

set_option autoImplicit false

namespace DCM

/-- Python-level error kinds that can escape the validation pass. -/
inductive PErr where
  | typeError
  | zeroDivision
  | recursionError
  deriving DecidableEq, Repr

/-- Whitelisted callables of the safe evaluator (_SAFE_NAMES). -/
inductive SafeFn where
  | fabs
  | fround
  | fmin
  | fmax
  | fsqrt
  deriving DecidableEq, Repr

/-- Model of the Python values the validation engine manipulates.
float carries an exact rational; fn is a whitelisted builtin function
object; emptyDict models the empty dict stored under __builtins__. -/
inductive PyVal where
  | none
  | bool (b : Bool)
  | int (n : Int)
  | float (q : Rat)
  | str (s : String)
  | list (xs : List PyVal)
  | tuple (xs : List PyVal)
  | fn (f : SafeFn)
  | emptyDict

mutual

/-- Structural (representation-level) equality of embedded values, the
equality at which mappings are compared for idempotence. -/
def pvBeq : PyVal → PyVal → Bool
  | .none, .none => true
  | .bool a, .bool b => a == b
  | .int a, .int b => a == b
  | .float a, .float b => a == b
  | .str a, .str b => a == b
  | .list as, .list bs => pvBeqL as bs
  | .tuple as, .tuple bs => pvBeqL as bs
  | .fn a, .fn b => a == b
  | .emptyDict, .emptyDict => true
  | _, _ => false

/-- Elementwise structural equality on value lists. -/
def pvBeqL : List PyVal → List PyVal → Bool
  | [], [] => true
  | a :: as, b :: bs => pvBeq a b && pvBeqL as bs
  | _, _ => false

end

/-- Test for the Python None object (the rejection sentinel). -/
def pyIsNone : PyVal → Bool
  | .none => true
  | _ => false

/-- isinstance(v, (int, float)) - Python bool is a subclass of int. -/
def pyIsNum : PyVal → Bool
  | .bool _ => true
  | .int _ => true
  | .float _ => true
  | _ => false

/-- isinstance(v, str). -/
def pyIsStr : PyVal → Bool
  | .str _ => true
  | _ => false

/-- Numeric value of a PyVal as an exact rational (0 for non-numbers;
only used under a pyIsNum guard). -/
def toR : PyVal → Rat
  | .bool b => if b then 1 else 0
  | .int n => (n : Rat)
  | .float q => q
  | _ => 0

/-- Python truthiness. -/
def pyTruthy : PyVal → Bool
  | .none => false
  | .bool b => b
  | .int n => n != 0
  | .float q => q != 0
  | .str s => s != ""
  | .list xs => !xs.isEmpty
  | .tuple xs => !xs.isEmpty
  | .fn _ => true
  | .emptyDict => false

/-- hasattr(v, the length attribute): some (len v) for sized values. -/
def pyLenO : PyVal → Option Nat
  | .str s => some s.length
  | .list xs => some xs.length
  | .tuple xs => some xs.length
  | .emptyDict => some 0
  | _ => Option.none

/-- Kernel-reducible rational addition (Rat.add is opaque to the
kernel; Rat.divInt is not). -/
def qAdd (a b : Rat) : Rat := Rat.divInt (a.num * b.den + b.num * a.den) (a.den * b.den)

/-- Kernel-reducible rational subtraction. -/
def qSub (a b : Rat) : Rat := Rat.divInt (a.num * b.den - b.num * a.den) (a.den * b.den)

/-- Kernel-reducible rational multiplication. -/
def qMul (a b : Rat) : Rat := Rat.divInt (a.num * b.num) (a.den * b.den)

/-- Kernel-reducible rational division (zero denominator gives 0, the
Rat convention; callers test for zero first). -/
def qDiv (a b : Rat) : Rat := Rat.divInt (a.num * b.den) (a.den * b.num)

/-- Kernel-reducible integer power of a rational. -/
def qPowInt (a : Rat) (e : Int) : Rat :=
  if 0 ≤ e then a ^ e.toNat else qDiv 1 (a ^ (-e).toNat)

/-- Kernel-reducible string concatenation. -/
def strCat (a b : String) : String := String.mk (a.toList ++ b.toList)

/-- Kernel-reducible join with a separator (String.intercalate). -/
def strJoin (sep : String) : List String → String
  | [] => ""
  | [x] => x
  | x :: rest => strCat x (strCat sep (strJoin sep rest))

/-- Kernel-reducible sequence repetition (str * n). -/
def strRepeat (n : Nat) (s : String) : String :=
  String.mk (List.flatten (List.replicate n s.toList))

/-- Kernel-reducible lower-casing (str.lower; ASCII suffices for the
token sets involved). -/
def strLower (s : String) : String := String.mk (s.toList.map Char.toLower)

/-- The whitespace set of Python str.strip. -/
def isPySpace (c : Char) : Bool :=
  c == ' ' || c == '\t' || c == '\n' || c == '\r' || c == Char.ofNat 11 || c == Char.ofNat 12

/-- Splitting on every occurrence of a non-empty separator, as Python
str.split(sep) does (and as String.splitOn does; re-implemented
structurally so concrete runs reduce in the kernel). -/
def splitChars (sep : List Char) : Nat → List Char → List Char → List (List Char)
  | _, [], acc => [acc.reverse]
  | 0, cs, acc => [acc.reverse ++ cs]
  | f + 1, c :: rest, acc =>
    if sep.isPrefixOf (c :: rest) then
      acc.reverse :: splitChars sep f (List.drop (sep.length - 1) rest) []
    else splitChars sep f rest (c :: acc)

/-- Python s.split(sep) for a non-empty separator; an empty separator is
a ValueError in Python and is mapped to the whole string here (no claim
exercises it). -/
def pySplit (s sep : String) : List String :=
  if sep.toList.isEmpty then [s]
  else (splitChars sep.toList s.toList.length s.toList []).map String.mk

mutual

/-- Python == on the embedded values (never raises for these types). -/
def pyEq : PyVal → PyVal → Bool
  | .list as, .list bs => pyEqL as bs
  | .tuple as, .tuple bs => pyEqL as bs
  | .str a, .str b => a == b
  | .none, .none => true
  | .fn a, .fn b => a == b
  | .emptyDict, .emptyDict => true
  | a, b => pyIsNum a && pyIsNum b && toR a == toR b

/-- Elementwise Python == on value lists. -/
def pyEqL : List PyVal → List PyVal → Bool
  | [], [] => true
  | a :: as, b :: bs => pyEq a b && pyEqL as bs
  | _, _ => false

end

/-- Python str.strip with no argument (whitespace strip). -/
def pyStrip (s : String) : String :=
  String.mk (((s.toList.dropWhile isPySpace).reverse.dropWhile isPySpace).reverse)

/-- Value of a nonempty digit sequence. -/
def digitsVal (cs : List Char) : Nat :=
  cs.foldl (fun n c => n * 10 + (c.toNat - 48)) 0

/-- Python int(s) for a string argument: optional surrounding whitespace,
optional sign, one or more decimal digits (underscore grouping is not
modelled). -/
def pyIntOfStr (s : String) : Option Int :=
  let core : List Char → Option Int := fun ds =>
    if !ds.isEmpty && ds.all Char.isDigit then some (digitsVal ds) else Option.none
  match (pyStrip s).toList with
  | '+' :: ds => core ds
  | '-' :: ds => (core ds).map (fun n => -n)
  | ds => core ds

/-- Digits of a fraction rem/den, cut at the given fuel. -/
def fracDigits : Nat → Nat → Nat → List Char
  | 0, _, _ => []
  | _ + 1, 0, _ => []
  | f + 1, r, d => Char.ofNat (48 + r * 10 / d) :: fracDigits f (r * 10 % d) d

/-- Python str() of a float, for the exact rational the float denotes.
Expansions longer than 40 digits are cut; rationals whose denominator is
not of the form 2^a * 5^b do not arise as Python float values. -/
def floatStr (q : Rat) : String :=
  let sign := if q < 0 then "-" else ""
  let n := q.num.natAbs
  let d := q.den
  let frac := if n % d = 0 then "0" else String.mk (fracDigits 40 (n % d) d)
  strCat sign (strCat (toString (n / d)) (strCat "." frac))

/-- Mantissa-and-exponent assembly for float parsing. -/
def mkFloatParts (sign : Bool) (ip fp : List Char) (ex : Int) : Option Rat :=
  if ip.isEmpty && fp.isEmpty then Option.none
  else if !ip.all Char.isDigit || !fp.all Char.isDigit then Option.none
  else
    let mant : Rat := qAdd (digitsVal ip : Rat) (qDiv (digitsVal fp : Rat) ((10 : Rat) ^ fp.length))
    let v := qMul mant (qPowInt 10 ex)
    some (if sign then -v else v)

/-- Split a char list at the first occurrence of one of two marker chars. -/
def splitAtChar (cs : List Char) (c1 c2 : Char) : List Char × Option (List Char) :=
  match cs with
  | [] => ([], Option.none)
  | c :: rest =>
    if c == c1 || c == c2 then ([], some rest)
    else
      let (pre, post) := splitAtChar rest c1 c2
      (c :: pre, post)

/-- Exponent part parser: optional sign then required digits. -/
def parseExp (cs : List Char) : Option Int :=
  let core : List Char → Option Int := fun ds =>
    if !ds.isEmpty && ds.all Char.isDigit then some (digitsVal ds) else Option.none
  match cs with
  | '+' :: ds => core ds
  | '-' :: ds => (core ds).map (fun n => -n)
  | ds => core ds

/-- Python float(s) for a string argument: decimal literal with optional
fraction and exponent (inf and nan are not modelled). -/
def pyFloatOfStr (s : String) : Option Rat :=
  let t := (pyStrip s).toList
  let (sign, t) :=
    match t with
    | '+' :: rest => (false, rest)
    | '-' :: rest => (true, rest)
    | rest => (false, rest)
  let (mant, expPart) := splitAtChar t 'e' 'E'
  let (ip, fpO) := splitAtChar mant '.' '.'
  let fp := fpO.getD []
  match expPart with
  | Option.none => mkFloatParts sign ip fp 0
  | some ecs => (parseExp ecs).bind (fun e => mkFloatParts sign ip fp e)

/-- Name of a whitelisted builtin, for its repr. -/
def fnName : SafeFn → String
  | .fabs => "abs"
  | .fround => "round"
  | .fmin => "min"
  | .fmax => "max"
  | .fsqrt => "sqrt"

mutual

/-- Python repr() of an embedded value. -/
def pyRepr : PyVal → String
  | .none => "None"
  | .bool true => "True"
  | .bool false => "False"
  | .int n => toString n
  | .float q => floatStr q
  | .str s => strCat "'" (strCat s "'")
  | .list xs => strCat "[" (strCat (strJoin ", " (pyReprL xs)) "]")
  | .tuple [x] => strCat "(" (strCat (pyRepr x) ",)")
  | .tuple xs => strCat "(" (strCat (strJoin ", " (pyReprL xs)) ")")
  | .fn f => strCat "<built-in function " (strCat (fnName f) ">")
  | .emptyDict => "\x7b\x7d"

/-- repr of each element of a container. -/
def pyReprL : List PyVal → List String
  | [] => []
  | x :: xs => pyRepr x :: pyReprL xs

end

/-- Python str() of an embedded value. -/
def pyStr : PyVal → String
  | .str s => s
  | v => pyRepr v

/-- Python < comparison; unsupported operand pairs raise TypeError. -/
def pyLtE (a b : PyVal) : Except PErr Bool :=
  match a, b with
  | .str x, .str y => .ok (decide (x < y))
  | a, b =>
    if pyIsNum a && pyIsNum b then .ok (decide (toR a < toR b))
    else .error .typeError

/-- Python a > b for the embedded values (b < a). -/
def pyGtE (a b : PyVal) : Except PErr Bool := pyLtE b a

/-- Python round() to the nearest integer, ties to even. -/
def bankRound (q : Rat) : Int :=
  let f := q.floor
  let r := qSub q (f : Rat)
  if r < mkRat 1 2 then f
  else if mkRat 1 2 < r then f + 1
  else if f % 2 = 0 then f else f + 1

/-- Integer value of an int-kind Python number (bool or int). -/
def toI : PyVal → Int
  | .bool b => if b then 1 else 0
  | .int n => n
  | _ => 0

/-- Whether a numeric value is float-kind (drives the result kind of
Python arithmetic). -/
def isFloatKind : PyVal → Bool
  | .float _ => true
  | _ => false

/-- Result kind for a binary numeric operation (float if either side is). -/
def numPair (a b : PyVal) (f : Rat → Rat → Rat) (g : Int → Int → Int) : PyVal :=
  if isFloatKind a || isFloatKind b then .float (f (toR a) (toR b))
  else .int (g (toI a) (toI b))

/-- Python + inside the safe evaluator (numbers, strings, sequences). -/
def pyAddU : PyVal → PyVal → Except Unit PyVal
  | .str x, .str y => .ok (.str (strCat x y))
  | .list xs, .list ys => .ok (.list (xs ++ ys))
  | .tuple xs, .tuple ys => .ok (.tuple (xs ++ ys))
  | a, b =>
    if pyIsNum a && pyIsNum b then .ok (numPair a b qAdd (· + ·))
    else .error ()

/-- Python - inside the safe evaluator. -/
def pySubU (a b : PyVal) : Except Unit PyVal :=
  if pyIsNum a && pyIsNum b then .ok (numPair a b qSub (· - ·))
  else .error ()

/-- Sequence repetition count (negative counts give the empty sequence). -/
def repCount (n : Int) : Nat := n.toNat

/-- Python * inside the safe evaluator (numbers, sequence repetition). -/
def pyMulU : PyVal → PyVal → Except Unit PyVal
  | .str x, b =>
    if pyIsNum b && !isFloatKind b then .ok (.str (strRepeat (repCount (toI b)) x))
    else .error ()
  | a, .str y =>
    if pyIsNum a && !isFloatKind a then .ok (.str (strRepeat (repCount (toI a)) y))
    else .error ()
  | .list xs, b =>
    if pyIsNum b && !isFloatKind b then .ok (.list (List.flatten (List.replicate (repCount (toI b)) xs)))
    else .error ()
  | a, .list ys =>
    if pyIsNum a && !isFloatKind a then .ok (.list (List.flatten (List.replicate (repCount (toI a)) ys)))
    else .error ()
  | a, b =>
    if pyIsNum a && pyIsNum b then .ok (numPair a b qMul (· * ·))
    else .error ()

/-- Python / inside the safe evaluator (always float; zero divides raise). -/
def pyDivU (a b : PyVal) : Except Unit PyVal :=
  if pyIsNum a && pyIsNum b then
    if toR b = 0 then .error () else .ok (.float (qDiv (toR a) (toR b)))
  else .error ()

/-- Python % inside the safe evaluator (floor modulo). -/
def pyModU (a b : PyVal) : Except Unit PyVal :=
  if pyIsNum a && pyIsNum b then
    if toR b = 0 then .error ()
    else if isFloatKind a || isFloatKind b then
      let qa := toR a
      let qb := toR b
      .ok (.float (qSub qa (qMul qb (((qDiv qa qb).floor : Int) : Rat))))
    else .ok (.int (Int.fmod (toI a) (toI b)))
  else .error ()

/-- Python ** inside the safe evaluator.  Fractional float exponents
produce irrational results and are outside the rational model; they are
mapped to the caught-error case. -/
def pyPowU (a b : PyVal) : Except Unit PyVal :=
  if pyIsNum a && pyIsNum b then
    let qb := toR b
    if qb.den ≠ 1 then .error ()
    else
      let e := qb.num
      if 0 ≤ e then
        if isFloatKind a || isFloatKind b then .ok (.float (toR a ^ e.toNat))
        else .ok (.int (toI a ^ e.toNat))
      else if toR a = 0 then .error ()
      else .ok (.float (qDiv 1 (toR a ^ (-e).toNat)))
  else .error ()

/-- Python unary minus inside the safe evaluator. -/
def pyNegU (a : PyVal) : Except Unit PyVal :=
  match a with
  | .float q => .ok (.float (-q))
  | .int n => .ok (.int (-n))
  | .bool b => .ok (.int (-(if b then 1 else 0)))
  | _ => .error ()

/-- Comparison used by min and max (numbers, or strings). -/
def cmpLtU (a b : PyVal) : Except Unit Bool :=
  match a, b with
  | .str x, .str y => .ok (decide (x < y))
  | a, b =>
    if pyIsNum a && pyIsNum b then .ok (decide (toR a < toR b))
    else .error ()

/-- Fold for min (useMax = false) or max over the remaining arguments,
keeping the first extremal element as Python does. -/
def foldExtremal (useMax : Bool) : PyVal → List PyVal → Except Unit PyVal
  | acc, [] => .ok acc
  | acc, x :: rest => do
    let lt ← if useMax then cmpLtU acc x else cmpLtU x acc
    foldExtremal useMax (if lt then x else acc) rest

/-- Deterministic stand-in for math.sqrt on the rational float model;
exact whenever the argument is a perfect rational square. -/
def sqrtQ (q : Rat) : Rat :=
  Rat.divInt (Int.ofNat (Nat.sqrt (q.num.toNat * q.den))) (Int.ofNat q.den)

/-- Banker's rounding at a decimal position (round(x, n)). -/
def roundScaled (q : Rat) (n : Int) : Rat :=
  qDiv ((bankRound (qMul q (qPowInt 10 n)) : Int) : Rat) (qPowInt 10 n)

/-- Application of a whitelisted builtin to evaluated arguments; any
Python exception is the caught-error case. -/
def applyFn : SafeFn → List PyVal → Except Unit PyVal
  | .fabs, [v] =>
    if pyIsNum v then
      .ok (if isFloatKind v then .float |toR v| else .int |toI v|)
    else .error ()
  | .fround, [v] =>
    if pyIsNum v then
      .ok (if isFloatKind v then .int (bankRound (toR v)) else .int (toI v))
    else .error ()
  | .fround, [v, nd] =>
    if pyIsNum v && pyIsNum nd && !isFloatKind nd then
      .ok (if isFloatKind v then .float (roundScaled (toR v) (toI nd))
           else .int (roundScaled (toR v) (toI nd)).num)
    else .error ()
  | .fmin, [v] =>
    match v with
    | .list (x :: xs) => foldExtremal false x xs
    | .tuple (x :: xs) => foldExtremal false x xs
    | .str s =>
      match s.toList with
      | [] => .error ()
      | c :: cs => foldExtremal false (.str (String.mk [c])) (cs.map (fun d => .str (String.mk [d])))
    | _ => .error ()
  | .fmin, x :: y :: rest => foldExtremal false x (y :: rest)
  | .fmax, [v] =>
    match v with
    | .list (x :: xs) => foldExtremal true x xs
    | .tuple (x :: xs) => foldExtremal true x xs
    | .str s =>
      match s.toList with
      | [] => .error ()
      | c :: cs => foldExtremal true (.str (String.mk [c])) (cs.map (fun d => .str (String.mk [d])))
    | _ => .error ()
  | .fmax, x :: y :: rest => foldExtremal true x (y :: rest)
  | .fsqrt, [v] =>
    if pyIsNum v then
      if toR v < 0 then .error () else .ok (.float (sqrtQ (toR v)))
    else .error ()
  | _, _ => .error ()

/-- The IEEE double closest to pi, as stored in math.pi. -/
def piFloat : Rat := Rat.divInt 884279719003555 281474976710656

/-- The IEEE double closest to e, as stored in math.e. -/
def eFloat : Rat := Rat.divInt 6121026514868073 2251799813685248

/-- The binary operator kinds of the Python ast; other stands for any
operator outside _SAFE_BIN_OPS (such as floor division or bit ops). -/
inductive BinK where
  | add
  | sub
  | mult
  | div
  | pow
  | mod
  | other
  deriving DecidableEq, Repr

/-- Shape of a parsed Python expression as the evaluator sees it.
constant covers ast.Constant (and the legacy ast.Num); call carries the
function name when the callee is a plain name, and Option.none when the
callee is any other expression; other covers every remaining node kind
(attribute access, subscripts, comparisons, lambdas, and so on). -/
inductive Ast where
  | constant (v : PyVal)
  | name (id : String)
  | binOp (op : BinK) (l r : Ast)
  | unaryUSub (a : Ast)
  | unaryOther (a : Ast)
  | call (func : Option String) (args : List Ast)
  | other

/-- Lookup in the evaluation namespace (dict.get). -/
def nsGet (ns : List (String × PyVal)) (k : String) : Option PyVal :=
  match ns with
  | [] => Option.none
  | (k', v) :: rest => if k' == k then some v else nsGet rest k

/-- Dispatch table _SAFE_BIN_OPS. -/
def applyBin : BinK → PyVal → PyVal → Except Unit PyVal
  | .add, a, b => pyAddU a b
  | .sub, a, b => pySubU a b
  | .mult, a, b => pyMulU a b
  | .div, a, b => pyDivU a b
  | .pow, a, b => pyPowU a b
  | .mod, a, b => pyModU a b
  | .other, _, _ => .error ()

/-- Names that _SAFE_NAMES binds to callables. -/
def safeFnOfName : String → Option SafeFn
  | "abs" => some .fabs
  | "round" => some .fround
  | "min" => some .fmin
  | "max" => some .fmax
  | "sqrt" => some .fsqrt
  | _ => Option.none

/-- Non-callable entries of _SAFE_NAMES (calling them raises, which the
outer handler catches). -/
def safeNonCallable (s : String) : Bool :=
  s == "pi" || s == "e" || s == "__builtins__"

mutual

/-- The recursive _eval of _safe_eval.  Every raised exception is the
error case; the caller catches all of them. -/
def evalAst : Ast → List (String × PyVal) → Except Unit PyVal
  | .constant v, _ => .ok v
  | .name id, ns => .ok ((nsGet ns id).getD .none)
  | .binOp op l r, ns =>
    match op with
    | .other => .error ()
    | op => do
      let lv ← evalAst l ns
      let rv ← evalAst r ns
      applyBin op lv rv
  | .unaryUSub a, ns => do
    let v ← evalAst a ns
    pyNegU v
  | .unaryOther _, _ => .error ()
  | .call f args, ns =>
    match f with
    | Option.none => .error ()
    | some fname =>
      match safeFnOfName fname with
      | some fn => do
        let vs ← evalAstList args ns
        applyFn fn vs
      | Option.none =>
        if safeNonCallable fname then do
          let _ ← evalAstList args ns
          .error ()
        else .error ()
  | .other, _ => .error ()

/-- Left-to-right evaluation of call arguments. -/
def evalAstList : List Ast → List (String × PyVal) → Except Unit (List PyVal)
  | [], _ => .ok []
  | a :: rest, ns => do
    let v ← evalAst a ns
    let vs ← evalAstList rest ns
    .ok (v :: vs)

end

/-- A parse function stands in for ast.parse in eval mode: Option.none is
a parse failure, some a is the body of the parsed expression. -/
def Parse : Type := String → Option Ast

/-- The whole _safe_eval: preprocess the caret alias, parse, evaluate;
any exception yields the Python None failure sentinel, which is also the
value an expression may legitimately evaluate to. -/
def safeEvalStr (p : Parse) (expr : String) (ns : List (String × PyVal)) : PyVal :=
  match p (expr.replace "^" "**") with
  | Option.none => .none
  | some a =>
    match evalAst a ns with
    | .ok v => v
    | .error _ => .none

/-- The allowed expression fragment of the specification: literal, name,
safe binary operator, unary minus, call of a whitelisted function. -/
inductive AllowedAst : Ast → Prop where
  | constant (v : PyVal) : AllowedAst (.constant v)
  | name (id : String) : AllowedAst (.name id)
  | binOp (op : BinK) (l r : Ast) : op ≠ .other → AllowedAst l → AllowedAst r →
      AllowedAst (.binOp op l r)
  | unaryUSub (a : Ast) : AllowedAst a → AllowedAst (.unaryUSub a)
  | call (fname : String) (fn : SafeFn) (args : List Ast) :
      safeFnOfName fname = some fn → (∀ a ∈ args, AllowedAst a) →
      AllowedAst (.call (some fname) args)

/-- Every literal occurring in the expression is a number. -/
inductive ConstsNum : Ast → Prop where
  | constant (v : PyVal) : pyIsNum v = true → ConstsNum (.constant v)
  | name (id : String) : ConstsNum (.name id)
  | binOp (op : BinK) (l r : Ast) : ConstsNum l → ConstsNum r → ConstsNum (.binOp op l r)
  | unaryUSub (a : Ast) : ConstsNum a → ConstsNum (.unaryUSub a)
  | unaryOther (a : Ast) : ConstsNum a → ConstsNum (.unaryOther a)
  | call (f : Option String) (args : List Ast) : (∀ a ∈ args, ConstsNum a) →
      ConstsNum (.call f args)
  | other : ConstsNum .other

/-- The namespace binds every name to a number or to the Python None
object (missing names also look up as None). -/
def NsNum (ns : List (String × PyVal)) : Prop :=
  ∀ kv ∈ ns, pyIsNum kv.2 = true ∨ kv.2 = PyVal.none

/-- Ascending positions of a char in the second sequence (the b2j map of
difflib.SequenceMatcher; no junk handling, which only starts at length
200 sequences). -/
def b2jGet (b : List Char) (c : Char) : List Nat :=
  (List.range b.length).filter (fun j => b.getD j ' ' == c)

/-- Lookup in the j2len working dict of find_longest_match. -/
def j2lenGet (m : List (Nat × Nat)) (j : Nat) : Nat :=
  match m with
  | [] => 0
  | (j', k) :: rest => if j' == j then k else j2lenGet rest j

/-- Inner loop of find_longest_match over the candidate j positions. -/
def flmInner (blo bhi i : Nat) (j2len : List (Nat × Nat)) :
    List Nat → List (Nat × Nat) → (Nat × Nat × Nat) → List (Nat × Nat) × (Nat × Nat × Nat)
  | [], nj, best => (nj, best)
  | j :: rest, nj, best =>
    if j < blo then flmInner blo bhi i j2len rest nj best
    else if bhi ≤ j then (nj, best)
    else
      let k := (if j = 0 then 0 else j2lenGet j2len (j - 1)) + 1
      let nj := (j, k) :: nj
      let best := if best.2.2 < k then (i + 1 - k, j + 1 - k, k) else best
      flmInner blo bhi i j2len rest nj best

/-- Leftward extension loop of find_longest_match (fuelled while loop). -/
def extendLeft (a b : List Char) (alo blo : Nat) : Nat → (Nat × Nat × Nat) → (Nat × Nat × Nat)
  | 0, best => best
  | f + 1, (bi, bj, bs) =>
    if alo < bi && blo < bj && (a.getD (bi - 1) ' ' == b.getD (bj - 1) ' ') then
      extendLeft a b alo blo f (bi - 1, bj - 1, bs + 1)
    else (bi, bj, bs)

/-- Rightward extension loop of find_longest_match (fuelled while loop). -/
def extendRight (a b : List Char) (ahi bhi : Nat) : Nat → (Nat × Nat × Nat) → (Nat × Nat × Nat)
  | 0, best => best
  | f + 1, (bi, bj, bs) =>
    if bi + bs < ahi && bj + bs < bhi && (a.getD (bi + bs) ' ' == b.getD (bj + bs) ' ') then
      extendRight a b ahi bhi f (bi, bj, bs + 1)
    else (bi, bj, bs)

/-- find_longest_match of difflib.SequenceMatcher restricted to a window,
without junk (none exists for the short strings involved here). -/
def findLongestMatch (a b : List Char) (alo ahi blo bhi : Nat) : Nat × Nat × Nat :=
  let scan := (List.range' alo (ahi - alo)).foldl
    (fun (st : List (Nat × Nat) × (Nat × Nat × Nat)) i =>
      flmInner blo bhi i st.1 (b2jGet b (a.getD i ' ')) [] st.2)
    ([], (alo, blo, 0))
  extendRight a b ahi bhi (ahi + 1) (extendLeft a b alo blo (ahi + 1) scan.2)

/-- Total size of all matching blocks (the recursive split of
get_matching_blocks; only the size sum matters for the ratio). -/
def matchSum (a b : List Char) : Nat → Nat → Nat → Nat → Nat → Nat
  | 0, _, _, _, _ => 0
  | f + 1, alo, ahi, blo, bhi =>
    let (i, j, k) := findLongestMatch a b alo ahi blo bhi
    if k = 0 then 0
    else matchSum a b f alo i blo j + k + matchSum a b f (i + k) ahi (j + k) bhi

/-- The _calculate_ratio helper of difflib. -/
def calcRatio (m len : Nat) : Rat :=
  if len = 0 then 1 else Rat.divInt ((2 * m : Nat) : Int) ((len : Nat) : Int)

/-- SequenceMatcher.ratio for sequences a and b. -/
def seqRatio (a b : List Char) : Rat :=
  calcRatio (matchSum a b (a.length + b.length + 1) 0 a.length 0 b.length)
    (a.length + b.length)

/-- Character multiset counts of the second sequence. -/
def fullCount (b : List Char) : Char → Nat := fun c => b.count c

/-- SequenceMatcher.quick_ratio, via the avail bookkeeping of difflib. -/
def quickRatio (a b : List Char) : Rat :=
  let step : List (Char × Int) × Nat := a.foldl
    (fun (st : List (Char × Int) × Nat) (c : Char) =>
      let avail : List (Char × Int) := st.1
      let numb : Int :=
        ((avail.find? (fun p => p.1 == c)).map Prod.snd).getD (fullCount b c : Int)
      let m : Nat := if (0 : Int) < numb then st.2 + 1 else st.2
      ((c, numb - 1) :: avail.filter (fun p => !(p.1 == c)), m))
    ([], 0)
  calcRatio step.2 (a.length + b.length)

/-- SequenceMatcher.real_quick_ratio. -/
def realQuickRatio (a b : List Char) : Rat :=
  calcRatio (min a.length b.length) (a.length + b.length)

/-- Lexicographic comparison on the (score, word) pairs of
get_close_matches, as tuple comparison orders them. -/
def tupGt (q p : Rat × String) : Bool :=
  p.1 < q.1 || (p.1 == q.1 && decide (p.2 < q.2))

/-- max over the scored candidates, first entry winning ties, matching
heapq.nlargest with n = 1. -/
def maxPair : List (Rat × String) → Option (Rat × String)
  | [] => Option.none
  | p :: rest => some (rest.foldl (fun acc q => if tupGt q acc then q else acc) p)

/-- difflib.get_close_matches with n = 1: the single best candidate whose
three ratio stages all reach the cutoff. -/
def closeMatches1 (word : String) (poss : List String) (cutoff : Rat) : Option String :=
  let b := word.toList
  let scored := poss.filterMap (fun x =>
    let a := x.toList
    if cutoff ≤ realQuickRatio a b && cutoff ≤ quickRatio a b && cutoff ≤ seqRatio a b then
      some (seqRatio a b, x)
    else Option.none)
  (maxPair scored).map (fun p => p.2)

/-- NumericPolicy of validation.py. -/
inductive NumericPolicy where
  | clamp
  | reject
  | bypass
  deriving DecidableEq, Repr

/-- OptionsPolicy of validation.py. -/
inductive OptionsPolicy where
  | nearest
  | reject
  | bypass
  deriving DecidableEq, Repr

/-- RangePolicy of validation.py. -/
inductive RangePolicy where
  | clampItems
  | reject
  | rejectIfInvalidStructure
  | swapIfReversed
  | bypass
  deriving DecidableEq, Repr

/-- MultipleChoicePolicy of validation.py. -/
inductive MultipleChoicePolicy where
  | removeInvalid
  | rejectIfAnyInvalid
  | rejectIfCountInvalid
  | bypass
  deriving DecidableEq, Repr

/-- ListConversionPolicy of validation.py. -/
inductive ListConversionPolicy where
  | convertOrReject
  | convertBestEffort
  | bypass
  deriving DecidableEq, Repr

/-- BooleanPolicy of validation.py. -/
inductive BooleanPolicy where
  | binary
  | strict
  | bypass
  deriving DecidableEq, Repr

/-- The declared field type as the coercion call info.annotation(val)
sees it.  aTupleII is a subscripted tuple alias (whose call behaves like
the tuple constructor); aOther is any annotation whose call raises. -/
inductive Ann where
  | aInt
  | aFloat
  | aStr
  | aBool
  | aTupleII
  | aOther
  deriving DecidableEq, Repr

/-- Python int() truncation toward zero of an exact rational. -/
def ratTrunc (q : Rat) : Int := q.num / (q.den : Int)

/-- The coercion call info.annotation(val); Option.none is a raised
exception (always caught at the call sites). -/
def pyCallAnn : Ann → PyVal → Option PyVal
  | .aInt, v =>
    match v with
    | .bool b => some (.int (if b then 1 else 0))
    | .int n => some (.int n)
    | .float q => some (.int (ratTrunc q))
    | .str s => (pyIntOfStr s).map PyVal.int
    | _ => Option.none
  | .aFloat, v =>
    match v with
    | .bool b => some (.float (if b then 1 else 0))
    | .int n => some (.float (n : Rat))
    | .float q => some (.float q)
    | .str s => (pyFloatOfStr s).map PyVal.float
    | _ => Option.none
  | .aStr, v => some (.str (pyStr v))
  | .aBool, v => some (.bool (pyTruthy v))
  | .aTupleII, v =>
    match v with
    | .list xs => some (.tuple xs)
    | .tuple xs => some (.tuple xs)
    | .str s => some (.tuple (s.toList.map (fun c => .str (String.mk [c]))))
    | _ => Option.none
  | .aOther, _ => Option.none

/-- The format_spec dict of a range field; Option.none means the key is
absent and the documented default applies. -/
structure RangeFmt where
  inputSeparator : Option String := Option.none
  allowSingleValueAsRange : Option Bool := Option.none
  enforceMinLeMax : Option Bool := Option.none
  minItemValue : Option PyVal := Option.none
  maxItemValue : Option PyVal := Option.none
  itemType : Option String := Option.none

/-- The format_spec dict of a multiple_choice field.  maxSelections is
doubly optional: the outer layer models key absence (the default is then
the option count), the inner layer models an explicit None value. -/
structure McFmt where
  inputSeparator : Option String := Option.none
  allowDuplicates : Option Bool := Option.none
  minSelections : Option Int := Option.none
  maxSelections : Option (Option Int) := Option.none

/-- The format_spec dict of a list_conversion field. -/
structure LcFmt where
  inputIsString : Option Bool := Option.none
  inputSeparator : Option String := Option.none
  itemType : Option String := Option.none
  stripItems : Option Bool := Option.none
  allowDuplicates : Option Bool := Option.none
  minItems : Option Int := Option.none
  maxItems : Option Int := Option.none

/-- The format_spec dict of a boolean_flexible field. -/
structure BoolFmt where
  trueValues : Option (List PyVal) := Option.none
  falseValues : Option (List PyVal) := Option.none

/-- Embedded format categories (path_string and multiple_ranges are out
of the embedding, see the header). -/
inductive Fmt where
  | range (rf : RangeFmt)
  | multipleChoice (mf : McFmt)
  | listConversion (lf : LcFmt)
  | booleanFlexible (bf : BoolFmt)

/-- One field of a model: constraints from Field metadata, options and
format_spec and the editable flag from json_schema_extra, and per-field
autofix policy overrides. -/
structure FieldSpec where
  ann : Ann := .aOther
  ge : Option PyVal := Option.none
  gt : Option PyVal := Option.none
  le : Option PyVal := Option.none
  lt : Option PyVal := Option.none
  minLength : Option Nat := Option.none
  maxLength : Option Nat := Option.none
  multipleOf : Option PyVal := Option.none
  options : Option (List PyVal) := Option.none
  fmt : Option Fmt := Option.none
  editable : Bool := true
  ovNumeric : Option NumericPolicy := Option.none
  ovOptions : Option OptionsPolicy := Option.none
  ovRange : Option RangePolicy := Option.none
  ovMultipleChoice : Option MultipleChoicePolicy := Option.none
  ovListConversion : Option ListConversionPolicy := Option.none
  ovBoolean : Option BooleanPolicy := Option.none

/-- Engine-level default policies fixed when attach_auto_fix decorates a
model, with their documented defaults. -/
structure PolicySet where
  numeric : NumericPolicy := .clamp
  optionsP : OptionsPolicy := .nearest
  rangeP : RangePolicy := .clampItems
  multipleChoiceP : MultipleChoicePolicy := .removeInvalid
  listConversionP : ListConversionPolicy := .convertOrReject
  booleanP : BooleanPolicy := .binary
  evalExpressions : Bool := true

/-- Python membership test v in xs. -/
def pyIn (v : PyVal) (xs : List PyVal) : Bool := xs.any (fun x => pyEq x v)

mutual

/-- Python hashability (set membership raises TypeError otherwise). -/
def pyHashable : PyVal → Bool
  | .list _ => false
  | .emptyDict => false
  | .tuple xs => pyHashableL xs
  | _ => true

/-- Hashability of every element of a tuple. -/
def pyHashableL : List PyVal → Bool
  | [] => true
  | x :: xs => pyHashable x && pyHashableL xs

end

/-- The local namespace built by _auto_fix_numeric for _safe_eval: the
copied _SAFE_NAMES dict with v, x, min and max written over it (the dict
update replaces the min and max builtins by the field bounds, so name
lookups see the bounds while calls still reach the builtins). -/
def numFixNames (rawVal : PyVal) (low high : Option PyVal) : List (String × PyVal) :=
  [("abs", .fn .fabs), ("round", .fn .fround), ("sqrt", .fn .fsqrt),
   ("pi", .float piFloat), ("e", .float eFloat), ("__builtins__", .emptyDict),
   ("v", rawVal), ("x", rawVal),
   ("min", low.getD .none), ("max", high.getD .none)]

/-- expr.startswith(("/", "*", "+", "-")). -/
def startsWithOp (s : String) : Bool :=
  s.startsWith "/" || s.startsWith "*" || s.startsWith "+" || s.startsWith "-"

/-- The coercion / expression-evaluation prelude of _auto_fix_numeric:
a string value is fed through _safe_eval when expressions are enabled,
keeping the original on the None sentinel. -/
def numEvalStage (p : Parse) (low high : Option PyVal) (evalAllowed : Bool)
    (rawVal : PyVal) : PyVal :=
  match rawVal with
  | .str s =>
    if evalAllowed then
      let expr := if startsWithOp s then strCat "v" s else s
      let ev := safeEvalStr p expr (numFixNames rawVal low high)
      if pyIsNone ev then rawVal else ev
    else rawVal
  | v => v

/-- The enforcement section of _auto_fix_numeric, applied to the coerced
value: pass when no bound is set or under bypass, clamp each set bound in
sequence under clamp, and return the None sentinel on any violation under
reject.  Comparing against a non-numeric bound raises TypeError. -/
def numEnforce (low high : Option PyVal) (pol : NumericPolicy) (val : PyVal) :
    Except PErr PyVal :=
  if low.isNone && high.isNone then .ok val
  else if pol = .bypass then .ok val
  else if pol = .clamp then
    let step1 : Except PErr PyVal :=
      match low with
      | some lo =>
        match pyLtE val lo with
        | .error e => .error e
        | .ok lt => .ok (if lt then lo else val)
      | Option.none => .ok val
    match step1 with
    | .error e => .error e
    | .ok v1 =>
      match high with
      | some hi =>
        match pyGtE v1 hi with
        | .error e => .error e
        | .ok gt => .ok (if gt then hi else v1)
      | Option.none => .ok v1
  else
    match low with
    | some lo =>
      match pyLtE val lo with
      | .error e => .error e
      | .ok lt =>
        if lt then .ok .none
        else
          match high with
          | some hi =>
            match pyGtE val hi with
            | .error e => .error e
            | .ok gt => if gt then .ok .none else .ok val
          | Option.none => .ok val
    | Option.none =>
      match high with
      | some hi =>
        match pyGtE val hi with
        | .error e => .error e
        | .ok gt => if gt then .ok .none else .ok val
      | Option.none => .ok val

/-- _auto_fix_numeric: optional expression evaluation, coercion to the
declared type (bypass falls back to the raw value on coercion failure,
other policies reject), then bound enforcement. -/
def numFix (p : Parse) (ann : Ann) (low high : Option PyVal) (pol : NumericPolicy)
    (evalAllowed : Bool) (rawVal : PyVal) : Except PErr PyVal :=
  let val := numEvalStage p low high evalAllowed rawVal
  let coerced : Option PyVal :=
    if pyIsNum val then some val else pyCallAnn ann val
  match coerced with
  | Option.none => if pol = .bypass then .ok rawVal else .ok .none
  | some val => numEnforce low high pol val

/-- _auto_fix_options: exact containment first, then fuzzy match under
the nearest policy for string inputs, else the rejection sentinel. -/
def optFix (opts : List PyVal) (pol : OptionsPolicy) (val : PyVal) : PyVal :=
  if pyIn val opts || pol = .bypass then val
  else
    match pol, val with
    | .nearest, .str s =>
      match closeMatches1 s (opts.map pyStr) (mkRat 2 5) with
      | some hit => .str hit
      | Option.none => .none
    | _, _ => .none

/-- The per-item coercion closure of _auto_fix_range (int or float call
with exceptions caught). -/
def coerceRangeItem (isInt : Bool) (x : PyVal) : Option PyVal :=
  if isInt then pyCallAnn .aInt x else pyCallAnn .aFloat x

/-- The string parsing stage of _auto_fix_range: split on the separator,
strip the parts, duplicate a single part under allow_single_value_as_range;
non-strings pass through. -/
def rangeParse (sep : String) (allowSingle : Bool) (val0 : PyVal) : PyVal :=
  match val0 with
  | .str s =>
    let parts := (pySplit s sep).map (fun x => PyVal.str (pyStrip x))
    if parts.length = 1 && allowSingle then
      .list [parts.getD 0 .none, parts.getD 0 .none]
    else .list parts
  | v => v

/-- The single-number widening stage of _auto_fix_range. -/
def rangePair (allowSingle : Bool) (v1 : PyVal) : PyVal :=
  if pyIsNum v1 && allowSingle then .list [v1, v1] else v1

/-- The two-element structural test of _auto_fix_range. -/
def rangeElems : PyVal → Option (PyVal × PyVal)
  | .list [a, b] => some (a, b)
  | .tuple [a, b] => some (a, b)
  | _ => Option.none

/-- The per-item lower-bound step of _auto_fix_range (comparison errors
propagate, clamping only under clamp_items). -/
def clampMin (pol : RangePolicy) (bnd : Option PyVal) (x : PyVal) : Except PErr PyVal :=
  match bnd with
  | some m => do
    let lt ← pyLtE x m
    pure (if lt && pol = .clampItems then m else x)
  | Option.none => pure x

/-- The per-item upper-bound step of _auto_fix_range. -/
def clampMax (pol : RangePolicy) (bnd : Option PyVal) (x : PyVal) : Except PErr PyVal :=
  match bnd with
  | some m => do
    let gt ← pyGtE x m
    pure (if gt && pol = .clampItems then m else x)
  | Option.none => pure x

/-- The ordering enforcement tail of _auto_fix_range. -/
def rangeOrder (enforceOrder : Bool) (pol : RangePolicy) (a b : PyVal) : Except PErr PyVal :=
  if enforceOrder then do
    let gt ← pyGtE a b
    if gt then
      if pol = .swapIfReversed || pol = .clampItems then .ok (.tuple [b, a])
      else if pol = .bypass then .ok (.tuple [a, b])
      else .ok .none
    else .ok (.tuple [a, b])
  else .ok (.tuple [a, b])

/-- _auto_fix_range: parse a separator-delimited string or two-element
sequence, coerce the items, clamp per item under clamp_items, then
enforce ordering per policy. -/
def rangeFix (rf : RangeFmt) (pol : RangePolicy) (val0 : PyVal) : Except PErr PyVal :=
  if pyIsNone val0 then .ok val0 else
  let sep := rf.inputSeparator.getD "-"
  let allowSingle := rf.allowSingleValueAsRange.getD false
  let enforceOrder := rf.enforceMinLeMax.getD true
  let isInt := (rf.itemType.getD "int") == "int"
  let v2 := rangePair allowSingle (rangeParse sep allowSingle val0)
  match rangeElems v2 with
  | Option.none =>
    if pol = .reject || pol = .rejectIfInvalidStructure then .ok .none else .ok v2
  | some (x, y) =>
    match coerceRangeItem isInt x, coerceRangeItem isInt y with
    | some a0, some b0 => do
      let a1 ← clampMin pol rf.minItemValue a0
      let b1 ← clampMin pol rf.minItemValue b0
      let a ← clampMax pol rf.maxItemValue a1
      let b ← clampMax pol rf.maxItemValue b1
      rangeOrder enforceOrder pol a b
    | _, _ =>
      if pol = .reject || pol = .rejectIfInvalidStructure then .ok .none else .ok v2

/-- The filtering loop of _auto_fix_multiple_choice; Option.none in the
result is the whole-field rejection of reject_if_any_invalid.  Unhashable
items raise at the seen-set membership test. -/
def mcLoop (opts : List PyVal) (allowDup : Bool) (pol : MultipleChoicePolicy) :
    List PyVal → List PyVal → List PyVal → Except PErr (Option (List PyVal))
  | [], _, items => .ok (some items)
  | item :: rest, seen, items =>
    if !allowDup then
      if !pyHashable item then .error .typeError
      else if pyIn item seen then mcLoop opts allowDup pol rest seen items
      else
        let seen := item :: seen
        if pyIn item opts then mcLoop opts allowDup pol rest seen (items ++ [item])
        else if pol = .rejectIfAnyInvalid then .ok Option.none
        else mcLoop opts allowDup pol rest seen items
    else
      if pyIn item opts then mcLoop opts allowDup pol rest seen (items ++ [item])
      else if pol = .rejectIfAnyInvalid then .ok Option.none
      else mcLoop opts allowDup pol rest seen items

/-- _auto_fix_multiple_choice: parse, filter against the options, then
check the selection count (max_selections defaults to the option count). -/
def mcFix (opts : List PyVal) (mf : McFmt) (pol : MultipleChoicePolicy) (val0 : PyVal) :
    Except PErr PyVal :=
  if pyIsNone val0 then .ok val0 else
  let allowDup := mf.allowDuplicates.getD false
  let sepTruthy :=
    match mf.inputSeparator with
    | some s => s != ""
    | Option.none => false
  let v1 : List PyVal :=
    match val0 with
    | .str s =>
      if sepTruthy then
        ((pySplit s (mf.inputSeparator.getD "")).map pyStrip).filterMap
          (fun t => if t ≠ "" then some (PyVal.str t) else Option.none)
      else [val0]
    | .list xs => xs
    | v => [v]
  do
    let loopRes ← mcLoop opts allowDup pol v1 [] []
    match loopRes with
    | Option.none => .ok .none
    | some items =>
      let val2 : List PyVal := if pol = .removeInvalid then items else v1
      let count : Int := (val2.length : Int)
      let minSel := mf.minSelections
      let maxSel : Option Int :=
        match mf.maxSelections with
        | Option.none => some (opts.length : Int)
        | some m => m
      let bad :=
        (match minSel with
         | some m => decide (count < m)
         | Option.none => false) ||
        (match maxSel with
         | some m => decide (m < count)
         | Option.none => false)
      if bad && pol = .rejectIfCountInvalid then .ok .none
      else .ok (.list val2)

/-- The per-item converter closure of _auto_fix_list_conversion. -/
def lcConvert (itn : String) (x : PyVal) : Option PyVal :=
  if itn == "int" then pyCallAnn .aInt x
  else if itn == "float" then pyCallAnn .aFloat x
  else if itn == "bool" then
    match x with
    | .bool b => some (.bool b)
    | x => some (.bool (["1", "true", "yes", "on"].contains (strLower (pyStr x))))
  else some (.str (pyStr x))

/-- The conversion loop of _auto_fix_list_conversion; Option.none is the
whole-field rejection when an item fails under a non-best-effort policy. -/
def lcLoop (itn : String) (pol : ListConversionPolicy) :
    List PyVal → List PyVal → Option (List PyVal)
  | [], acc => some acc
  | x :: rest, acc =>
    match lcConvert itn x with
    | Option.none =>
      if pol = .convertBestEffort then lcLoop itn pol rest acc else Option.none
    | some c => lcLoop itn pol rest (acc ++ [c])

/-- Keep-first deduplication (the seen set loop; converted items are
always hashable). -/
def dedupPy : List PyVal → List PyVal → List PyVal
  | [], _ => []
  | x :: rest, seen =>
    if pyIn x seen then dedupPy rest seen else x :: dedupPy rest (x :: seen)

/-- Python list slicing out[:m] including negative m. -/
def pySliceTo (xs : List PyVal) (m : Int) : List PyVal :=
  if 0 ≤ m then xs.take m.toNat
  else xs.take (xs.length - min xs.length (-m).toNat)

/-- _auto_fix_list_conversion: parse, convert each item, deduplicate,
enforce the size window (truncating over-long output). -/
def lcFix (lf : LcFmt) (pol : ListConversionPolicy) (val0 : PyVal) : Except PErr PyVal :=
  if pyIsNone val0 then .ok val0 else
  let inputIsString := lf.inputIsString.getD false
  let sep := lf.inputSeparator.getD ","
  let itn := lf.itemType.getD "int"
  let strip := lf.stripItems.getD true
  let v1 : List PyVal :=
    match val0 with
    | .str s =>
      if inputIsString then
        let parts := pySplit s sep
        (if strip then parts.map pyStrip else parts).map PyVal.str
      else [val0]
    | .list xs => xs
    | v => [v]
  match lcLoop itn pol v1 [] with
  | Option.none => .ok .none
  | some out =>
    let out := if !(lf.allowDuplicates.getD true) then dedupPy out [] else out
    let shortBad :=
      match lf.minItems with
      | some m => decide ((out.length : Int) < m)
      | Option.none => false
    if shortBad && pol ≠ .convertBestEffort then .ok .none
    else
      let out :=
        match lf.maxItems with
        | some m => if decide (m < (out.length : Int)) then pySliceTo out m else out
        | Option.none => out
      .ok (.list out)

/-- Default true_values of _auto_fix_boolean. -/
def defaultTrueVals : List PyVal :=
  [.str "true", .str "t", .str "yes", .str "y", .str "on", .str "1", .int 1, .float 1]

/-- Default false_values of _auto_fix_boolean. -/
def defaultFalseVals : List PyVal :=
  [.str "false", .str "f", .str "no", .str "n", .str "off", .str "0", .int 0, .float 0]

/-- _auto_fix_boolean: booleans pass, then case-insensitive token match,
then truthiness under binary, rejection under strict. -/
def boolFix (bf : BoolFmt) (pol : BooleanPolicy) (val0 : PyVal) : PyVal :=
  if pyIsNone val0 || pol = .bypass then val0
  else
    match val0 with
    | .bool b => .bool b
    | v =>
      let trueSet := (bf.trueValues.getD defaultTrueVals).map (fun x => strLower (pyStr x))
      let falseSet := (bf.falseValues.getD defaultFalseVals).map (fun x => strLower (pyStr x))
      let sval := strLower (pyStr v)
      if trueSet.contains sval then .bool true
      else if falseSet.contains sval then .bool false
      else if pol = .binary then .bool (pyTruthy v)
      else .none

/-- The generic min_length check of the _auto body (rejects only under
the reject numeric policy). -/
def lenCheckMin (mlen : Option Nat) (pol : NumericPolicy) (v : PyVal) : PyVal :=
  if pyIsNone v then v
  else
    match mlen, pyLenO v with
    | some m, some l => if l < m && pol = .reject then .none else v
    | _, _ => v

/-- The generic max_length check of the _auto body. -/
def lenCheckMax (mlen : Option Nat) (pol : NumericPolicy) (v : PyVal) : PyVal :=
  if pyIsNone v then v
  else
    match mlen, pyLenO v with
    | some m, some l => if m < l && pol = .reject then .none else v
    | _, _ => v

/-- The generic multiple_of check of the _auto body: snap to the nearest
multiple under clamp, reject under reject, pass under bypass.  A zero
multiple raises ZeroDivisionError exactly as val / mult_of does. -/
def multCheck (multOf : Option PyVal) (pol : NumericPolicy) (v : PyVal) : Except PErr PyVal :=
  if pyIsNone v then .ok v
  else
    match multOf with
    | Option.none => .ok v
    | some m =>
      if pyIsNum v then
        if !pyIsNum m then .error .typeError
        else if toR m = 0 then .error .zeroDivision
        else
          let q := qDiv (toR v) (toR m)
          if ¬ (qSub q ((q.floor : Int) : Rat) = 0) then
            if pol = .clamp then .ok (numPair (.int (bankRound q)) m qMul (· * ·))
            else if pol = .reject then .ok .none
            else .ok v
          else .ok v
      else .ok v

/-- Whether the declared format type is multiple_choice (the condition
guarding the generic options stage). -/
def fmtIsMc : Option Fmt → Bool
  | some (.multipleChoice _) => true
  | _ => false

/-- The per-field body of the injected _auto validator: format-specific
fixer first, then the generic numeric, options, length and multiple-of
checks, all under the effective (override-resolved) policies.  The
result Python None is the rejection sentinel. -/
def fixVal (p : Parse) (ps : PolicySet) (s : FieldSpec) (v0 : PyVal) : Except PErr PyVal := do
  let effNum := s.ovNumeric.getD ps.numeric
  let effOpt := s.ovOptions.getD ps.optionsP
  let effRange := s.ovRange.getD ps.rangeP
  let effMc := s.ovMultipleChoice.getD ps.multipleChoiceP
  let effLc := s.ovListConversion.getD ps.listConversionP
  let effBool := s.ovBoolean.getD ps.booleanP
  let low := s.ge.orElse (fun _ => s.gt)
  let high := s.le.orElse (fun _ => s.lt)
  let v1 ←
    match s.fmt with
    | some (.range rf) => rangeFix rf effRange v0
    | some (.multipleChoice mf) => mcFix (s.options.getD []) mf effMc v0
    | some (.listConversion lf) => lcFix lf effLc v0
    | some (.booleanFlexible bf) => pure (boolFix bf effBool v0)
    | Option.none => pure v0
  let v2 ←
    if low.isSome || high.isSome || s.multipleOf.isSome then
      numFix p s.ann low high effNum ps.evalExpressions v1
    else pure v1
  let optsT := s.options.getD []
  let v3 := if !optsT.isEmpty && !fmtIsMc s.fmt then optFix optsT effOpt v2 else v2
  let v4 := lenCheckMax s.maxLength effNum (lenCheckMin s.minLength effNum v3)
  multCheck s.multipleOf effNum v4

/-- One field of the _auto loop including the final keep line: the fixed
value is written back only when it is not the rejection sentinel, so a
rejected field keeps its original raw value. -/
def fixField (p : Parse) (ps : PolicySet) (s : FieldSpec) (v0 : PyVal) : Except PErr PyVal := do
  let w ← fixVal p ps s v0
  pure (if pyIsNone w then v0 else w)

/-- Lookup in a raw field mapping. -/
def alookup (m : List (String × PyVal)) (k : String) : Option PyVal :=
  match m with
  | [] => Option.none
  | (k', v) :: rest => if k' == k then some v else alookup rest k

/-- In-place update of the first binding of a key (dict assignment on an
existing key). -/
def aupdate (m : List (String × PyVal)) (k : String) (v : PyVal) : List (String × PyVal) :=
  match m with
  | [] => []
  | (k', v') :: rest => if k' == k then (k, v) :: rest else (k', v') :: aupdate rest k v

/-- The _auto model validator over a raw mapping: iterate the model
fields in declaration order, fix each field present in the input, and
return the updated mapping.  An uncaught Python exception inside a fixer
aborts the pass. -/
def autoFixPass (p : Parse) (ps : PolicySet) :
    List (String × FieldSpec) → List (String × PyVal) → Except PErr (List (String × PyVal))
  | [], raw => .ok raw
  | (nm, s) :: rest, raw =>
    match alookup raw nm with
    | Option.none => autoFixPass p ps rest raw
    | some v => do
      let w ← fixField p ps s v
      autoFixPass p ps rest (aupdate raw nm w)

/-- Error outcomes of the ConfigInstance write operations: valueErr is a
ValueError (a caught ValidationError rewrapped, or the bad-source
ValueError), permErr a PermissionError, keyErr a KeyError or
AttributeError from path traversal, pyCrash an uncaught Python
exception escaping a validator. -/
inductive SetErr where
  | valueErr
  | permErr
  | keyErr
  | pyCrash (e : PErr)
  deriving DecidableEq, Repr

/-- Lookup of a field spec in model_fields. -/
def slookup (m : List (String × FieldSpec)) (k : String) : Option FieldSpec :=
  match m with
  | [] => Option.none
  | (k', s) :: rest => if k' == k then some s else slookup rest k

/-- The typed-model class as ConfigInstance uses it: the ordered field
specs, the attach-time policy set of its _auto validator, and the
structural validation the model performs after auto-fix (an arbitrary
function standing for pydantic; Option.none is a ValidationError). -/
structure ModelCls where
  specs : List (String × FieldSpec)
  ps : PolicySet
  structOk : List (String × PyVal) → Option (List (String × PyVal))

/-- model_cls(**raw): run the before-mode _auto validator, then
structural validation.  A validated instance is represented by its
model_dump mapping. -/
def construct (m : ModelCls) (p : Parse) (raw : List (String × PyVal)) :
    Except PErr (Option (List (String × PyVal))) := do
  let fixed ← autoFixPass p m.ps m.specs raw
  pure (m.structOk fixed)

/-- State of one ConfigInstance: the defaults instance, the active
instance, the backing file (outer layer: a save path is configured;
inner layer: the file exists, with its parsed content), and auto_save. -/
structure CI where
  defaults : List (String × PyVal)
  active : List (String × PyVal)
  savedFile : Option (Option (List (String × PyVal)))
  autoSave : Bool

/-- ConfigInstance.set_value for a single-segment path: _deep_set builds
the updated mapping and re-validates it (reading the key first, so a
missing field is a KeyError), the editability metadata is checked next,
and only then is the fully validated replacement produced.  A
ValidationError from either construction is caught and rewrapped as a
ValueError; PermissionError and KeyError propagate. -/
def setValue (m : ModelCls) (p : Parse) (ci : CI) (k : String) (v : PyVal) :
    Except SetErr (List (String × PyVal)) :=
  match alookup ci.active k with
  | Option.none => .error .keyErr
  | some _ =>
    match construct m p (aupdate ci.active k v) with
    | .error e => .error (.pyCrash e)
    | .ok Option.none => .error .valueErr
    | .ok (some newInst) =>
      match slookup m.specs k with
      | Option.none => .error .keyErr
      | some spec =>
        if spec.editable = false then .error .permErr
        else
          match construct m p newInst with
          | .error e => .error (.pyCrash e)
          | .ok Option.none => .error .valueErr
          | .ok (some a2) => .ok a2

/-- The instance-level effect of set_value: on any error the active
state is untouched; on success active is replaced wholesale and, when
auto_save is set, the save call then dies of the unconditional
self-recursion of the surviving save definition (the class body defines
save twice and the second one always calls itself), which the caller
sees as a RecursionError after the swap. -/
def applySetValue (m : ModelCls) (p : Parse) (ci : CI) (k : String) (v : PyVal) :
    CI × Option SetErr :=
  match setValue m p ci k v with
  | .error e => (ci, some e)
  | .ok a2 =>
    if ci.autoSave then ({ ci with active := a2 }, some (.pyCrash .recursionError))
    else ({ ci with active := a2 }, Option.none)

/-- ConfigInstance._load_or_defaults: re-read the backing file when it
exists, falling back to defaults on a caught ValidationError, ValueError
or TypeError; when a save path is configured but the file is missing,
the bootstrap save(self._defaults) first reassigns self._active to the
defaults instance and only then dies of the save self-recursion (the
class body defines save twice and the surviving definition assigns
obj or self._active before calling itself).  The first component is the
active mapping after the call - mutated exactly on that bootstrap path -
and the second the returned instance or the raised error. -/
def loadOrDefaults (m : ModelCls) (p : Parse) (ci : CI) :
    List (String × PyVal) × Except SetErr (List (String × PyVal)) :=
  match ci.savedFile with
  | some (some raw) =>
    (ci.active,
      match construct m p raw with
      | .ok (some inst) => .ok inst
      | .ok Option.none => .ok ci.defaults
      | .error .typeError => .ok ci.defaults
      | .error e => .error (.pyCrash e))
  | some Option.none => (ci.defaults, .error (.pyCrash .recursionError))
  | Option.none => (ci.active, .ok ci.defaults)

/-- ConfigInstance.restore_value as the caller sees it: fetch the value
from defaults or from the re-read file, then delegate to set_value; any
other source is a ValueError. -/
def restoreValue (m : ModelCls) (p : Parse) (ci : CI) (k : String) (source : String) :
    Except SetErr (List (String × PyVal)) :=
  if source == "default" then
    match alookup ci.defaults k with
    | Option.none => .error .keyErr
    | some v => setValue m p ci k v
  else if source == "file" then
    match (loadOrDefaults m p ci).2 with
    | .error e => .error e
    | .ok onDisk =>
      match alookup onDisk k with
      | Option.none => .error .keyErr
      | some v => setValue m p ci k v
  else .error .valueErr

/-- The instance-level effect of restore_value, mirroring applySetValue
except that on the file source the load step's bootstrap mutation of
active survives the raised error. -/
def applyRestoreValue (m : ModelCls) (p : Parse) (ci : CI) (k : String) (source : String) :
    CI × Option SetErr :=
  let ci1 := if source == "file"
    then { ci with active := (loadOrDefaults m p ci).1 } else ci
  match restoreValue m p ci k source with
  | .error e => (ci1, some e)
  | .ok a2 =>
    if ci.autoSave then ({ ci with active := a2 }, some (.pyCrash .recursionError))
    else ({ ci with active := a2 }, Option.none)

/-- The error set_value raises for a non-editable existing field, as a
function of how far the call gets: a crash or validation failure in the
deep-set reconstruction fires first, otherwise the editability check
raises PermissionError. -/
def editBlockErr (m : ModelCls) (p : Parse) (active : List (String × PyVal))
    (k : String) (v : PyVal) : SetErr :=
  match construct m p (aupdate active k v) with
  | .error pe => .pyCrash pe
  | .ok Option.none => .valueErr
  | .ok (some _) => .permErr

/-- Whether the generic numeric stage runs for a field (a bound or a
multiple_of is declared). -/
def numericDeclared (s : FieldSpec) : Bool :=
  (s.ge.orElse fun _ => s.gt).isSome || (s.le.orElse fun _ => s.lt).isSome ||
    s.multipleOf.isSome

/-- A declared item bound is stored in the range item type itself. -/
def boundMatches (isInt : Bool) : Option PyVal → Bool
  | Option.none => true
  | some (.int _) => isInt
  | some (.float _) => !isInt
  | some _ => false

/-- Item bounds of a range format are exactly representable in its item
type (a fractional bound under an int item type is the idempotence
counterexample). -/
def rangeFmtOk (rf : RangeFmt) : Bool :=
  boundMatches ((rf.itemType.getD "int") == "int") rf.minItemValue &&
  boundMatches ((rf.itemType.getD "int") == "int") rf.maxItemValue

/-- A declared max_items of a list_conversion format is non-negative
(a negative slice bound shortens the list on every pass) and at least
min_items (otherwise truncating to max_items falls below min_items and
the next pass rejects). -/
def lcFmtOk (lf : LcFmt) : Bool :=
  (match lf.maxItems with
   | some m => decide (0 ≤ m)
   | Option.none => true) &&
  (match lf.minItems, lf.maxItems with
   | some mn, some mx => decide (mn ≤ mx)
   | _, _ => true)

/-- The type-consistency conditions under which one field of the
auto-fix pass is a stable fixed point: no options list, numeric
annotation whenever numeric constraints are declared, type-consistent
range bounds, no numeric constraints on a boolean_flexible field, and a
non-negative list_conversion max_items. -/
def specStable (s : FieldSpec) : Bool :=
  s.options.isNone &&
  (!numericDeclared s || (s.ann == Ann.aInt || s.ann == Ann.aFloat)) &&
  (match s.fmt with
   | some (.range rf) => rangeFmtOk rf
   | some (.booleanFlexible _) => !numericDeclared s
   | some (.listConversion lf) => lcFmtOk lf
   | _ => true)

/-- The format-dispatch stage of the _auto body with no declared options
(the multiple_choice option list is then empty). -/
def fmtStage (ps : PolicySet) (s : FieldSpec) (v : PyVal) : Except PErr PyVal :=
  match s.fmt with
  | some (.range rf) => rangeFix rf (s.ovRange.getD ps.rangeP) v
  | some (.multipleChoice mf) => mcFix [] mf (s.ovMultipleChoice.getD ps.multipleChoiceP) v
  | some (.listConversion lf) => lcFix lf (s.ovListConversion.getD ps.listConversionP) v
  | some (.booleanFlexible bf) => pure (boolFix bf (s.ovBoolean.getD ps.booleanP) v)
  | Option.none => pure v

/-- The numeric stage of the _auto body: the numeric fixer runs exactly
when a bound or multiple_of is declared. -/
def numBranch (p : Parse) (ps : PolicySet) (s : FieldSpec) (v1 : PyVal) : Except PErr PyVal :=
  if numericDeclared s then
    numFix p s.ann (s.ge.orElse fun _ => s.gt) (s.le.orElse fun _ => s.lt)
      (s.ovNumeric.getD ps.numeric) ps.evalExpressions v1
  else pure v1

/-- The length and multiple_of tail of the _auto body. -/
def fixTail (ps : PolicySet) (s : FieldSpec) (v2 : PyVal) : Except PErr PyVal :=
  multCheck s.multipleOf (s.ovNumeric.getD ps.numeric)
    (lenCheckMax s.maxLength (s.ovNumeric.getD ps.numeric)
      (lenCheckMin s.minLength (s.ovNumeric.getD ps.numeric) v2))

/-- A parse stub for concrete runs that involve no string expressions
(ast.parse is never consulted on them). -/
def parseNone : Parse := fun _ => Option.none

/-- The range format of the idempotence counterexample: default int item
type with a fractional upper item bound. -/
def rangeMismatchFmt : RangeFmt := { maxItemValue := some (.float (mkRat 15 2)) }

/-- A field declaring only that range format. -/
def rangeMismatchSpec : FieldSpec := { fmt := some (.range rangeMismatchFmt) }

/-- An int field with a lower bound under the reject numeric policy (for
the rejection-sentinel claims). -/
def rejectLowSpec : FieldSpec :=
  { ann := .aInt, ge := some (.int 0), ovNumeric := some .reject }

/-- Structural validation stub of a one-int-field model called f: the
mapping validates when f holds an int (pydantic rejects a non-numeric
string for an int field). -/
def intFieldOk (m : List (String × PyVal)) : Option (List (String × PyVal)) :=
  match alookup m "f" with
  | some (.int _) => some m
  | _ => Option.none

/-- A model whose single int field f is marked editable=False. -/
def lockedModel : ModelCls :=
  { specs := [("f", { ann := .aInt, editable := false })], ps := {}, structOk := intFieldOk }

/-- A registered instance of lockedModel with no backing file. -/
def lockedCI : CI :=
  { defaults := [("f", .int 1)], active := [("f", .int 1)],
    savedFile := Option.none, autoSave := false }

/-- A model whose single int field f is editable, for the all-or-nothing
write claims. -/
def plainIntModel : ModelCls :=
  { specs := [("f", { ann := .aInt })], ps := {}, structOk := intFieldOk }

/-- A registered instance of plainIntModel with no backing file. -/
def plainIntCI : CI :=
  { defaults := [("f", .int 1)], active := [("f", .int 1)],
    savedFile := Option.none, autoSave := false }

mutual

theorem pvBeq_iff : ∀ (a b : PyVal), pvBeq a b = true ↔ a = b := fun a b => by
  cases a <;> cases b <;> simp [pvBeq]
  case list.list as bs => exact pvBeqL_iff as bs
  case tuple.tuple as bs => exact pvBeqL_iff as bs
termination_by a _ => sizeOf a

theorem pvBeqL_iff : ∀ (as bs : List PyVal), pvBeqL as bs = true ↔ as = bs := fun as bs => by
  cases as <;> cases bs <;> simp [pvBeqL]
  case cons.cons a as b bs => rw [pvBeq_iff a b, pvBeqL_iff as bs]
termination_by as _ => sizeOf as

end

instance : DecidableEq PyVal := fun a b => decidable_of_iff _ (pvBeq_iff a b)

deriving instance DecidableEq for Except

theorem pyIsNum_not_str {v : PyVal} (hv : pyIsNum v = true) : pyIsStr v = false := by
  cases v <;> simp_all [pyIsNum, pyIsStr]

theorem pyIsNum_not_none {v : PyVal} (hv : pyIsNum v = true) : pyIsNone v = false := by
  cases v <;> simp_all [pyIsNum, pyIsNone]

theorem pyLtE_num {a b : PyVal} (ha : pyIsNum a = true) (hb : pyIsNum b = true) :
    pyLtE a b = .ok (decide (toR a < toR b)) := by
  cases a <;> cases b <;> simp_all [pyLtE, pyIsNum]

theorem numEvalStage_nonstr (p : Parse) (l h : Option PyVal) (e : Bool) {v : PyVal}
    (hv : pyIsStr v = false) : numEvalStage p l h e v = v := by
  cases v <;> simp_all [numEvalStage, pyIsStr]

/-- C6: for a range-format field with item bounds 0 and 10 under the
clamp_items policy and the default separator and order enforcement, the
input string "12-3" is fixed to the pair (3, 10): 12 is clamped down to
10, 3 is kept, and the reversed pair is then swapped. -/
theorem C6_range_clamp_swap_concrete :
    rangeFix { minItemValue := some (.int 0), maxItemValue := some (.int 10) }
      .clampItems (.str "12-3") = .ok (.tuple [.int 3, .int 10]) := by
  decide

/-- C4: under the clamp policy with only one bound declared, clamping
affects only that side: with only a lower bound, every numeric value
below it becomes the bound and every value at or above it is returned
unchanged no matter how large; symmetrically with only an upper bound. -/
theorem C4_clamp_single_bound (p : Parse) (ann : Ann) (ev : Bool) (v b : PyVal)
    (hv : pyIsNum v = true) (hb : pyIsNum b = true) :
    numFix p ann (some b) Option.none .clamp ev v = .ok (if toR v < toR b then b else v) ∧
    numFix p ann Option.none (some b) .clamp ev v = .ok (if toR b < toR v then b else v) := by
  have hs := pyIsNum_not_str hv
  constructor
  · simp only [numFix, numEvalStage_nonstr p (some b) Option.none ev hs, hv, if_true]
    simp [numEnforce, pyLtE_num hv hb]
  · simp only [numFix, numEvalStage_nonstr p Option.none (some b) ev hs, hv, if_true]
    simp [numEnforce, pyGtE, pyLtE_num hb hv]

/-- Witness for C4 at concrete inputs: a field with only ge 4000 keeps
the huge value 100000000 unchanged and lifts 5 to the bound. -/
theorem C4_clamp_single_bound_witness :
    numFix parseNone .aInt (some (.int 4000)) Option.none .clamp true (.int 100000000) =
      .ok (if toR (.int 100000000) < toR (.int 4000) then (.int 4000) else (.int 100000000)) ∧
    numFix parseNone .aInt (some (.int 4000)) Option.none .clamp true (.int 5) =
      .ok (if toR (.int 5) < toR (.int 4000) then (.int 4000) else (.int 5)) :=
  ⟨(C4_clamp_single_bound parseNone .aInt true (.int 100000000) (.int 4000) rfl rfl).1,
   (C4_clamp_single_bound parseNone .aInt true (.int 5) (.int 4000) rfl rfl).1⟩

theorem qAdd_eq (a b : Rat) : qAdd a b = a + b := by
  rw [qAdd, Rat.divInt_eq_div]
  have ha : ((a.den : Int) : Rat) ≠ 0 := by
    exact_mod_cast (Nat.cast_ne_zero (R := Rat)).mpr a.den_nz
  have hb : ((b.den : Int) : Rat) ≠ 0 := by
    exact_mod_cast (Nat.cast_ne_zero (R := Rat)).mpr b.den_nz
  conv_rhs => rw [← Rat.num_div_den a, ← Rat.num_div_den b]
  push_cast at ha hb ⊢
  field_simp

theorem qSub_eq (a b : Rat) : qSub a b = a - b := by
  rw [qSub, Rat.divInt_eq_div]
  have ha : ((a.den : Int) : Rat) ≠ 0 := by
    exact_mod_cast (Nat.cast_ne_zero (R := Rat)).mpr a.den_nz
  have hb : ((b.den : Int) : Rat) ≠ 0 := by
    exact_mod_cast (Nat.cast_ne_zero (R := Rat)).mpr b.den_nz
  conv_rhs => rw [← Rat.num_div_den a, ← Rat.num_div_den b]
  push_cast at ha hb ⊢
  field_simp
  ring

theorem qMul_eq (a b : Rat) : qMul a b = a * b := by
  rw [qMul, Rat.divInt_eq_div]
  have ha : ((a.den : Int) : Rat) ≠ 0 := by
    exact_mod_cast (Nat.cast_ne_zero (R := Rat)).mpr a.den_nz
  have hb : ((b.den : Int) : Rat) ≠ 0 := by
    exact_mod_cast (Nat.cast_ne_zero (R := Rat)).mpr b.den_nz
  conv_rhs => rw [← Rat.num_div_den a, ← Rat.num_div_den b]
  push_cast at ha hb ⊢
  field_simp

theorem qDiv_eq (a b : Rat) : qDiv a b = a / b := by
  by_cases hb0 : b = 0
  · subst hb0
    simp [qDiv, Rat.zero_divInt]
  · rw [qDiv, Rat.divInt_eq_div]
    have ha : ((a.den : Int) : Rat) ≠ 0 := by
      exact_mod_cast (Nat.cast_ne_zero (R := Rat)).mpr a.den_nz
    have hbd : ((b.den : Int) : Rat) ≠ 0 := by
      exact_mod_cast (Nat.cast_ne_zero (R := Rat)).mpr b.den_nz
    have hbn : ((b.num : Int) : Rat) ≠ 0 := by
      exact_mod_cast (Rat.num_ne_zero).mpr hb0
    conv_rhs => rw [← Rat.num_div_den a, ← Rat.num_div_den b]
    push_cast at ha hbd hbn ⊢
    field_simp

theorem ratFloor_eq_intFloor (q : Rat) : q.floor = ⌊q⌋ := rfl

theorem toR_numPair_mul (r : Int) (m : PyVal) (hm : pyIsNum m = true) :
    toR (numPair (.int r) m qMul (· * ·)) = (r : Rat) * toR m := by
  cases m <;> simp_all [numPair, isFloatKind, toR, toI, qMul_eq, pyIsNum]

/-- C9: the generic multiple_of check leaves exact multiples unchanged
under every policy; on a non-multiple it snaps to
round(v / multiple_of) * multiple_of (banker's rounding) under clamp,
signals REJECT (the None sentinel) under reject, and passes the value
unchanged under bypass. -/
theorem C9_multiple_of_generic (pol : NumericPolicy) (v m : PyVal)
    (hv : pyIsNum v = true) (hm : pyIsNum m = true) (hm0 : toR m ≠ 0) :
    ((qSub (qDiv (toR v) (toR m)) (((qDiv (toR v) (toR m)).floor : Int) : Rat) = 0) ↔
      ∃ k : ℤ, toR v = (k : Rat) * toR m) ∧
    ((qSub (qDiv (toR v) (toR m)) (((qDiv (toR v) (toR m)).floor : Int) : Rat) = 0) →
      multCheck (some m) pol v = .ok v) ∧
    (¬ (qSub (qDiv (toR v) (toR m)) (((qDiv (toR v) (toR m)).floor : Int) : Rat) = 0) →
      multCheck (some m) .clamp v =
        .ok (numPair (.int (bankRound (qDiv (toR v) (toR m)))) m qMul (· * ·)) ∧
      toR (numPair (.int (bankRound (qDiv (toR v) (toR m)))) m qMul (· * ·)) =
        ((bankRound (toR v / toR m) : Int) : Rat) * toR m ∧
      multCheck (some m) .reject v = .ok .none ∧
      multCheck (some m) .bypass v = .ok v) := by
  refine ⟨?_, ?_, ?_⟩
  · rw [qSub_eq, qDiv_eq, sub_eq_zero]
    constructor
    · intro h
      refine ⟨(toR v / toR m).floor, ?_⟩
      rw [← h, div_mul_cancel₀ _ hm0]
    · rintro ⟨k, hk⟩
      rw [hk, mul_div_cancel_right₀ _ hm0]
      rw [ratFloor_eq_intFloor, Int.floor_intCast]
  · intro h
    simp [multCheck, pyIsNum_not_none hv, hv, hm, hm0, h]
  · intro h
    refine ⟨?_, ?_, ?_, ?_⟩
    · simp [multCheck, pyIsNum_not_none hv, hv, hm, hm0, h]
    · rw [toR_numPair_mul _ _ hm, qDiv_eq]
    · simp [multCheck, pyIsNum_not_none hv, hv, hm, hm0, h]
    · simp [multCheck, pyIsNum_not_none hv, hv, hm, hm0, h]

/-- Witness for C9 at concrete inputs: 7 with multiple_of 5 snaps to 5
under clamp, and 10 passes unchanged. -/
theorem C9_multiple_of_generic_witness :
    multCheck (some (.int 5)) .clamp (.int 7) =
      .ok (numPair (.int (bankRound (qDiv (toR (.int 7)) (toR (.int 5))))) (.int 5)
            qMul (· * ·)) ∧
    multCheck (some (.int 5)) .reject (.int 7) = .ok .none ∧
    multCheck (some (.int 5)) .clamp (.int 10) = .ok (.int 10) := by
  have h7 := C9_multiple_of_generic .clamp (.int 7) (.int 5) rfl rfl (by decide)
  have h10 := C9_multiple_of_generic .clamp (.int 10) (.int 5) rfl rfl (by decide)
  refine ⟨(h7.2.2 (by decide)).1, (h7.2.2 (by decide)).2.2.1, h10.2.1 (by decide)⟩

/-- C8: the generic min_length and max_length checks act only under the
reject numeric policy: a sized value violating a bound becomes the
REJECT sentinel under reject, while under clamp or bypass both checks
leave every value unchanged, and a field declaring only length bounds
passes any value through the whole per-field fix untouched (no
truncation or padding ever occurs). -/
theorem C8_length_only_under_reject (mlen Mlen : Option Nat) (pol : NumericPolicy)
    (v : PyVal) (hpol : pol ≠ .reject) :
    (lenCheckMin mlen pol v = v ∧ lenCheckMax Mlen pol v = v) ∧
    (∀ mm l, mlen = some mm → pyLenO v = some l → l < mm →
      lenCheckMin mlen .reject v = .none) ∧
    (∀ mm l, Mlen = some mm → pyLenO v = some l → mm < l →
      lenCheckMax Mlen .reject v = .none) ∧
    (∀ (p : Parse) (ps : PolicySet) (s : FieldSpec),
      s.fmt = Option.none → s.options = Option.none →
      s.ge = Option.none → s.gt = Option.none → s.le = Option.none → s.lt = Option.none →
      s.multipleOf = Option.none → s.minLength = mlen → s.maxLength = Mlen →
      s.ovNumeric.getD ps.numeric = pol →
      fixVal p ps s v = .ok v) := by
  have hmin : lenCheckMin mlen pol v = v := by
    unfold lenCheckMin
    split
    · rfl
    · split
      · rename_i heq
        simp_all
      · rfl
  have hmax : lenCheckMax Mlen pol v = v := by
    unfold lenCheckMax
    split
    · rfl
    · split
      · rename_i heq
        simp_all
      · rfl
  refine ⟨⟨hmin, hmax⟩, ?_, ?_, ?_⟩
  · intro mm l hm hl hlt
    have hnone : pyIsNone v = false := by
      cases v <;> simp_all [pyLenO, pyIsNone]
    simp [lenCheckMin, hm, hl, hnone, hlt]
  · intro mm l hm hl hlt
    have hnone : pyIsNone v = false := by
      cases v <;> simp_all [pyLenO, pyIsNone]
    simp [lenCheckMax, hm, hl, hnone, hlt]
  · intro p ps s hfmt hopt hge hgt hle hlt hmo hmins hmaxs hovn
    simp [fixVal, hfmt, hopt, hge, hgt, hle, hlt, hmo, hmins, hmaxs, hovn,
      hmin, hmax, multCheck, Option.orElse]

/-- Witness for C8: the string "toolong" with max_length 4 is left
unchanged under the clamp policy (both at stage level and through the
whole per-field fix) and rejected under the reject policy. -/
theorem C8_length_only_under_reject_witness :
    (lenCheckMin (some 2) .clamp (.str "toolong") = .str "toolong" ∧
     lenCheckMax (some 4) .clamp (.str "toolong") = .str "toolong") ∧
    lenCheckMax (some 4) .reject (.str "toolong") = .none ∧
    fixVal parseNone {} { minLength := some 2, maxLength := some 4 } (.str "toolong") =
      .ok (.str "toolong") := by
  have h := C8_length_only_under_reject (some 2) (some 4) .clamp (.str "toolong") (by decide)
  refine ⟨h.1, h.2.2.1 4 7 rfl (by decide) (by decide), ?_⟩
  exact h.2.2.2 parseNone {} { minLength := some 2, maxLength := some 4 }
    rfl rfl rfl rfl rfl rfl rfl rfl rfl rfl

theorem mcLoop_no_reject (opts : List PyVal) (ad : Bool) (l seen items : List PyVal)
    (hh : ∀ x ∈ l, pyHashable x = true) :
    ∃ items2, mcLoop opts ad .rejectIfCountInvalid l seen items = .ok (some items2) := by
  induction l generalizing seen items with
  | nil => exact ⟨items, rfl⟩
  | cons a rest ih =>
    have ha : pyHashable a = true := hh a (by simp)
    have hrest : ∀ x ∈ rest, pyHashable x = true := fun x hx => hh x (by simp [hx])
    unfold mcLoop
    split
    · split
      · rename_i hnh
        simp [ha] at hnh
      · split
        · exact ih seen items hrest
        · split
          · exact ih (a :: seen) (items ++ [a]) hrest
          · split
            · rename_i hpol
              exact absurd hpol (by decide)
            · exact ih (a :: seen) items hrest
    · split
      · exact ih seen (items ++ [a]) hrest
      · split
        · rename_i hpol
          exact absurd hpol (by decide)
        · exact ih seen items hrest

/-- C10: when max_selections is not declared in a multiple_choice format
spec it defaults to the number of declared options, so under the
reject_if_count_invalid policy every (hashable) selection list longer
than the options list is rejected even though no explicit maximum was
configured. -/
theorem C10_max_selections_defaults_to_option_count (opts : List PyVal) (mf : McFmt)
    (l : List PyVal) (hmax : mf.maxSelections = Option.none)
    (hlen : opts.length < l.length) (hh : ∀ x ∈ l, pyHashable x = true) :
    mcFix opts mf .rejectIfCountInvalid (.list l) = .ok .none := by
  obtain ⟨items2, hloop⟩ :=
    mcLoop_no_reject opts (mf.allowDuplicates.getD false) l [] [] hh
  have hbad : (decide ((opts.length : Int) < (l.length : Int))) = true := by
    simp [hlen]
  simp [mcFix, pyIsNone, hmax, hloop, Bind.bind, Except.bind, hbad, hlen]

/-- Witness for C10: three selections against a two-option list are
rejected although no max_selections was configured. -/
theorem C10_max_selections_defaults_witness :
    mcFix [.str "flat", .str "ball"]
      { inputSeparator := some "," } .rejectIfCountInvalid
      (.list [.str "flat", .str "ball", .str "vbit"]) = .ok .none :=
  C10_max_selections_defaults_to_option_count [.str "flat", .str "ball"]
    { inputSeparator := some "," } [.str "flat", .str "ball", .str "vbit"]
    rfl (by decide) (by decide)

/-- Any numPair result is a number. -/
theorem numPair_num (a b : PyVal) (f : Rat → Rat → Rat) (g : Int → Int → Int) :
    pyIsNum (numPair a b f g) = true := by
  unfold numPair; split <;> rfl

/-- A successful safe-evaluator addition of two numbers is a number. -/
theorem pyAddU_num (a b v : PyVal) (ha : pyIsNum a = true) (hb : pyIsNum b = true)
    (h : pyAddU a b = Except.ok v) : pyIsNum v = true := by
  cases a <;> cases b <;>
    first
      | exact Bool.noConfusion ha
      | exact Bool.noConfusion hb
      | (injection h with h; subst h; exact numPair_num _ _ _ _)

/-- A successful safe-evaluator subtraction result is a number. -/
theorem pySubU_num (a b v : PyVal) (h : pySubU a b = Except.ok v) : pyIsNum v = true := by
  unfold pySubU at h
  split_ifs at h
  cases h; exact numPair_num a b qSub (· - ·)

/-- A successful safe-evaluator multiplication of two numbers is a number. -/
theorem pyMulU_num (a b v : PyVal) (ha : pyIsNum a = true) (hb : pyIsNum b = true)
    (h : pyMulU a b = Except.ok v) : pyIsNum v = true := by
  cases a <;> cases b <;>
    first
      | exact Bool.noConfusion ha
      | exact Bool.noConfusion hb
      | (injection h with h; subst h; exact numPair_num _ _ _ _)

/-- A successful safe-evaluator division result is a number. -/
theorem pyDivU_num (a b v : PyVal) (h : pyDivU a b = Except.ok v) : pyIsNum v = true := by
  unfold pyDivU at h
  split_ifs at h
  cases h; rfl

/-- A successful safe-evaluator modulo result is a number. -/
theorem pyModU_num (a b v : PyVal) (h : pyModU a b = Except.ok v) : pyIsNum v = true := by
  unfold pyModU at h
  split_ifs at h <;> (cases h; rfl)

/-- A successful safe-evaluator power result is a number. -/
theorem pyPowU_num (a b v : PyVal) (h : pyPowU a b = Except.ok v) : pyIsNum v = true := by
  simp only [pyPowU] at h
  split_ifs at h <;> (cases h; rfl)

/-- A successful safe-evaluator unary minus result is a number. -/
theorem pyNegU_num (a v : PyVal) (h : pyNegU a = Except.ok v) : pyIsNum v = true := by
  cases a <;> first | exact Except.noConfusion h | (injection h with h; subst h; rfl)

/-- Every safe binary operator raises on a None left operand. -/
theorem applyBin_none_left (op : BinK) (b : PyVal) :
    applyBin op PyVal.none b = Except.error () := by
  cases op <;> cases b <;> rfl

/-- Every safe binary operator raises on a None right operand. -/
theorem applyBin_none_right (op : BinK) (a : PyVal) :
    applyBin op a PyVal.none = Except.error () := by
  cases op <;> cases a <;> rfl

/-- A successful safe binary operation on two numbers yields a number. -/
theorem applyBin_num (op : BinK) (a b v : PyVal) (ha : pyIsNum a = true)
    (hb : pyIsNum b = true) (h : applyBin op a b = Except.ok v) : pyIsNum v = true := by
  cases op
  · exact pyAddU_num a b v ha hb h
  · exact pySubU_num a b v h
  · exact pyMulU_num a b v ha hb h
  · exact pyDivU_num a b v h
  · exact pyPowU_num a b v h
  · exact pyModU_num a b v h
  · exact Except.noConfusion h

/-- min/max comparison raises on a None left operand. -/
theorem cmpLtU_none_left (b : PyVal) : cmpLtU PyVal.none b = Except.error () := by
  cases b <;> rfl

/-- min/max comparison raises on a None right operand. -/
theorem cmpLtU_none_right (a : PyVal) : cmpLtU a PyVal.none = Except.error () := by
  cases a <;> rfl

/-- min/max comparison of two numbers succeeds. -/
theorem cmpLtU_num_ok (a b : PyVal) (ha : pyIsNum a = true) (hb : pyIsNum b = true) :
    ∃ t, cmpLtU a b = Except.ok t := by
  cases a <;> cases b <;> first | exact ⟨_, rfl⟩ | simp_all [pyIsNum]

/-- Splitting a successful Except bind into its two successful stages. -/
theorem exceptBind_ok {ε α β : Type} (x : Except ε α) (f : α → Except ε β) (b : β)
    (h : Bind.bind x f = Except.ok b) : ∃ a, x = Except.ok a ∧ f a = Except.ok b := by
  cases x
  · exact Except.noConfusion h
  · exact ⟨_, rfl, h⟩

/-- The min/max fold over numbers-or-None arguments ends in a
number-or-None when it succeeds. -/
theorem foldExtremal_num (u : Bool) : ∀ (rest : List PyVal) (acc v : PyVal),
    (pyIsNum acc = true ∨ acc = PyVal.none) →
    (∀ x ∈ rest, pyIsNum x = true ∨ x = PyVal.none) →
    foldExtremal u acc rest = Except.ok v → pyIsNum v = true ∨ v = PyVal.none
  | [], acc, v, hacc, _, h => by
    simp only [foldExtremal, Except.ok.injEq] at h
    exact h ▸ hacc
  | x :: rest, acc, v, hacc, hrest, h => by
    have hx := hrest x (List.mem_cons_self x rest)
    have hrest2 : ∀ y ∈ rest, pyIsNum y = true ∨ y = PyVal.none :=
      fun y hy => hrest y (List.mem_cons_of_mem x hy)
    cases u
    · obtain ⟨t, ht, h⟩ := exceptBind_ok _ _ _ h
      rcases hacc with hacc | hacc
      · rcases hx with hx | hx
        · exact foldExtremal_num false rest (if t then x else acc) v
            (by cases t <;> simp [hx, hacc]) hrest2 h
        · subst hx; rw [cmpLtU_none_left] at ht; exact Except.noConfusion ht
      · subst hacc; rw [cmpLtU_none_right] at ht; exact Except.noConfusion ht
    · obtain ⟨t, ht, h⟩ := exceptBind_ok _ _ _ h
      rcases hacc with hacc | hacc
      · rcases hx with hx | hx
        · exact foldExtremal_num true rest (if t then x else acc) v
            (by cases t <;> simp [hx, hacc]) hrest2 h
        · subst hx; rw [cmpLtU_none_right] at ht; exact Except.noConfusion ht
      · subst hacc; rw [cmpLtU_none_left] at ht; exact Except.noConfusion ht

/-- A successful whitelisted builtin call on numbers-or-None arguments
returns a number-or-None. -/
theorem applyFn_num (fn : SafeFn) (args : List PyVal) (v : PyVal)
    (hargs : ∀ x ∈ args, pyIsNum x = true ∨ x = PyVal.none)
    (h : applyFn fn args = Except.ok v) : pyIsNum v = true ∨ v = PyVal.none := by
  cases fn
  case fabs =>
    match args, h with
    | [], h => exact Except.noConfusion h
    | [x], h =>
      simp only [applyFn] at h
      split_ifs at h <;> (cases h; left; rfl)
    | x :: y :: rest, h => exact Except.noConfusion h
  case fround =>
    match args, h with
    | [], h => exact Except.noConfusion h
    | [x], h =>
      simp only [applyFn] at h
      split_ifs at h <;> (cases h; left; rfl)
    | [x, y], h =>
      simp only [applyFn] at h
      split_ifs at h <;> (cases h; left; rfl)
    | x :: y :: z :: rest, h => exact Except.noConfusion h
  case fmin =>
    match args, hargs, h with
    | [], _, h => exact Except.noConfusion h
    | [x], hargs, h =>
      have hx := hargs x (List.mem_cons_self x [])
      rcases hx with hx | hx
      · cases x <;> first | exact Except.noConfusion h | simp [pyIsNum] at hx
      · subst hx; exact Except.noConfusion h
    | x :: y :: rest, hargs, h =>
      exact foldExtremal_num false (y :: rest) x v
        (hargs x (List.mem_cons_self x (y :: rest)))
        (fun z hz => hargs z (List.mem_cons_of_mem x hz)) h
  case fmax =>
    match args, hargs, h with
    | [], _, h => exact Except.noConfusion h
    | [x], hargs, h =>
      have hx := hargs x (List.mem_cons_self x [])
      rcases hx with hx | hx
      · cases x <;> first | exact Except.noConfusion h | simp [pyIsNum] at hx
      · subst hx; exact Except.noConfusion h
    | x :: y :: rest, hargs, h =>
      exact foldExtremal_num true (y :: rest) x v
        (hargs x (List.mem_cons_self x (y :: rest)))
        (fun z hz => hargs z (List.mem_cons_of_mem x hz)) h
  case fsqrt =>
    match args, h with
    | [], h => exact Except.noConfusion h
    | [x], h =>
      simp only [applyFn] at h
      split_ifs at h
      cases h; left; rfl
    | x :: y :: rest, h => exact Except.noConfusion h

/-- A successful namespace lookup returns the value of some entry. -/
theorem nsGet_mem : ∀ (ns : List (String × PyVal)) (k : String) (w : PyVal),
    nsGet ns k = some w → ∃ kv ∈ ns, kv.2 = w
  | [], _, _, h => by simp [nsGet] at h
  | (k2, u) :: rest, k, w, h => by
    rw [nsGet] at h
    split at h
    · cases h; exact ⟨(k2, u), List.mem_cons_self _ _, rfl⟩
    · obtain ⟨kv, hmem, hv⟩ := nsGet_mem rest k w h
      exact ⟨kv, List.mem_cons_of_mem _ hmem, hv⟩

mutual

/-- An expression whose evaluation succeeds uses only allowed node
kinds: every disallowed node raises, which the caller turns into None. -/
theorem evalAst_ok_allowed : ∀ (a : Ast) (ns : List (String × PyVal)) (v : PyVal),
    evalAst a ns = Except.ok v → AllowedAst a
  | .constant w, _, _, _ => AllowedAst.constant w
  | .name id, _, _, _ => AllowedAst.name id
  | .binOp op l r, ns, v, h => by
    cases op
    case other => exact Except.noConfusion h
    all_goals {
      obtain ⟨lv, hl, h⟩ := exceptBind_ok _ _ _ h
      obtain ⟨rv, hr, h⟩ := exceptBind_ok _ _ _ h
      exact AllowedAst.binOp _ l r (by simp) (evalAst_ok_allowed l ns lv hl)
        (evalAst_ok_allowed r ns rv hr)
    }
  | .unaryUSub a, ns, v, h => by
    obtain ⟨w, hw, h⟩ := exceptBind_ok _ _ _ h
    exact AllowedAst.unaryUSub a (evalAst_ok_allowed a ns w hw)
  | .unaryOther _, _, _, h => Except.noConfusion h
  | .call Option.none args, _, _, h => Except.noConfusion h
  | .call (some fname) args, ns, v, h => by
    cases hfn : safeFnOfName fname with
    | some fn =>
      simp only [evalAst, hfn] at h
      obtain ⟨vs, hvs, h⟩ := exceptBind_ok _ _ _ h
      exact AllowedAst.call fname fn args hfn (evalAstList_ok_allowed args ns vs hvs)
    | none =>
      simp only [evalAst, hfn] at h
      split at h
      · obtain ⟨vs, hvs, h⟩ := exceptBind_ok _ _ _ h
        exact Except.noConfusion h
      · exact Except.noConfusion h
  | .other, _, _, h => Except.noConfusion h

/-- List version of evalAst_ok_allowed over call arguments. -/
theorem evalAstList_ok_allowed : ∀ (l : List Ast) (ns : List (String × PyVal))
    (vs : List PyVal), evalAstList l ns = Except.ok vs → ∀ a ∈ l, AllowedAst a
  | [], _, _, _ => by simp
  | a :: rest, ns, vs, h => by
    obtain ⟨w, hw, h⟩ := exceptBind_ok _ _ _ h
    obtain ⟨ws, hws, h⟩ := exceptBind_ok _ _ _ h
    intro b hb
    rcases List.mem_cons.mp hb with hb | hb
    · subst hb; exact evalAst_ok_allowed _ ns w hw
    · exact evalAstList_ok_allowed rest ns ws hws b hb

end

mutual

/-- When every literal of the expression is numeric and the namespace
binds only numbers (or None), a successful evaluation returns a number
or None. -/
theorem evalAst_num : ∀ (a : Ast) (ns : List (String × PyVal)) (v : PyVal),
    ConstsNum a → NsNum ns → evalAst a ns = Except.ok v →
    pyIsNum v = true ∨ v = PyVal.none
  | .constant w, _, v, hc, _, h => by
    injection h with h
    subst h
    cases hc with | constant _ hnum => exact Or.inl hnum
  | .name id, ns, v, _, hns, h => by
    injection h with h
    subst h
    cases hg : nsGet ns id with
    | none => right; simp [hg]
    | some w =>
      obtain ⟨kv, hmem, hv⟩ := nsGet_mem ns id w hg
      rw [Option.getD_some]
      exact hv ▸ hns kv hmem
  | .binOp op l r, ns, v, hc, hns, h => by
    cases hc with | binOp _ _ _ hcl hcr =>
    cases op
    case other => exact Except.noConfusion h
    all_goals {
      obtain ⟨lv, hl, h⟩ := exceptBind_ok _ _ _ h
      obtain ⟨rv, hr, h⟩ := exceptBind_ok _ _ _ h
      rcases evalAst_num l ns lv hcl hns hl with hlv | hlv
      · rcases evalAst_num r ns rv hcr hns hr with hrv | hrv
        · exact Or.inl (applyBin_num _ lv rv v hlv hrv h)
        · subst hrv; rw [applyBin_none_right] at h; exact Except.noConfusion h
      · subst hlv; rw [applyBin_none_left] at h; exact Except.noConfusion h
    }
  | .unaryUSub a, ns, v, hc, hns, h => by
    cases hc with | unaryUSub _ hca =>
    obtain ⟨w, hw, h⟩ := exceptBind_ok _ _ _ h
    rcases evalAst_num a ns w hca hns hw with hwn | hwn
    · exact Or.inl (pyNegU_num w v h)
    · subst hwn; exact Except.noConfusion h
  | .unaryOther _, _, _, _, _, h => Except.noConfusion h
  | .call Option.none args, _, _, _, _, h => Except.noConfusion h
  | .call (some fname) args, ns, v, hc, hns, h => by
    cases hc with | call _ _ hcargs =>
    cases hfn : safeFnOfName fname with
    | some fn =>
      simp only [evalAst, hfn] at h
      obtain ⟨vs, hvs, h⟩ := exceptBind_ok _ _ _ h
      exact applyFn_num fn vs v (evalAstList_num args ns vs hcargs hns hvs) h
    | none =>
      simp only [evalAst, hfn] at h
      split at h
      · obtain ⟨vs, hvs, h⟩ := exceptBind_ok _ _ _ h
        exact Except.noConfusion h
      · exact Except.noConfusion h
  | .other, _, _, _, _, h => Except.noConfusion h

/-- List version of evalAst_num over call arguments. -/
theorem evalAstList_num : ∀ (l : List Ast) (ns : List (String × PyVal))
    (vs : List PyVal), (∀ a ∈ l, ConstsNum a) → NsNum ns →
    evalAstList l ns = Except.ok vs → ∀ x ∈ vs, pyIsNum x = true ∨ x = PyVal.none
  | [], _, vs, _, _, h => by
    injection h with h
    subst h
    simp
  | a :: rest, ns, vs, hc, hns, h => by
    obtain ⟨w, hw, h⟩ := exceptBind_ok _ _ _ h
    obtain ⟨ws, hws, h⟩ := exceptBind_ok _ _ _ h
    injection h with h
    subst h
    intro x hx
    rcases List.mem_cons.mp hx with hx | hx
    · subst hx; exact evalAst_num a ns _ (hc a (List.mem_cons_self a rest)) hns hw
    · exact evalAstList_num rest ns ws (fun b hb => hc b (List.mem_cons_of_mem a hb))
        hns hws x hx

end

/-- C5: counterexample — the safe evaluator can return a value that is
neither numeric nor the None sentinel: an expression consisting of a
single string literal evaluates to that string, so "either the numeric
result or the failure sentinel" is false as stated. -/
theorem C5_counterexample_string_literal :
    evalAst (Ast.constant (PyVal.str "abc")) [] = Except.ok (PyVal.str "abc") ∧
    safeEvalStr (fun _ => some (Ast.constant (PyVal.str "abc"))) "s" []
      = PyVal.str "abc" ∧
    pyIsNum (PyVal.str "abc") = false ∧ pyIsNone (PyVal.str "abc") = false :=
  ⟨rfl, rfl, rfl, rfl⟩

/-- C5 (amended): the safe evaluator never raises — a parse failure
yields the None sentinel, and any exception during evaluation (disallowed
node, unknown operator, runtime error) also yields the None sentinel;
an expression whose evaluation succeeds uses only allowed node kinds
(literal, name, safe binary operator, unary minus, whitelisted call);
and when every literal of the expression is numeric and the namespace
binds names only to numbers or None, the returned value is a number or
None. -/
theorem C5_safe_eval_total_allowed_numeric :
    (∀ (p : Parse) (expr : String) (ns : List (String × PyVal)),
      p (expr.replace "^" "**") = Option.none → safeEvalStr p expr ns = PyVal.none) ∧
    (∀ (p : Parse) (expr : String) (ns : List (String × PyVal)) (a : Ast),
      p (expr.replace "^" "**") = some a → evalAst a ns = Except.error () →
      safeEvalStr p expr ns = PyVal.none) ∧
    (∀ (a : Ast) (ns : List (String × PyVal)) (v : PyVal),
      evalAst a ns = Except.ok v → AllowedAst a) ∧
    (∀ (a : Ast) (ns : List (String × PyVal)) (v : PyVal),
      ConstsNum a → NsNum ns → evalAst a ns = Except.ok v →
      pyIsNum v = true ∨ v = PyVal.none) :=
  ⟨fun p expr ns hp => by simp [safeEvalStr, hp],
   fun p expr ns a hp he => by simp [safeEvalStr, hp, he],
   fun a ns v h => evalAst_ok_allowed a ns v h,
   fun a ns v hc hns h => evalAst_num a ns v hc hns h⟩

/-- Witness for C5 (amended): each part applied at a concrete input —
a failing parse, a disallowed node, the expression 2 + 3, and the empty
namespace. -/
theorem C5_safe_eval_total_allowed_numeric_witness :
    safeEvalStr (fun _ => Option.none) "x" [] = PyVal.none ∧
    safeEvalStr (fun _ => some Ast.other) "x" [] = PyVal.none ∧
    AllowedAst (Ast.binOp BinK.add (Ast.constant (PyVal.int 2))
      (Ast.constant (PyVal.int 3))) ∧
    (pyIsNum (PyVal.int 5) = true ∨ PyVal.int 5 = PyVal.none) :=
  ⟨C5_safe_eval_total_allowed_numeric.1 (fun _ => Option.none) "x" [] rfl,
   C5_safe_eval_total_allowed_numeric.2.1 (fun _ => some Ast.other) "x" [] Ast.other
     rfl rfl,
   C5_safe_eval_total_allowed_numeric.2.2.1
     (Ast.binOp BinK.add (Ast.constant (PyVal.int 2)) (Ast.constant (PyVal.int 3)))
     [] (PyVal.int 5) rfl,
   C5_safe_eval_total_allowed_numeric.2.2.2
     (Ast.binOp BinK.add (Ast.constant (PyVal.int 2)) (Ast.constant (PyVal.int 3)))
     [] (PyVal.int 5)
     (ConstsNum.binOp _ _ _ (ConstsNum.constant _ rfl) (ConstsNum.constant _ rfl))
     (fun kv hkv => absurd hkv (List.not_mem_nil kv)) rfl⟩

/-- C3: set_value is all-or-nothing — every error (including a
structural validation failure, which surfaces as a ValueError) leaves
the active instance untouched, and a successful call replaces active
wholesale with the fully validated new instance. -/
theorem C3_set_value_all_or_nothing (m : ModelCls) (p : Parse) (ci : CI) (k : String)
    (v : PyVal) :
    (∀ e, setValue m p ci k v = .error e → applySetValue m p ci k v = (ci, some e)) ∧
    (∀ a2, setValue m p ci k v = .ok a2 →
      (applySetValue m p ci k v).1 = { ci with active := a2 }) ∧
    (∀ w, alookup ci.active k = some w →
      construct m p (aupdate ci.active k v) = .ok Option.none →
      setValue m p ci k v = .error SetErr.valueErr) := by
  refine ⟨?_, ?_, ?_⟩
  · intro e he
    simp [applySetValue, he]
  · intro a2 ha
    simp only [applySetValue, ha]
    split <;> rfl
  · intro w hw hc
    simp [setValue, hw, hc]

/-- Witness for C3: writing the non-numeric string "abc" into the int
field f fails structural validation, raises a ValueError and leaves the
instance unchanged. -/
theorem C3_set_value_all_or_nothing_witness :
    setValue plainIntModel parseNone plainIntCI "f" (PyVal.str "abc")
      = .error SetErr.valueErr ∧
    applySetValue plainIntModel parseNone plainIntCI "f" (PyVal.str "abc")
      = (plainIntCI, some SetErr.valueErr) := by
  have h := C3_set_value_all_or_nothing plainIntModel parseNone plainIntCI "f"
    (PyVal.str "abc")
  have h3 := h.2.2 (PyVal.int 1) rfl (by decide)
  exact ⟨h3, h.1 SetErr.valueErr h3⟩

/-- The error a set_value call on a non-editable existing field raises
is exactly editBlockErr: the deep-set reconstruction runs first, so its
crash or validation failure pre-empts the PermissionError. -/
theorem setValue_locked (m : ModelCls) (p : Parse) (ci : CI) (k : String) (v : PyVal)
    (spec : FieldSpec) (hs : slookup m.specs k = some spec)
    (he : spec.editable = false) (w : PyVal) (hw : alookup ci.active k = some w) :
    setValue m p ci k v = .error (editBlockErr m p ci.active k v) := by
  simp only [setValue, hw, editBlockErr]
  cases hc : construct m p (aupdate ci.active k v) with
  | error e => rfl
  | ok o =>
    cases o with
    | none => rfl
    | some inst => simp [hs, he]

/-- A set_value call on a non-editable field never succeeds. -/
theorem setValue_locked_err (m : ModelCls) (p : Parse) (ci : CI) (k : String)
    (v : PyVal) (spec : FieldSpec) (hs : slookup m.specs k = some spec)
    (he : spec.editable = false) : ∃ e, setValue m p ci k v = .error e := by
  cases hw : alookup ci.active k with
  | none => exact ⟨.keyErr, by simp [setValue, hw]⟩
  | some w => exact ⟨_, setValue_locked m p ci k v spec hs he w hw⟩

/-- C2 (amended): editable=false blocks all three write paths - direct
set, restore-from-default and restore-from-file all raise, any other
restore source raises too - and the error raised is editBlockErr, which
is the PermissionError only when the deep-set reconstruction validates:
a crash or validation failure in that earlier step surfaces instead.
Active is unchanged after the failed set and restore-from-default, and
after restore-from-file whenever no configured backing file is missing;
but with a save path configured and the file missing, the bootstrap
save(self._defaults) inside _load_or_defaults reassigns active to the
defaults instance before dying of the save self-recursion, so that one
failed path does mutate the active state. -/
theorem C2_editable_false_blocks_writes (m : ModelCls) (p : Parse) (ci : CI)
    (k : String) (spec : FieldSpec) (hs : slookup m.specs k = some spec)
    (he : spec.editable = false) :
    (∀ v, ∃ e, setValue m p ci k v = .error e) ∧
    (∀ v w, alookup ci.active k = some w →
      setValue m p ci k v = .error (editBlockErr m p ci.active k v)) ∧
    (∀ v, (applySetValue m p ci k v).1 = ci) ∧
    (∀ src, ∃ e, restoreValue m p ci k src = .error e) ∧
    (∀ src, (src = "file" → ¬ ci.savedFile = some Option.none) →
      (applyRestoreValue m p ci k src).1 = ci) ∧
    (ci.savedFile = some Option.none →
      applyRestoreValue m p ci k "file" =
        ({ ci with active := ci.defaults }, some (.pyCrash .recursionError))) ∧
    (∀ d w, alookup ci.defaults k = some d → alookup ci.active k = some w →
      restoreValue m p ci k "default" = .error (editBlockErr m p ci.active k d)) ∧
    (∀ onDisk d w, (loadOrDefaults m p ci).2 = .ok onDisk → alookup onDisk k = some d →
      alookup ci.active k = some w →
      restoreValue m p ci k "file" = .error (editBlockErr m p ci.active k d)) := by
  have hset : ∀ v, ∃ e, setValue m p ci k v = Except.error e :=
    fun v => setValue_locked_err m p ci k v spec hs he
  have hrest : ∀ src, ∃ e, restoreValue m p ci k src = .error e := by
    intro src
    rw [restoreValue]
    split
    · cases hd : alookup ci.defaults k with
      | none => exact ⟨.keyErr, rfl⟩
      | some d => exact hset d
    · split
      · split
        · exact ⟨_, rfl⟩
        · rename_i onDisk heq
          cases hod : alookup onDisk k with
          | none => exact ⟨.keyErr, rfl⟩
          | some d => exact hset d
      · exact ⟨.valueErr, rfl⟩
  refine ⟨hset, ?_, ?_, hrest, ?_, ?_, ?_, ?_⟩
  · intro v w hw
    exact setValue_locked m p ci k v spec hs he w hw
  · intro v
    obtain ⟨e, hev⟩ := hset v
    simp [applySetValue, hev]
  · intro src hnb
    obtain ⟨e, hev⟩ := hrest src
    unfold applyRestoreValue
    rw [hev]
    show (if src == "file"
        then { ci with active := (loadOrDefaults m p ci).1 } else ci, some e).1 = ci
    by_cases hf : (src == "file") = true
    · rw [if_pos hf]
      have hl1 : (loadOrDefaults m p ci).1 = ci.active := by
        have hnb2 := hnb (by simpa using hf)
        unfold loadOrDefaults
        rcases hsf : ci.savedFile with _ | _ | raw2
        · rfl
        · exact absurd hsf hnb2
        · rfl
      rw [hl1]
    · rw [if_neg hf]
  · intro hb
    have hl : loadOrDefaults m p ci = (ci.defaults, .error (.pyCrash .recursionError)) := by
      unfold loadOrDefaults
      rw [hb]
    have hr : restoreValue m p ci k "file" = .error (.pyCrash .recursionError) := by
      rw [restoreValue]
      simp only [show (("file" == "default") : Bool) = false from rfl,
        Bool.false_eq_true, if_false, beq_self_eq_true, if_true, hl]
    unfold applyRestoreValue
    rw [hr]
    show (if ("file" == "file")
        then { ci with active := (loadOrDefaults m p ci).1 } else ci,
      some (SetErr.pyCrash PErr.recursionError)) =
      ({ ci with active := ci.defaults }, some (.pyCrash .recursionError))
    rw [hl]
    rfl
  · intro d w hd hw
    rw [restoreValue]
    simp only [hd, beq_self_eq_true, if_true]
    exact setValue_locked m p ci k d spec hs he w hw
  · intro onDisk d w hl hod hw
    rw [restoreValue]
    simp only [hl, hod, beq_self_eq_true, if_true, show (("file" == "default")) = false
      from rfl, Bool.false_eq_true, if_false]
    exact setValue_locked m p ci k d spec hs he w hw

/-- C2: counterexample — on the locked int field f, set_value with a
value the model rejects raises a ValueError, not the PermissionError the
claim promises for every write to a non-editable field: the deep-set
revalidation runs before the editability check.  The same call with an
acceptable value does raise the PermissionError. -/
theorem C2_counterexample_validation_preempts_permission :
    setValue lockedModel parseNone lockedCI "f" (PyVal.str "abc")
      = .error SetErr.valueErr ∧
    SetErr.valueErr ≠ SetErr.permErr ∧
    setValue lockedModel parseNone lockedCI "f" (PyVal.int 5)
      = .error SetErr.permErr := by
  refine ⟨by decide, by decide, by decide⟩

/-- Witness for C2 (amended) at the locked field f of lockedCI - the
direct set is blocked with active unchanged, both restore sources are
blocked with the characterized error (here the PermissionError, because
the defaults revalidate cleanly) - and, on a sibling instance whose
configured backing file is missing, the failed restore-from-file leaves
active reassigned to the defaults with the RecursionError. -/
theorem C2_editable_false_blocks_writes_witness :
    (∃ e, setValue lockedModel parseNone lockedCI "f" (PyVal.int 5) = .error e) ∧
    (applySetValue lockedModel parseNone lockedCI "f" (PyVal.int 5)).1 = lockedCI ∧
    (applyRestoreValue lockedModel parseNone lockedCI "f" "default").1 = lockedCI ∧
    restoreValue lockedModel parseNone lockedCI "f" "default"
      = .error (editBlockErr lockedModel parseNone lockedCI.active "f" (PyVal.int 1)) ∧
    restoreValue lockedModel parseNone lockedCI "f" "file"
      = .error (editBlockErr lockedModel parseNone lockedCI.active "f" (PyVal.int 1)) ∧
    applyRestoreValue lockedModel parseNone
        { defaults := [("f", PyVal.int 1)], active := [("f", PyVal.int 5)],
          savedFile := some Option.none, autoSave := false } "f" "file" =
      ({ defaults := [("f", PyVal.int 1)], active := [("f", PyVal.int 1)],
          savedFile := some Option.none, autoSave := false },
        some (SetErr.pyCrash PErr.recursionError)) := by
  have h := C2_editable_false_blocks_writes lockedModel parseNone lockedCI "f"
    { ann := .aInt, editable := false } rfl rfl
  have hb := C2_editable_false_blocks_writes lockedModel parseNone
    { defaults := [("f", PyVal.int 1)], active := [("f", PyVal.int 5)],
      savedFile := some Option.none, autoSave := false } "f"
    { ann := .aInt, editable := false } rfl rfl
  refine ⟨h.1 (PyVal.int 5), h.2.2.1 (PyVal.int 5),
    h.2.2.2.2.1 "default" (fun hf => absurd hf (by decide)),
    h.2.2.2.2.2.2.1 (PyVal.int 1) (PyVal.int 1) rfl rfl,
    h.2.2.2.2.2.2.2 lockedCI.defaults (PyVal.int 1) (PyVal.int 1) rfl rfl rfl,
    hb.2.2.2.2.2.1 rfl⟩

/-- A rejected field keeps its original raw value: the keep line only
writes the fixed value back when it is not the sentinel. -/
theorem fixField_reject (p : Parse) (ps : PolicySet) (s : FieldSpec) (v : PyVal)
    (h : fixVal p ps s v = .ok PyVal.none) : fixField p ps s v = .ok v := by
  simp [fixField, h, pyIsNone, Bind.bind, Except.bind, Pure.pure, Except.pure]

/-- Updating a present key makes lookup return the new value. -/
theorem alookup_aupdate_self : ∀ (raw : List (String × PyVal)) (k : String)
    (v w : PyVal), alookup raw k = some w → alookup (aupdate raw k v) k = some v
  | [], k, v, w, h => by simp [alookup] at h
  | (k2, u) :: rest, k, v, w, h => by
    rw [alookup] at h
    rw [aupdate]
    split at h
    · rename_i hk2
      rw [if_pos hk2, alookup, if_pos (beq_self_eq_true k)]
    · rename_i hk2
      rw [if_neg hk2, alookup, if_neg hk2]
      exact alookup_aupdate_self rest k v w h

/-- Updating a different key leaves lookup unchanged. -/
theorem alookup_aupdate_ne : ∀ (raw : List (String × PyVal)) (k k2 : String)
    (v : PyVal), (k2 == k) = false → alookup (aupdate raw k2 v) k = alookup raw k
  | [], _, _, _, _ => rfl
  | (k3, u) :: rest, k, k2, v, h => by
    rw [aupdate]
    by_cases hk3 : (k3 == k2) = true
    · rw [if_pos hk3, alookup, h, alookup]
      have : (k3 == k) = false := by
        have h32 : k3 = k2 := by simpa using hk3
        subst h32; exact h
      rw [if_neg (by simp [this]), if_neg (by simp [this])]
    · rw [if_neg hk3, alookup, alookup]
      split
      · rfl
      · exact alookup_aupdate_ne rest k k2 v h

/-- A pass over specs that never mention k leaves the binding of k
untouched. -/
theorem autoFixPass_not_mentioned (p : Parse) (ps : PolicySet) :
    ∀ (specs : List (String × FieldSpec)) (raw out : List (String × PyVal)) (k : String),
    k ∉ specs.map Prod.fst → autoFixPass p ps specs raw = .ok out →
    alookup out k = alookup raw k
  | [], raw, out, k, _, h => by
    injection h with h
    subst h
    rfl
  | (nm, s) :: rest, raw, out, k, hk, h => by
    simp only [List.map_cons, List.mem_cons] at hk
    push_neg at hk
    have hnm : (nm == k) = false := by
      rw [beq_eq_false_iff_ne]
      exact fun hh => hk.1 hh.symm
    have hkrest : k ∉ rest.map Prod.fst := hk.2
    rw [autoFixPass] at h
    split at h
    · exact autoFixPass_not_mentioned p ps rest raw out k hkrest h
    · obtain ⟨w1, hw1, h⟩ := exceptBind_ok _ _ _ h
      rw [autoFixPass_not_mentioned p ps rest _ out k hkrest h,
        alookup_aupdate_ne raw k nm w1 hnm]

/-- C1 (amended): when a fixer signals REJECT for a field present in the
input, the auto-fix pass does not drop that field — the keep line skips
the write-back, so the field keeps its original raw value in the
returned mapping (and downstream structural validation sees the raw
value, not a missing field). -/
theorem C1_reject_keeps_raw_value (p : Parse) (ps : PolicySet) :
    ∀ (specs : List (String × FieldSpec)) (raw out : List (String × PyVal))
    (k : String) (s : FieldSpec) (v : PyVal),
    (specs.map Prod.fst).Nodup → slookup specs k = some s →
    alookup raw k = some v → fixVal p ps s v = .ok PyVal.none →
    autoFixPass p ps specs raw = .ok out → alookup out k = some v
  | [], _, _, k, s, _, _, hsl, _, _, _ => by simp [slookup] at hsl
  | (nm, s2) :: rest, raw, out, k, s, v, hnd, hsl, hv, hfix, hpass => by
    rw [slookup] at hsl
    rw [autoFixPass] at hpass
    rw [List.map_cons, List.nodup_cons] at hnd
    by_cases hk : (nm == k) = true
    · have hnmk : nm = k := by simpa using hk
      rw [if_pos hk] at hsl
      injection hsl with hsl
      rw [hnmk, hv] at hpass
      obtain ⟨w1, hw1, hpass⟩ := exceptBind_ok _ _ _ hpass
      rw [hsl, fixField_reject p ps s v hfix] at hw1
      injection hw1 with hw1
      rw [hnmk] at hnd
      rw [autoFixPass_not_mentioned p ps rest _ out k hnd.1 hpass]
      rw [← hw1]
      exact alookup_aupdate_self raw k v v hv
    · have hnm : (nm == k) = false := by simpa using hk
      rw [if_neg (by simp [hnm])] at hsl
      split at hpass
      · exact C1_reject_keeps_raw_value p ps rest raw out k s v hnd.2 hsl hv hfix hpass
      · rename_i w0 halo
        obtain ⟨w1, hw1, hpass⟩ := exceptBind_ok _ _ _ hpass
        have hv2 : alookup (aupdate raw nm w1) k = some v := by
          rw [alookup_aupdate_ne raw k nm w1 hnm]; exact hv
        exact C1_reject_keeps_raw_value p ps rest _ out k s v hnd.2 hsl hv2 hfix hpass

/-- C1: counterexample — the int field f with lower bound 0 under the
reject numeric override signals REJECT for the raw value -5, yet the
mapping returned by the pass still contains f bound to -5: the field is
kept with its raw value, not dropped. -/
theorem C1_counterexample_rejected_field_not_dropped :
    fixVal parseNone {} rejectLowSpec (PyVal.int (-5)) = .ok PyVal.none ∧
    autoFixPass parseNone {} [("f", rejectLowSpec)] [("f", PyVal.int (-5))]
      = .ok [("f", PyVal.int (-5))] ∧
    alookup [("f", PyVal.int (-5))] "f" ≠ Option.none := by
  refine ⟨by decide, by decide, by decide⟩

/-- Witness for C1 (amended): the rejected value -5 of field f is still
present, unchanged, in the mapping the pass returns. -/
theorem C1_reject_keeps_raw_value_witness :
    alookup [("f", PyVal.int (-5))] "f" = some (PyVal.int (-5)) :=
  C1_reject_keeps_raw_value parseNone {} [("f", rejectLowSpec)]
    [("f", PyVal.int (-5))] [("f", PyVal.int (-5))] "f" rejectLowSpec
    (PyVal.int (-5)) (by decide) rfl rfl (by decide) (by decide)

/-- Python > on two numbers. -/
theorem pyGtE_num {a b : PyVal} (ha : pyIsNum a = true) (hb : pyIsNum b = true) :
    pyGtE a b = .ok (decide (toR b < toR a)) := by
  rw [pyGtE]; exact pyLtE_num hb ha

/-- Comparing a number with a non-number raises. -/
theorem pyLtE_not_num_right {a b : PyVal} (ha : pyIsNum a = true)
    (hb : pyIsNum b = false) : pyLtE a b = .error .typeError := by
  cases a <;> cases b <;> simp_all [pyLtE, pyIsNum]

/-- Comparing a non-number bound on the right of > raises. -/
theorem pyGtE_not_num_right {a b : PyVal} (ha : pyIsNum a = true)
    (hb : pyIsNum b = false) : pyGtE a b = .error .typeError := by
  cases a <;> cases b <;> simp_all [pyGtE, pyLtE, pyIsNum]

/-- Banker's rounding of an integer is exact. -/
theorem bankRound_intCast (n : Int) : bankRound ((n : Int) : Rat) = n := by
  have hhalf : (mkRat 1 2 : Rat) = 1 / 2 := by norm_num [Rat.mkRat_eq_div]
  simp only [bankRound, ratFloor_eq_intFloor, qSub_eq, Int.floor_intCast, sub_self, hhalf]
  norm_num

/-- Banker's rounding is monotone. -/
theorem bankRound_mono {a b : Rat} (h : a ≤ b) : bankRound a ≤ bankRound b := by
  have hf : ⌊a⌋ ≤ ⌊b⌋ := Int.floor_mono h
  have hhalf : (mkRat 1 2 : Rat) = 1 / 2 := by norm_num [Rat.mkRat_eq_div]
  simp only [bankRound, ratFloor_eq_intFloor, qSub_eq, hhalf]
  by_cases heq : ⌊a⌋ = ⌊b⌋
  · rw [heq]
    have hr : a - (⌊b⌋ : Rat) ≤ b - (⌊b⌋ : Rat) := by linarith
    split_ifs <;> first | omega | linarith
  · have hf1 : ⌊a⌋ + 1 ≤ ⌊b⌋ := by omega
    split_ifs <;> omega

/-- A rational squeezed between a value and its banker's rounding rounds
to the same integer. -/
theorem bankRound_eq_of_between {t c : Rat} {R : Int} (hR : bankRound t = R)
    (h1 : min ((R : Int) : Rat) t ≤ c) (h2 : c ≤ max ((R : Int) : Rat) t) :
    bankRound c = R := by
  rcases le_total ((R : Rat)) t with hrt | hrt
  · rw [min_eq_left hrt] at h1
    rw [max_eq_right hrt] at h2
    have l1 : R ≤ bankRound c := by
      have := bankRound_mono h1
      rwa [bankRound_intCast] at this
    have l2 : bankRound c ≤ R := by
      have := bankRound_mono h2
      rwa [hR] at this
    omega
  · rw [min_eq_right hrt] at h1
    rw [max_eq_left hrt] at h2
    have l1 : R ≤ bankRound c := by
      have := bankRound_mono h1
      rwa [hR] at this
    have l2 : bankRound c ≤ R := by
      have := bankRound_mono h2
      rwa [bankRound_intCast] at this
    omega

/-- The multiple_of check is vacuous without a declared multiple. -/
theorem multCheck_none_mult (pol : NumericPolicy) (v : PyVal) :
    multCheck Option.none pol v = .ok v := by
  unfold multCheck; split <;> rfl

/-- The multiple_of check passes non-numeric values through. -/
theorem multCheck_not_num (mo : Option PyVal) (pol : NumericPolicy) (v : PyVal)
    (h : pyIsNum v = false) : multCheck mo pol v = .ok v := by
  unfold multCheck
  split
  · rfl
  · cases mo with
    | none => rfl
    | some m => simp [h]

/-- Bound enforcement is vacuous without bounds. -/
theorem numEnforce_no_bounds (pol : NumericPolicy) (v : PyVal) :
    numEnforce Option.none Option.none pol v = .ok v := rfl

/-- Bound enforcement is vacuous under bypass. -/
theorem numEnforce_bypass (low high : Option PyVal) (v : PyVal) :
    numEnforce low high .bypass v = .ok v := by
  unfold numEnforce
  split_ifs <;> simp_all

/-- Clamp enforcement with both bounds on numbers, in closed form. -/
theorem numEnforce_clamp_num (lo hi v : PyVal) (hv : pyIsNum v = true)
    (hlo : pyIsNum lo = true) (hhi : pyIsNum hi = true) :
    numEnforce (some lo) (some hi) .clamp v =
      .ok (if toR v < toR lo then (if toR hi < toR lo then hi else lo)
           else (if toR hi < toR v then hi else v)) := by
  by_cases h1 : toR v < toR lo
  · have e1 : pyLtE v lo = .ok true := by rw [pyLtE_num hv hlo]; simp [h1]
    by_cases h2 : toR hi < toR lo
    · have e2 : pyGtE lo hi = .ok true := by rw [pyGtE_num hlo hhi]; simp [h2]
      simp [numEnforce, e1, e2, h1, h2]
    · have e2 : pyGtE lo hi = .ok false := by rw [pyGtE_num hlo hhi]; simp [h2]
      simp [numEnforce, e1, e2, h1, h2]
  · have e1 : pyLtE v lo = .ok false := by rw [pyLtE_num hv hlo]; simp [h1]
    by_cases h3 : toR hi < toR v
    · have e2 : pyGtE v hi = .ok true := by rw [pyGtE_num hv hhi]; simp [h3]
      simp [numEnforce, e1, e2, h1, h3]
    · have e2 : pyGtE v hi = .ok false := by rw [pyGtE_num hv hhi]; simp [h3]
      simp [numEnforce, e1, e2, h1, h3]

/-- Clamp enforcement with only a lower bound, in closed form. -/
theorem numEnforce_clamp_low (lo v : PyVal) (hv : pyIsNum v = true)
    (hlo : pyIsNum lo = true) :
    numEnforce (some lo) Option.none .clamp v =
      .ok (if toR v < toR lo then lo else v) := by
  by_cases h1 : toR v < toR lo
  · have e1 : pyLtE v lo = .ok true := by rw [pyLtE_num hv hlo]; simp [h1]
    simp [numEnforce, e1, h1]
  · have e1 : pyLtE v lo = .ok false := by rw [pyLtE_num hv hlo]; simp [h1]
    simp [numEnforce, e1, h1]

/-- Clamp enforcement with only an upper bound, in closed form. -/
theorem numEnforce_clamp_high (hi v : PyVal) (hv : pyIsNum v = true)
    (hhi : pyIsNum hi = true) :
    numEnforce Option.none (some hi) .clamp v =
      .ok (if toR hi < toR v then hi else v) := by
  by_cases h3 : toR hi < toR v
  · have e2 : pyGtE v hi = .ok true := by rw [pyGtE_num hv hhi]; simp [h3]
    simp [numEnforce, e2, h3]
  · have e2 : pyGtE v hi = .ok false := by rw [pyGtE_num hv hhi]; simp [h3]
    simp [numEnforce, e2, h3]

/-- A numeric comparison that succeeded forces the right operand to be a
number too. -/
theorem pyLtE_ok_num {a b : PyVal} {t : Bool} (ha : pyIsNum a = true)
    (h : pyLtE a b = .ok t) : pyIsNum b = true := by
  by_cases hb : pyIsNum b = true
  · exact hb
  · rw [pyLtE_not_num_right ha (by simpa using hb)] at h
    exact Except.noConfusion h

/-- A comparison that succeeded against a numeric right operand forces
the left operand to be a number. -/
theorem pyLtE_ok_num_left {a b : PyVal} {t : Bool} (hb : pyIsNum b = true)
    (h : pyLtE a b = .ok t) : pyIsNum a = true := by
  cases a <;> cases b <;> simp_all [pyLtE, pyIsNum]

/-- Enforcement with a non-numeric lower bound raises. -/
theorem numEnforce_err_low (lo : PyVal) (high : Option PyVal) (pol : NumericPolicy)
    (v : PyVal) (hv : pyIsNum v = true) (hlo : pyIsNum lo = false)
    (hpol : ¬ pol = .bypass) : numEnforce (some lo) high pol v = .error .typeError := by
  have e := pyLtE_not_num_right hv hlo
  cases pol
  · simp [numEnforce, e]
  · simp [numEnforce, e]
  · exact absurd rfl hpol

/-- Enforcement with no lower bound and a non-numeric upper bound raises. -/
theorem numEnforce_err_high_noLow (hi : PyVal) (pol : NumericPolicy) (v : PyVal)
    (hv : pyIsNum v = true) (hhi : pyIsNum hi = false) (hpol : ¬ pol = .bypass) :
    numEnforce Option.none (some hi) pol v = .error .typeError := by
  have e := pyGtE_not_num_right hv hhi
  cases pol
  · simp [numEnforce, e]
  · simp [numEnforce, e]
  · exact absurd rfl hpol

/-- Clamp enforcement with a numeric lower and non-numeric upper bound
raises. -/
theorem numEnforce_clamp_err_high (lo hi v : PyVal) (hv : pyIsNum v = true)
    (hlo : pyIsNum lo = true) (hhi : pyIsNum hi = false) :
    numEnforce (some lo) (some hi) .clamp v = .error .typeError := by
  by_cases h1 : toR v < toR lo
  · have e1 : pyLtE v lo = .ok true := by rw [pyLtE_num hv hlo]; simp [h1]
    have e2 := pyGtE_not_num_right hlo hhi
    simp [numEnforce, e1, e2]
  · have e1 : pyLtE v lo = .ok false := by rw [pyLtE_num hv hlo]; simp [h1]
    have e2 := pyGtE_not_num_right hv hhi
    simp [numEnforce, e1, e2]

/-- A successful non-bypass enforcement has a numeric lower bound. -/
theorem numEnforce_ok_low_num {lo : PyVal} {high : Option PyVal} {pol : NumericPolicy}
    {v u : PyVal} (hv : pyIsNum v = true) (hpol : ¬ pol = .bypass)
    (h : numEnforce (some lo) high pol v = .ok u) : pyIsNum lo = true := by
  by_cases hb : pyIsNum lo = true
  · exact hb
  · rw [numEnforce_err_low lo high pol v hv (by simpa using hb) hpol] at h
    exact Except.noConfusion h

/-- A successful clamp enforcement has a numeric upper bound. -/
theorem numEnforce_clamp_ok_high_num {low : Option PyVal} {hi : PyVal} {v u : PyVal}
    (hv : pyIsNum v = true) (h : numEnforce low (some hi) .clamp v = .ok u) :
    pyIsNum hi = true := by
  by_cases hb : pyIsNum hi = true
  · exact hb
  · cases low with
    | none =>
      rw [numEnforce_err_high_noLow hi .clamp v hv (by simpa using hb) (by simp)] at h
      exact Except.noConfusion h
    | some lo =>
      have hlo : pyIsNum lo = true := numEnforce_ok_low_num hv (by simp) h
      rw [numEnforce_clamp_err_high lo hi v hv hlo (by simpa using hb)] at h
      exact Except.noConfusion h

/-- Reject enforcement fires on a violated numeric lower bound whatever
the upper bound is. -/
theorem numEnforce_reject_lt (lo : PyVal) (high : Option PyVal) (v : PyVal)
    (hv : pyIsNum v = true) (hlo : pyIsNum lo = true) (h1 : toR v < toR lo) :
    numEnforce (some lo) high .reject v = .ok PyVal.none := by
  have e1 : pyLtE v lo = .ok true := by rw [pyLtE_num hv hlo]; simp [h1]
  simp [numEnforce, e1]

/-- Reject enforcement with only a lower bound, in closed form. -/
theorem numEnforce_reject_low_num (lo v : PyVal) (hv : pyIsNum v = true)
    (hlo : pyIsNum lo = true) :
    numEnforce (some lo) Option.none .reject v =
      .ok (if toR v < toR lo then PyVal.none else v) := by
  by_cases h1 : toR v < toR lo
  · have e1 : pyLtE v lo = .ok true := by rw [pyLtE_num hv hlo]; simp [h1]
    simp [numEnforce, e1, h1]
  · have e1 : pyLtE v lo = .ok false := by rw [pyLtE_num hv hlo]; simp [h1]
    simp [numEnforce, e1, h1]

/-- Reject enforcement with only an upper bound, in closed form. -/
theorem numEnforce_reject_high_num (hi v : PyVal) (hv : pyIsNum v = true)
    (hhi : pyIsNum hi = true) :
    numEnforce Option.none (some hi) .reject v =
      .ok (if toR hi < toR v then PyVal.none else v) := by
  by_cases h3 : toR hi < toR v
  · have e2 : pyGtE v hi = .ok true := by rw [pyGtE_num hv hhi]; simp [h3]
    simp [numEnforce, e2, h3]
  · have e2 : pyGtE v hi = .ok false := by rw [pyGtE_num hv hhi]; simp [h3]
    simp [numEnforce, e2, h3]

/-- Reject enforcement with both bounds on numbers, in closed form. -/
theorem numEnforce_reject_both_num (lo hi v : PyVal) (hv : pyIsNum v = true)
    (hlo : pyIsNum lo = true) (hhi : pyIsNum hi = true) :
    numEnforce (some lo) (some hi) .reject v =
      .ok (if toR v < toR lo then PyVal.none
           else if toR hi < toR v then PyVal.none else v) := by
  by_cases h1 : toR v < toR lo
  · rw [numEnforce_reject_lt lo (some hi) v hv hlo h1]
    simp [h1]
  · have e1 : pyLtE v lo = .ok false := by rw [pyLtE_num hv hlo]; simp [h1]
    by_cases h3 : toR hi < toR v
    · have e2 : pyGtE v hi = .ok true := by rw [pyGtE_num hv hhi]; simp [h3]
      simp [numEnforce, e1, e2, h1, h3]
    · have e2 : pyGtE v hi = .ok false := by rw [pyGtE_num hv hhi]; simp [h3]
      simp [numEnforce, e1, e2, h1, h3]

/-- A successful non-rejected reject-mode enforcement returns its input
unchanged, and therefore again on a second pass. -/
theorem numEnforce_reject_ok {low high : Option PyVal} {v u : PyVal}
    (hv : pyIsNum v = true) (h : numEnforce low high .reject v = .ok u)
    (hu : pyIsNone u = false) : u = v := by
  cases low with
  | none =>
    cases high with
    | none =>
      rw [numEnforce_no_bounds] at h
      injection h with h
      exact h.symm
    | some hi =>
      have hhi : pyIsNum hi = true := by
        by_cases hb : pyIsNum hi = true
        · exact hb
        · rw [numEnforce_err_high_noLow hi .reject v hv (by simpa using hb) (by simp)] at h
          exact Except.noConfusion h
      rw [numEnforce_reject_high_num hi v hv hhi] at h
      injection h with h
      split at h
      · subst h; simp [pyIsNone] at hu
      · exact h.symm
  | some lo =>
    have hlo : pyIsNum lo = true := numEnforce_ok_low_num hv (by simp) h
    by_cases h1 : toR v < toR lo
    · rw [numEnforce_reject_lt lo high v hv hlo h1] at h
      injection h with h
      subst h
      simp [pyIsNone] at hu
    · cases high with
      | none =>
        rw [numEnforce_reject_low_num lo v hv hlo] at h
        injection h with h
        rw [if_neg h1] at h
        exact h.symm
      | some hi =>
        have hhi : pyIsNum hi = true := by
          by_cases hb : pyIsNum hi = true
          · exact hb
          · have e1 : pyLtE v lo = .ok false := by rw [pyLtE_num hv hlo]; simp [h1]
            have e2 := pyGtE_not_num_right hv (by simpa using hb)
            rw [show numEnforce (some lo) (some hi) .reject v = .error .typeError by
              simp [numEnforce, e1, e2]] at h
            exact Except.noConfusion h
        rw [numEnforce_reject_both_num lo hi v hv hlo hhi] at h
        injection h with h
        rw [if_neg h1] at h
        split at h
        · subst h; simp [pyIsNone] at hu
        · exact h.symm

/-- Bound enforcement is idempotent on its successful non-rejected
outputs: clamping an already clamped value changes nothing. -/
theorem numEnforce_idem {low high : Option PyVal} {pol : NumericPolicy} {v u : PyVal}
    (hv : pyIsNum v = true) (h : numEnforce low high pol v = .ok u)
    (hu : pyIsNone u = false) :
    pyIsNum u = true ∧ numEnforce low high pol u = .ok u := by
  cases pol
  case bypass =>
    rw [numEnforce_bypass] at h
    injection h with h
    subst h
    exact ⟨hv, numEnforce_bypass _ _ _⟩
  case reject =>
    have he := numEnforce_reject_ok hv h hu
    subst he
    exact ⟨hv, h⟩
  case clamp =>
    cases low with
    | none =>
      cases high with
      | none =>
        rw [numEnforce_no_bounds] at h
        injection h with h
        subst h
        exact ⟨hv, numEnforce_no_bounds _ _⟩
      | some hi =>
        have hhi := numEnforce_clamp_ok_high_num hv h
        rw [numEnforce_clamp_high hi v hv hhi] at h
        injection h with h
        by_cases h3 : toR hi < toR v
        · rw [if_pos h3] at h
          subst h
          exact ⟨hhi, by rw [numEnforce_clamp_high hi hi hhi hhi]; simp⟩
        · rw [if_neg h3] at h
          subst h
          exact ⟨hv, by rw [numEnforce_clamp_high hi v hv hhi]; simp [h3]⟩
    | some lo =>
      have hlo := numEnforce_ok_low_num hv (by simp) h
      cases high with
      | none =>
        rw [numEnforce_clamp_low lo v hv hlo] at h
        injection h with h
        by_cases h1 : toR v < toR lo
        · rw [if_pos h1] at h
          subst h
          exact ⟨hlo, by rw [numEnforce_clamp_low lo lo hlo hlo]; simp⟩
        · rw [if_neg h1] at h
          subst h
          exact ⟨hv, by rw [numEnforce_clamp_low lo v hv hlo]; simp [h1]⟩
      | some hi =>
        have hhi := numEnforce_clamp_ok_high_num hv h
        rw [numEnforce_clamp_num lo hi v hv hlo hhi] at h
        injection h with h
        by_cases h1 : toR v < toR lo
        · rw [if_pos h1] at h
          by_cases h2 : toR hi < toR lo
          · rw [if_pos h2] at h
            subst h
            refine ⟨hhi, ?_⟩
            rw [numEnforce_clamp_num lo hi hi hhi hlo hhi]
            simp [h2]
          · rw [if_neg h2] at h
            subst h
            refine ⟨hlo, ?_⟩
            rw [numEnforce_clamp_num lo hi lo hlo hlo hhi]
            simp [h2, lt_irrefl]
        · rw [if_neg h1] at h
          by_cases h3 : toR hi < toR v
          · rw [if_pos h3] at h
            subst h
            refine ⟨hhi, ?_⟩
            rw [numEnforce_clamp_num lo hi hi hhi hlo hhi]
            by_cases h2 : toR hi < toR lo
            · simp [h2]
            · simp [h2, lt_irrefl]
          · rw [if_neg h3] at h
            subst h
            refine ⟨hv, ?_⟩
            rw [numEnforce_clamp_num lo hi v hv hlo hhi]
            simp [h1, h3]

/-- A rational equal to an integer has zero fractional part. -/
theorem fracZero_of_eq_int {a : Rat} (n : Int) (h : a = ((n : Int) : Rat)) :
    qSub a (((a.floor : Int)) : Rat) = 0 := by
  subst h
  rw [qSub_eq, ratFloor_eq_intFloor, Int.floor_intCast, sub_self]

/-- A rational with zero fractional part equals its floor. -/
theorem eq_floor_of_fracZero {a : Rat} (h : qSub a (((a.floor : Int)) : Rat) = 0) :
    a = ((⌊a⌋ : Int) : Rat) := by
  rw [qSub_eq, ratFloor_eq_intFloor, sub_eq_zero] at h
  exact h

/-- The multiple_of check passes an exact multiple through unchanged. -/
theorem multCheck_exact (m : PyVal) (pol : NumericPolicy) (v : PyVal)
    (hv : pyIsNum v = true) (hm : pyIsNum m = true) (hm0 : ¬ toR m = 0)
    (hq : qSub (qDiv (toR v) (toR m))
      ((((qDiv (toR v) (toR m)).floor : Int)) : Rat) = 0) :
    multCheck (some m) pol v = .ok v := by
  unfold multCheck
  simp [pyIsNum_not_none hv, hv, hm, hm0, hq]

/-- The multiple_of check under clamp snaps a non-multiple to the
rounded multiple. -/
theorem multCheck_snap (m v : PyVal) (hv : pyIsNum v = true) (hm : pyIsNum m = true)
    (hm0 : ¬ toR m = 0)
    (hq : ¬ qSub (qDiv (toR v) (toR m))
      ((((qDiv (toR v) (toR m)).floor : Int)) : Rat) = 0) :
    multCheck (some m) .clamp v =
      .ok (numPair (.int (bankRound (qDiv (toR v) (toR m)))) m qMul (· * ·)) := by
  unfold multCheck
  simp [pyIsNum_not_none hv, hv, hm, hm0, hq]

/-- Division respects the betweenness used by the snap argument. -/
theorem bankRound_div_between {v m c : Rat} {R : Int} (hm0 : ¬ m = 0)
    (hR : bankRound (v / m) = R)
    (hbet : ((R : Rat) * m ≤ c ∧ c ≤ v) ∨ (v ≤ c ∧ c ≤ (R : Rat) * m)) :
    bankRound (c / m) = R := by
  have hRm : (R : Rat) * m / m = (R : Rat) := mul_div_cancel_right₀ _ hm0
  rcases lt_trichotomy m 0 with hneg | hz | hpos
  · have hinv : m⁻¹ ≤ 0 := (inv_lt_zero.mpr hneg).le
    have mono : ∀ x y : Rat, x ≤ y → y / m ≤ x / m := fun x y hxy => by
      rw [div_eq_mul_inv, div_eq_mul_inv]
      exact mul_le_mul_of_nonpos_right hxy hinv
    rcases hbet with ⟨ha, hb⟩ | ⟨ha, hb⟩
    · refine bankRound_eq_of_between hR ?_ ?_
      · exact le_trans (min_le_right _ _) (by have := mono _ _ hb; exact this)
      · have := mono _ _ ha
        rw [hRm] at this
        exact le_trans this (le_max_left _ _)
    · refine bankRound_eq_of_between hR ?_ ?_
      · have := mono _ _ hb
        rw [hRm] at this
        exact le_trans (min_le_left _ _) this
      · exact le_trans (mono _ _ ha) (le_max_right _ _)
  · exact absurd hz hm0
  · have hinv : 0 ≤ m⁻¹ := (inv_pos.mpr hpos).le
    have mono : ∀ x y : Rat, x ≤ y → x / m ≤ y / m := fun x y hxy => by
      rw [div_eq_mul_inv, div_eq_mul_inv]
      exact mul_le_mul_of_nonneg_right hxy hinv
    rcases hbet with ⟨ha, hb⟩ | ⟨ha, hb⟩
    · refine bankRound_eq_of_between hR ?_ ?_
      · have := mono _ _ ha
        rw [hRm] at this
        exact le_trans (min_le_left _ _) this
      · exact le_trans (mono _ _ hb) (le_max_right _ _)
    · refine bankRound_eq_of_between hR ?_ ?_
      · exact le_trans (min_le_right _ _) (mono _ _ ha)
      · have := mono _ _ hb
        rw [hRm] at this
        exact le_trans this (le_max_left _ _)

/-- The multiple_of clamp snaps a clamped non-multiple back to the very
same rounded multiple. -/
theorem multCheck_roundtrip {m c : PyVal} {R : Int} (hc : pyIsNum c = true)
    (hm : pyIsNum m = true) (hm0 : ¬ toR m = 0)
    (hround : bankRound (qDiv (toR c) (toR m)) = R)
    (hne : ¬ toR c = (R : Rat) * toR m) :
    multCheck (some m) .clamp c = .ok (numPair (.int R) m qMul (· * ·)) := by
  have hfrac : ¬ qSub (qDiv (toR c) (toR m))
      ((((qDiv (toR c) (toR m)).floor : Int)) : Rat) = 0 := by
    intro hz
    have he := eq_floor_of_fracZero hz
    rw [he, bankRound_intCast] at hround
    apply hne
    have hdiv : qDiv (toR c) (toR m) = ((R : Int) : Rat) := by rw [he, hround]
    rw [qDiv_eq] at hdiv
    exact (div_eq_iff hm0).mp hdiv
  rw [multCheck_snap m c hc hm hm0 hfrac, hround]

/-- Snapping to a multiple and re-running the clamp enforcement plus the
multiple_of check reproduces the snapped value exactly. -/
theorem numEnforce_snap_stable {low high : Option PyVal} {m v : PyVal}
    (hv : pyIsNum v = true) (hm : pyIsNum m = true) (hm0 : ¬ toR m = 0)
    (henf : numEnforce low high .clamp v = .ok v)
    (hfrac : ¬ qSub (qDiv (toR v) (toR m))
      ((((qDiv (toR v) (toR m)).floor : Int)) : Rat) = 0) :
    ∃ c, numEnforce low high .clamp
        (numPair (.int (bankRound (qDiv (toR v) (toR m)))) m qMul (· * ·)) = .ok c ∧
      pyIsNum c = true ∧
      multCheck (some m) .clamp c
        = .ok (numPair (.int (bankRound (qDiv (toR v) (toR m)))) m qMul (· * ·)) := by
  obtain ⟨R, hR⟩ : ∃ R, bankRound (qDiv (toR v) (toR m)) = R := ⟨_, rfl⟩
  rw [hR]
  set S := numPair (.int R) m qMul (· * ·) with hSdef
  have hSnum : pyIsNum S = true := numPair_num _ _ _ _
  have hStoR : toR S = (R : Rat) * toR m := toR_numPair_mul R m hm
  have hRdiv : bankRound (toR v / toR m) = R := by rw [← qDiv_eq]; exact hR
  have hSq : qDiv (toR S) (toR m) = ((R : Int) : Rat) := by
    rw [qDiv_eq, hStoR, mul_div_cancel_right₀ _ hm0]
  have hmultS : multCheck (some m) .clamp S = .ok S :=
    multCheck_exact m .clamp S hSnum hm hm0 (fracZero_of_eq_int R hSq)
  have hsnapv : multCheck (some m) .clamp v = .ok S := by
    rw [multCheck_snap m v hv hm hm0 hfrac, hR]
  cases low with
  | none =>
    cases high with
    | none => exact ⟨S, numEnforce_no_bounds _ _, hSnum, hmultS⟩
    | some hi =>
      have hhi : pyIsNum hi = true := numEnforce_clamp_ok_high_num hv henf
      rw [numEnforce_clamp_high hi v hv hhi] at henf
      injection henf with henf
      by_cases h3 : toR hi < toR v
      · rw [if_pos h3] at henf
        subst henf
        exact absurd h3 (lt_irrefl _)
      · rw [if_neg h3] at henf
        rw [numEnforce_clamp_high hi S hSnum hhi]
        by_cases h4 : toR hi < toR S
        · refine ⟨hi, by rw [if_pos h4], hhi, ?_⟩
          have hround : bankRound (qDiv (toR hi) (toR m)) = R := by
            rw [qDiv_eq]
            exact bankRound_div_between hm0 hRdiv
              (Or.inr ⟨le_of_not_lt h3, le_of_lt (hStoR ▸ h4)⟩)
          refine multCheck_roundtrip hhi hm hm0 hround ?_
          intro he
          rw [he, ← hStoR] at h4
          exact absurd h4 (lt_irrefl _)
        · exact ⟨S, by rw [if_neg h4], hSnum, hmultS⟩
  | some lo =>
    have hlo : pyIsNum lo = true := numEnforce_ok_low_num hv (by simp) henf
    cases high with
    | none =>
      rw [numEnforce_clamp_low lo v hv hlo] at henf
      injection henf with henf
      by_cases h1 : toR v < toR lo
      · rw [if_pos h1] at henf
        subst henf
        exact absurd h1 (lt_irrefl _)
      · rw [if_neg h1] at henf
        rw [numEnforce_clamp_low lo S hSnum hlo]
        by_cases h4 : toR S < toR lo
        · refine ⟨lo, by rw [if_pos h4], hlo, ?_⟩
          have hround : bankRound (qDiv (toR lo) (toR m)) = R := by
            rw [qDiv_eq]
            exact bankRound_div_between hm0 hRdiv
              (Or.inl ⟨le_of_lt (hStoR ▸ h4), le_of_not_lt h1⟩)
          refine multCheck_roundtrip hlo hm hm0 hround ?_
          intro he
          rw [he, ← hStoR] at h4
          exact absurd h4 (lt_irrefl _)
        · exact ⟨S, by rw [if_neg h4], hSnum, hmultS⟩
    | some hi =>
      have hhi : pyIsNum hi = true := numEnforce_clamp_ok_high_num hv henf
      rw [numEnforce_clamp_num lo hi v hv hlo hhi] at henf
      injection henf with henf
      rw [numEnforce_clamp_num lo hi S hSnum hlo hhi]
      by_cases h1 : toR v < toR lo
      · rw [if_pos h1] at henf
        by_cases h2 : toR hi < toR lo
        · rw [if_pos h2] at henf
          subst henf
          by_cases h4 : toR S < toR lo
          · exact ⟨hi, by rw [if_pos h4, if_pos h2], hhi, hsnapv⟩
          · have h5 : toR hi < toR S := lt_of_lt_of_le h1 (le_of_not_lt h4)
            exact ⟨hi, by rw [if_neg h4, if_pos h5], hhi, hsnapv⟩
        · rw [if_neg h2] at henf
          subst henf
          exact absurd h1 (lt_irrefl _)
      · rw [if_neg h1] at henf
        by_cases h3 : toR hi < toR v
        · rw [if_pos h3] at henf
          subst henf
          exact absurd h3 (lt_irrefl _)
        · rw [if_neg h3] at henf
          have hlohi : ¬ toR hi < toR lo :=
            fun hc => absurd (lt_of_le_of_lt (le_of_not_lt h3)
              (lt_of_lt_of_le hc (le_of_not_lt h1))) (lt_irrefl _)
          by_cases h4 : toR S < toR lo
          · refine ⟨lo, by rw [if_pos h4, if_neg hlohi], hlo, ?_⟩
            have hround : bankRound (qDiv (toR lo) (toR m)) = R := by
              rw [qDiv_eq]
              exact bankRound_div_between hm0 hRdiv
                (Or.inl ⟨le_of_lt (hStoR ▸ h4), le_of_not_lt h1⟩)
            refine multCheck_roundtrip hlo hm hm0 hround ?_
            intro he
            rw [he, ← hStoR] at h4
            exact absurd h4 (lt_irrefl _)
          · by_cases h5 : toR hi < toR S
            · refine ⟨hi, by rw [if_neg h4, if_pos h5], hhi, ?_⟩
              have hround : bankRound (qDiv (toR hi) (toR m)) = R := by
                rw [qDiv_eq]
                exact bankRound_div_between hm0 hRdiv
                  (Or.inr ⟨le_of_not_lt h3, le_of_lt (hStoR ▸ h5)⟩)
              refine multCheck_roundtrip hhi hm hm0 hround ?_
              intro he
              rw [he, ← hStoR] at h5
              exact absurd h5 (lt_irrefl _)
            · exact ⟨S, by rw [if_neg h4, if_neg h5], hSnum, hmultS⟩

/-- On a numeric input the numeric fixer is exactly bound enforcement:
no expression evaluation and no coercion happen. -/
theorem numFix_num (p : Parse) (ann : Ann) (low high : Option PyVal)
    (pol : NumericPolicy) (ev : Bool) (w : PyVal) (hw : pyIsNum w = true) :
    numFix p ann low high pol ev w = numEnforce low high pol w := by
  unfold numFix
  rw [numEvalStage_nonstr p low high ev (pyIsNum_not_str hw)]
  simp [hw]

/-- A successful int or float coercion returns a number. -/
theorem pyCallAnn_num {ann : Ann} {x c : PyVal}
    (hann : ann = Ann.aInt ∨ ann = Ann.aFloat) (h : pyCallAnn ann x = some c) :
    pyIsNum c = true := by
  rcases hann with hann | hann <;> subst hann <;> cases x <;>
    simp only [pyCallAnn, Option.map_eq_some'] at h <;>
    first
      | exact Option.noConfusion h
      | (injection h with h; subst h; rfl)
      | (obtain ⟨n, hn, hc⟩ := h; subst hc; rfl)

/-- Outcomes of the numeric fixer under a numeric annotation: the raw
value kept by bypass on a failed coercion (then necessarily not itself a
number), the sentinel, or the enforcement of a successfully coerced
number. -/
theorem numFix_out {p : Parse} {ann : Ann} {low high : Option PyVal}
    {pol : NumericPolicy} {ev : Bool} {v1 v2 : PyVal}
    (hann : ann = Ann.aInt ∨ ann = Ann.aFloat)
    (h : numFix p ann low high pol ev v1 = .ok v2) :
    (v2 = v1 ∧ pyIsNum v1 = false) ∨ v2 = PyVal.none ∨
      ∃ cv, pyIsNum cv = true ∧ numEnforce low high pol cv = .ok v2 := by
  simp only [numFix] at h
  by_cases hnum : pyIsNum (numEvalStage p low high ev v1) = true
  · rw [if_pos hnum] at h
    exact Or.inr (Or.inr ⟨numEvalStage p low high ev v1, hnum, h⟩)
  · rw [if_neg hnum] at h
    cases hca : pyCallAnn ann (numEvalStage p low high ev v1) with
    | some cv =>
      rw [hca] at h
      exact Or.inr (Or.inr ⟨cv, pyCallAnn_num hann hca, h⟩)
    | none =>
      rw [hca] at h
      have h2 : (if pol = NumericPolicy.bypass then (Except.ok v1 : Except PErr PyVal)
          else Except.ok PyVal.none) = Except.ok v2 := h
      by_cases hpol : pol = NumericPolicy.bypass
      · rw [if_pos hpol] at h2
        injection h2 with h2
        have hnv1 : pyIsNum v1 = false := by
          by_cases hb : pyIsNum v1 = true
          · rw [numEvalStage_nonstr p low high ev (pyIsNum_not_str hb)] at hnum
            exact absurd hb hnum
          · simpa using hb
        exact Or.inl ⟨h2.symm, hnv1⟩
      · rw [if_neg hpol] at h2
        injection h2 with h2
        exact Or.inr (Or.inl h2.symm)

/-- The generic length checks: either pass-through or the sentinel. -/
theorem lenCheckMin_or (ml : Option Nat) (pol : NumericPolicy) (v : PyVal) :
    lenCheckMin ml pol v = v ∨ lenCheckMin ml pol v = PyVal.none := by
  unfold lenCheckMin
  split
  · left; rfl
  · split
    · split
      · right; rfl
      · left; rfl
    · left; rfl

/-- The generic max length check: either pass-through or the sentinel. -/
theorem lenCheckMax_or (ml : Option Nat) (pol : NumericPolicy) (v : PyVal) :
    lenCheckMax ml pol v = v ∨ lenCheckMax ml pol v = PyVal.none := by
  unfold lenCheckMax
  split
  · left; rfl
  · split
    · split
      · right; rfl
      · left; rfl
    · left; rfl

/-- The length checks pass numbers through (numbers have no length). -/
theorem lenCheckMin_num (ml : Option Nat) (pol : NumericPolicy) (v : PyVal)
    (hv : pyIsNum v = true) : lenCheckMin ml pol v = v := by
  unfold lenCheckMin
  rw [pyIsNum_not_none hv]
  cases v <;> cases ml <;> simp_all [pyIsNum, pyLenO]

/-- The max length check passes numbers through. -/
theorem lenCheckMax_num (ml : Option Nat) (pol : NumericPolicy) (v : PyVal)
    (hv : pyIsNum v = true) : lenCheckMax ml pol v = v := by
  unfold lenCheckMax
  rw [pyIsNum_not_none hv]
  cases v <;> cases ml <;> simp_all [pyIsNum, pyLenO]

/-- The length checks pass the sentinel through. -/
theorem lenCheckMin_none (ml : Option Nat) (pol : NumericPolicy) :
    lenCheckMin ml pol PyVal.none = PyVal.none := rfl

/-- The max length check passes the sentinel through. -/
theorem lenCheckMax_none (ml : Option Nat) (pol : NumericPolicy) :
    lenCheckMax ml pol PyVal.none = PyVal.none := rfl

/-- The multiple_of check passes the sentinel through. -/
theorem multCheck_none_val (mo : Option PyVal) (pol : NumericPolicy) :
    multCheck mo pol PyVal.none = .ok PyVal.none := rfl

/-- The numeric tail of the per-field fixer (numeric fixer, length
checks, multiple_of check) maps its own output back to itself: a second
run reproduces the fixed value. -/
theorem numStage_stable {p : Parse} {ann : Ann} {low high mo : Option PyVal}
    {pol : NumericPolicy} {ev : Bool} {minl maxl : Option Nat} {v1 v2 w : PyVal}
    (hann : ann = Ann.aInt ∨ ann = Ann.aFloat)
    (hv2 : numFix p ann low high pol ev v1 = .ok v2)
    (hmult : multCheck mo pol (lenCheckMax maxl pol (lenCheckMin minl pol v2)) = .ok w)
    (hw : pyIsNone w = false) (hne : ¬ w = v1) :
    ∃ v2b, numFix p ann low high pol ev w = .ok v2b ∧
      multCheck mo pol (lenCheckMax maxl pol (lenCheckMin minl pol v2b)) = .ok w := by
  rcases numFix_out hann hv2 with ⟨hvv, hnum1⟩ | hv2none | ⟨cv, hcv, henf⟩
  · subst hvv
    rcases lenCheckMin_or minl pol v2 with hl1 | hl1 <;> rw [hl1] at hmult
    · rcases lenCheckMax_or maxl pol v2 with hl2 | hl2 <;> rw [hl2] at hmult
      · rw [multCheck_not_num mo pol v2 hnum1] at hmult
        injection hmult with hmult
        exact absurd hmult.symm hne
      · rw [multCheck_none_val] at hmult
        injection hmult with hmult
        rw [← hmult] at hw
        simp [pyIsNone] at hw
    · rw [lenCheckMax_none, multCheck_none_val] at hmult
      injection hmult with hmult
      rw [← hmult] at hw
      simp [pyIsNone] at hw
  · subst hv2none
    rw [lenCheckMin_none, lenCheckMax_none, multCheck_none_val] at hmult
    injection hmult with hmult
    rw [← hmult] at hw
    simp [pyIsNone] at hw
  · have hv2ne : pyIsNone v2 = false := by
      by_cases hb : v2 = PyVal.none
      · subst hb
        rw [lenCheckMin_none, lenCheckMax_none, multCheck_none_val] at hmult
        injection hmult with hmult
        rw [← hmult] at hw
        simp [pyIsNone] at hw
      · cases v2 <;> simp_all [pyIsNone]
    obtain ⟨hv2num, hidem⟩ := numEnforce_idem hcv henf hv2ne
    rw [lenCheckMin_num minl pol v2 hv2num, lenCheckMax_num maxl pol v2 hv2num] at hmult
    cases mo with
    | none =>
      rw [multCheck_none_mult] at hmult
      injection hmult with hmult
      subst hmult
      refine ⟨v2, ?_, ?_⟩
      · rw [numFix_num p ann low high pol ev v2 hv2num]
        exact hidem
      · rw [lenCheckMin_num minl pol v2 hv2num, lenCheckMax_num maxl pol v2 hv2num,
          multCheck_none_mult]
    | some m =>
      by_cases hm : pyIsNum m = true
      · by_cases hm0 : toR m = 0
        · unfold multCheck at hmult
          simp [pyIsNum_not_none hv2num, hv2num, hm, hm0] at hmult
        · by_cases hfrac : qSub (qDiv (toR v2) (toR m))
              ((((qDiv (toR v2) (toR m)).floor : Int)) : Rat) = 0
          · rw [multCheck_exact m pol v2 hv2num hm hm0 hfrac] at hmult
            injection hmult with hmult
            subst hmult
            refine ⟨v2, ?_, ?_⟩
            · rw [numFix_num p ann low high pol ev v2 hv2num]
              exact hidem
            · rw [lenCheckMin_num minl pol v2 hv2num, lenCheckMax_num maxl pol v2 hv2num]
              exact multCheck_exact m pol v2 hv2num hm hm0 hfrac
          · cases pol
            case neg.bypass =>
              have hmx : multCheck (some m) .bypass v2 = .ok v2 := by
                unfold multCheck
                simp [pyIsNum_not_none hv2num, hv2num, hm, hm0, hfrac]
              rw [hmx] at hmult
              injection hmult with hmult
              subst hmult
              refine ⟨v2, ?_, ?_⟩
              · rw [numFix_num p ann low high .bypass ev v2 hv2num]
                exact hidem
              · rw [lenCheckMin_num minl _ v2 hv2num, lenCheckMax_num maxl _ v2 hv2num]
                exact hmx
            case neg.reject =>
              have hmx : multCheck (some m) .reject v2 = .ok PyVal.none := by
                unfold multCheck
                simp [pyIsNum_not_none hv2num, hv2num, hm, hm0, hfrac]
              rw [hmx] at hmult
              injection hmult with hmult
              rw [← hmult] at hw
              simp [pyIsNone] at hw
            case neg.clamp =>
              rw [multCheck_snap m v2 hv2num hm hm0 hfrac] at hmult
              injection hmult with hmult
              obtain ⟨c, hcS, hcnum, hcmult⟩ :=
                numEnforce_snap_stable hv2num hm hm0 hidem hfrac
              refine ⟨c, ?_, ?_⟩
              · rw [← hmult, numFix_num p ann low high .clamp ev _ (numPair_num _ _ _ _)]
                exact hcS
              · rw [lenCheckMin_num minl _ c hcnum, lenCheckMax_num maxl _ c hcnum,
                  hcmult, hmult]
      · unfold multCheck at hmult
        simp [pyIsNum_not_none hv2num, hv2num,
          (show pyIsNum m = false by simpa using hm)] at hmult

/-- The boolean fixer maps its own non-rejected output to itself. -/
theorem boolFix_stable (bf : BoolFmt) (pol : BooleanPolicy) (v : PyVal)
    (h : pyIsNone (boolFix bf pol v) = false) :
    boolFix bf pol (boolFix bf pol v) = boolFix bf pol v := by
  by_cases hpol : pol = BooleanPolicy.bypass
  · subst hpol
    have hb : ∀ x, boolFix bf BooleanPolicy.bypass x = x := by
      intro x
      unfold boolFix
      simp
    rw [hb, hb]
  · by_cases hvn : pyIsNone v = true
    · have hv : boolFix bf pol v = v := by
        unfold boolFix
        rw [hvn]
        simp
      rw [hv, hv]
    · have h1 : pyIsNone v = false := by simpa using hvn
      have hout : (∃ b, boolFix bf pol v = .bool b) ∨ boolFix bf pol v = PyVal.none := by
        have gen : ∀ x : PyVal,
            (∃ b, (if (List.map (fun y => strLower (pyStr y))
                  (bf.trueValues.getD defaultTrueVals)).contains (strLower (pyStr x))
                  = true then PyVal.bool true
                else if (List.map (fun y => strLower (pyStr y))
                  (bf.falseValues.getD defaultFalseVals)).contains (strLower (pyStr x))
                  = true then PyVal.bool false
                else if pol = BooleanPolicy.binary then PyVal.bool (pyTruthy x)
                else PyVal.none) = PyVal.bool b) ∨
              ((if (List.map (fun y => strLower (pyStr y))
                  (bf.trueValues.getD defaultTrueVals)).contains (strLower (pyStr x))
                  = true then PyVal.bool true
                else if (List.map (fun y => strLower (pyStr y))
                  (bf.falseValues.getD defaultFalseVals)).contains (strLower (pyStr x))
                  = true then PyVal.bool false
                else if pol = BooleanPolicy.binary then PyVal.bool (pyTruthy x)
                else PyVal.none) = PyVal.none) := by
          intro x
          split_ifs <;> first | exact Or.inl ⟨_, rfl⟩ | exact Or.inr rfl
        unfold boolFix
        split
        · rename_i hc
          rw [h1] at hc
          simp [hpol] at hc
        · split
          · exact Or.inl ⟨_, rfl⟩
          · exact gen v
      rcases hout with ⟨b, hb⟩ | hb
      · rw [hb]
        unfold boolFix
        simp [pyIsNone, hpol]
      · rw [hb] at h
        simp [pyIsNone] at h

/-- With an empty options list the multiple_choice filtering loop never
keeps an item: it returns its accumulator or the whole-field rejection. -/
theorem mcLoop_nil_opts (allowDup : Bool) (pol : MultipleChoicePolicy) :
    ∀ (l seen items : List PyVal) (res : Option (List PyVal)),
    mcLoop [] allowDup pol l seen items = .ok res →
    res = Option.none ∨ res = some items
  | [], _, items, res, h => by
    injection h with h
    subst h
    right; rfl
  | item :: rest, seen, items, res, h => by
    rw [mcLoop] at h
    split at h
    · split at h
      · exact Except.noConfusion h
      · split at h
        · exact mcLoop_nil_opts allowDup pol rest seen items res h
        · split at h
          · rename_i hc
            simp [pyIn] at hc
          · split at h
            · injection h with h
              subst h
              left; rfl
            · exact mcLoop_nil_opts allowDup pol rest _ items res h
    · split at h
      · rename_i hc
        simp [pyIn] at hc
      · split at h
        · injection h with h
          subst h
          left; rfl
        · exact mcLoop_nil_opts allowDup pol rest seen items res h

/-- Feeding the parsed selection list back in parses to the same list,
so the whole multiple_choice fixer agrees on both. -/
theorem mcFix_eq_list (mf : McFmt) (pol : MultipleChoicePolicy) (v : PyVal)
    (hv : pyIsNone v = false) :
    mcFix [] mf pol v = mcFix [] mf pol (.list (match v with
      | PyVal.str s =>
        if (match mf.inputSeparator with
            | some s2 => s2 != ""
            | Option.none => false) = true then
          ((pySplit s (mf.inputSeparator.getD "")).map pyStrip).filterMap
            (fun t => if t ≠ "" then some (PyVal.str t) else Option.none)
        else [v]
      | PyVal.list xs => xs
      | w => [w])) := by
  unfold mcFix
  rw [if_neg (by simp [hv]), if_neg (by simp [pyIsNone])]
  cases v <;> exact rfl

/-- The multiple_choice fixer on an already-parsed list whose filtering
loop keeps nothing, in closed form. -/
theorem mcFix_if_form (mf : McFmt) (pol : MultipleChoicePolicy) (lst : List PyVal)
    (hloop : mcLoop [] (mf.allowDuplicates.getD false) pol lst [] [] = .ok (some [])) :
    mcFix [] mf pol (.list lst) =
      (if (((match mf.minSelections with
            | some m => decide ((((if pol = MultipleChoicePolicy.removeInvalid
                then ([] : List PyVal) else lst).length : Int)) < m)
            | Option.none => false) ||
          (match (match mf.maxSelections with
                  | Option.none => some ((([] : List PyVal).length : Int))
                  | some m => m) with
            | some m => decide (m < (((if pol = MultipleChoicePolicy.removeInvalid
                then ([] : List PyVal) else lst).length : Int)))
            | Option.none => false)) &&
          decide (pol = MultipleChoicePolicy.rejectIfCountInvalid)) = true
        then Except.ok PyVal.none
        else Except.ok (PyVal.list (if pol = MultipleChoicePolicy.removeInvalid
            then ([] : List PyVal) else lst))) := by
  unfold mcFix
  rw [if_neg (by simp [pyIsNone])]
  show Bind.bind (mcLoop [] (mf.allowDuplicates.getD false) pol lst [] []) _ = _
  rw [hloop]
  rfl

/-- The multiple_choice fixer maps its own non-rejected output on a
parsed list back to itself. -/
theorem mcFix_list_stable (mf : McFmt) (pol : MultipleChoicePolicy) (lst : List PyVal)
    {u : PyVal} (h : mcFix [] mf pol (.list lst) = .ok u)
    (hne : pyIsNone u = false) : mcFix [] mf pol u = .ok u := by
  unfold mcFix at h
  rw [if_neg (by simp [pyIsNone])] at h
  simp only [ne_eq, Bind.bind, Except.bind] at h
  split at h
  · exact Except.noConfusion h
  · rename_i loopRes hloop
    rcases mcLoop_nil_opts _ _ _ _ _ _ hloop with hres | hres
    · subst hres
      injection h with h
      rw [← h] at hne
      exact Bool.noConfusion hne
    · subst hres
      have h2 : (if (((match mf.minSelections with
            | some m => decide ((((if pol = MultipleChoicePolicy.removeInvalid
                then ([] : List PyVal) else lst).length : Int)) < m)
            | Option.none => false) ||
          (match (match mf.maxSelections with
                  | Option.none => some ((([] : List PyVal).length : Int))
                  | some m => m) with
            | some m => decide (m < (((if pol = MultipleChoicePolicy.removeInvalid
                then ([] : List PyVal) else lst).length : Int)))
            | Option.none => false)) &&
          decide (pol = MultipleChoicePolicy.rejectIfCountInvalid)) = true
        then Except.ok PyVal.none
        else Except.ok (PyVal.list (if pol = MultipleChoicePolicy.removeInvalid
            then ([] : List PyVal) else lst))) = Except.ok u := h
      clear h
      by_cases hrem : pol = MultipleChoicePolicy.removeInvalid
      · rw [if_pos hrem] at h2
        split at h2
        · injection h2 with h2
          rw [← h2] at hne
          exact Bool.noConfusion hne
        · rename_i hbad
          injection h2 with h2
          subst h2
          rw [mcFix_if_form mf pol [] (by rw [mcLoop])]
          rw [if_pos hrem]
          rw [if_neg hbad]
      · rw [if_neg hrem] at h2
        split at h2
        · injection h2 with h2
          rw [← h2] at hne
          exact Bool.noConfusion hne
        · rename_i hbad
          injection h2 with h2
          subst h2
          rw [mcFix_if_form mf pol lst hloop]
          rw [if_neg hrem]
          rw [if_neg hbad]

/-- The multiple_choice fixer (with no declared options, the only case a
stable spec allows) maps its own non-rejected output back to itself. -/
theorem mcFix_stable {mf : McFmt} {pol : MultipleChoicePolicy} {v u : PyVal}
    (h : mcFix [] mf pol v = .ok u) (hne : pyIsNone u = false) :
    mcFix [] mf pol u = .ok u := by
  by_cases hvn : pyIsNone v = true
  · unfold mcFix at h
    rw [if_pos hvn] at h
    injection h with h
    subst h
    rw [hne] at hvn
    exact Bool.noConfusion hvn
  · rw [mcFix_eq_list mf pol v (by simpa using hvn)] at h
    exact mcFix_list_stable mf pol _ h hne

/-- A successful int() coercion produces an int. -/
theorem pyCallAnn_aInt_shape {x c : PyVal} (h : pyCallAnn .aInt x = some c) :
    ∃ n : Int, c = .int n := by
  cases x <;> simp only [pyCallAnn, Option.map_eq_some'] at h <;>
    first
      | exact Option.noConfusion h
      | (injection h with h; exact ⟨_, h.symm⟩)
      | (obtain ⟨n, hn, hc⟩ := h; exact ⟨n, hc.symm⟩)

/-- A successful float() coercion produces a float. -/
theorem pyCallAnn_aFloat_shape {x c : PyVal} (h : pyCallAnn .aFloat x = some c) :
    ∃ q : Rat, c = .float q := by
  cases x <;> simp only [pyCallAnn, Option.map_eq_some'] at h <;>
    first
      | exact Option.noConfusion h
      | (injection h with h; exact ⟨_, h.symm⟩)
      | (obtain ⟨n, hn, hc⟩ := h; exact ⟨n, hc.symm⟩)

/-- The list item converter is idempotent on its outputs. -/
theorem lcConvert_idem {itn : String} {x c : PyVal} (h : lcConvert itn x = some c) :
    lcConvert itn c = some c := by
  unfold lcConvert at h ⊢
  split_ifs at h ⊢
  · obtain ⟨n, hn⟩ := pyCallAnn_aInt_shape h
    subst hn
    rfl
  · obtain ⟨q, hq⟩ := pyCallAnn_aFloat_shape h
    subst hq
    rfl
  · cases x <;> (injection h with h; subst h; rfl)
  · injection h with h
    subst h
    rfl

/-- Items kept by the conversion loop are converter outputs (or were in
the accumulator). -/
theorem lcLoop_out (itn : String) (pol : ListConversionPolicy) :
    ∀ (l acc out : List PyVal), lcLoop itn pol l acc = some out →
    ∀ x ∈ out, x ∈ acc ∨ ∃ y, lcConvert itn y = some x
  | [], acc, out, h => by
    injection h with h
    subst h
    exact fun x hx => Or.inl hx
  | a :: rest, acc, out, h => by
    rw [lcLoop] at h
    split at h
    · split at h
      · exact lcLoop_out itn pol rest acc out h
      · exact Option.noConfusion h
    · rename_i c hc
      intro x hx
      rcases lcLoop_out itn pol rest (acc ++ [c]) out h x hx with hin | hconv
      · rcases List.mem_append.mp hin with hin | hin
        · exact Or.inl hin
        · simp only [List.mem_singleton] at hin
          subst hin
          exact Or.inr ⟨a, hc⟩
      · exact Or.inr hconv

/-- The conversion loop is the identity on a list of converter fixed
points. -/
theorem lcLoop_id (itn : String) (pol : ListConversionPolicy) :
    ∀ (zs acc : List PyVal), (∀ x ∈ zs, lcConvert itn x = some x) →
    lcLoop itn pol zs acc = some (acc ++ zs)
  | [], acc, _ => by
    rw [lcLoop]
    simp
  | z :: rest, acc, hconv => by
    rw [lcLoop, hconv z (List.mem_cons_self z rest)]
    show lcLoop itn pol rest (acc ++ [z]) = some (acc ++ z :: rest)
    rw [lcLoop_id itn pol rest (acc ++ [z])
      (fun x hx => hconv x (List.mem_cons_of_mem z hx))]
    simp

/-- Deduplication only keeps input elements. -/
theorem dedupPy_subset : ∀ (l seen : List PyVal), ∀ x ∈ dedupPy l seen, x ∈ l
  | [], _, x, hx => by simp [dedupPy] at hx
  | a :: rest, seen, x, hx => by
    rw [dedupPy] at hx
    split at hx
    · exact List.mem_cons_of_mem a (dedupPy_subset rest seen x hx)
    · rcases List.mem_cons.mp hx with hx | hx
      · exact hx ▸ List.mem_cons_self a rest
      · exact List.mem_cons_of_mem a (dedupPy_subset rest (a :: seen) x hx)

/-- Deduplication output is pairwise distinct under Python equality and
avoids everything already seen. -/
theorem dedupPy_sound : ∀ (l seen : List PyVal),
    List.Pairwise (fun a b => pyEq a b = false) (dedupPy l seen) ∧
    (∀ z ∈ dedupPy l seen, ∀ s ∈ seen, pyEq s z = false)
  | [], seen => ⟨List.Pairwise.nil, by simp [dedupPy]⟩
  | x :: rest, seen => by
    rw [dedupPy]
    split
    · exact dedupPy_sound rest seen
    · rename_i hnotin
      obtain ⟨IH1, IH2⟩ := dedupPy_sound rest (x :: seen)
      constructor
      · refine List.Pairwise.cons ?_ IH1
        intro b hb
        exact IH2 b hb x (List.mem_cons_self x seen)
      · intro z hz s hs
        rcases List.mem_cons.mp hz with hz | hz
        · subst hz
          by_contra hc
          apply hnotin
          simp only [pyIn, List.any_eq_true]
          exact ⟨s, hs, by simpa using hc⟩
        · exact IH2 z hz s (List.mem_cons_of_mem x hs)

/-- Deduplication is the identity on an already deduplicated list. -/
theorem dedupPy_id : ∀ (zs seen : List PyVal),
    List.Pairwise (fun a b => pyEq a b = false) zs →
    (∀ z ∈ zs, ∀ s ∈ seen, pyEq s z = false) → dedupPy zs seen = zs
  | [], _, _, _ => rfl
  | z :: rest, seen, hp, hs => by
    rw [dedupPy]
    rw [if_neg (by
      intro hc
      simp only [pyIn, List.any_eq_true] at hc
      obtain ⟨s, hsmem, heq⟩ := hc
      rw [hs z (List.mem_cons_self z rest) s hsmem] at heq
      exact Bool.noConfusion heq)]
    have hp2 := List.pairwise_cons.mp hp
    rw [dedupPy_id rest (z :: seen) hp2.2 (fun y hy s hsm => by
      rcases List.mem_cons.mp hsm with hsm | hsm
      · subst hsm
        exact hp2.1 y hy
      · exact hs y (List.mem_cons_of_mem z hy) s hsm)]

/-- Feeding the parsed item list back in parses to the same list, so
the whole list_conversion fixer agrees on both. -/
theorem lcFix_eq_list (lf : LcFmt) (pol : ListConversionPolicy) (v : PyVal)
    (hv : pyIsNone v = false) :
    lcFix lf pol v = lcFix lf pol (.list (match v with
      | PyVal.str s =>
        if (lf.inputIsString.getD false) = true then
          ((if (lf.stripItems.getD true) = true
            then (pySplit s (lf.inputSeparator.getD ",")).map pyStrip
            else pySplit s (lf.inputSeparator.getD ",")).map PyVal.str)
        else [v]
      | PyVal.list xs => xs
      | w => [w])) := by
  unfold lcFix
  rw [if_neg (by simp [hv]), if_neg (by simp [pyIsNone])]
  cases v <;> exact rfl

/-- The list_conversion fixer on an already-parsed list with a known
conversion-loop result, in closed form. -/
theorem lcFix_if_form (lf : LcFmt) (pol : ListConversionPolicy) (lst : List PyVal)
    {out0 : List PyVal}
    (hloop : lcLoop (lf.itemType.getD "int") pol lst [] = some out0) :
    lcFix lf pol (.list lst) =
      (if ((match lf.minItems with
            | some m => decide (((((if (!(lf.allowDuplicates.getD true)) = true
                then dedupPy out0 [] else out0).length : Int)) < m))
            | Option.none => false) &&
          decide (¬ pol = ListConversionPolicy.convertBestEffort)) = true
        then Except.ok PyVal.none
        else Except.ok (PyVal.list (match lf.maxItems with
          | some m =>
            if decide (m < (((if (!(lf.allowDuplicates.getD true)) = true
                then dedupPy out0 [] else out0).length : Int))) = true
            then pySliceTo (if (!(lf.allowDuplicates.getD true)) = true
                then dedupPy out0 [] else out0) m
            else (if (!(lf.allowDuplicates.getD true)) = true
                then dedupPy out0 [] else out0)
          | Option.none => (if (!(lf.allowDuplicates.getD true)) = true
              then dedupPy out0 [] else out0)))) := by
  unfold lcFix
  rw [if_neg (by simp [pyIsNone])]
  simp only [ne_eq]
  rw [hloop]

/-- The list_conversion fixer (with a well-formed size window) maps its
own non-rejected output on a parsed list back to itself. -/
theorem lcFix_list_stable (lf : LcFmt) (pol : ListConversionPolicy) (lst : List PyVal)
    {u : PyVal} (hfmt : lcFmtOk lf = true)
    (h : lcFix lf pol (.list lst) = .ok u) (hne : pyIsNone u = false) :
    lcFix lf pol u = .ok u := by
  have hfacts := hfmt
  unfold lcFmtOk at hfacts
  rw [Bool.and_eq_true] at hfacts
  obtain ⟨hfmax, hfminmax⟩ := hfacts
  rcases hl : lcLoop (lf.itemType.getD "int") pol lst [] with _ | out0
  · have hrun : lcFix lf pol (.list lst) = .ok PyVal.none := by
      unfold lcFix
      rw [if_neg (by simp [pyIsNone])]
      simp only [ne_eq]
      rw [hl]
    rw [hrun] at h
    injection h with h
    rw [← h] at hne
    exact Bool.noConfusion hne
  · rw [lcFix_if_form lf pol lst hl] at h
    set OUT1 := if (!(lf.allowDuplicates.getD true)) = true then dedupPy out0 [] else out0
      with hOUT1
    have hconv0 : ∀ x ∈ out0, lcConvert (lf.itemType.getD "int") x = some x := by
      intro x hx
      rcases lcLoop_out _ _ _ _ _ hl x hx with hin | ⟨y, hy⟩
      · simp at hin
      · exact lcConvert_idem hy
    have hconv1 : ∀ x ∈ OUT1, lcConvert (lf.itemType.getD "int") x = some x := by
      intro x hx
      rw [hOUT1] at hx
      split at hx
      · exact hconv0 x (dedupPy_subset out0 [] x hx)
      · exact hconv0 x hx
    have hpair1 : (!(lf.allowDuplicates.getD true)) = true →
        List.Pairwise (fun a b => pyEq a b = false) OUT1 := by
      intro hdd
      rw [hOUT1, if_pos hdd]
      exact (dedupPy_sound out0 []).1
    split at h
    · rename_i hbad
      injection h with h
      rw [← h] at hne
      exact Bool.noConfusion hne
    · rename_i hgood
      injection h with h
      subst h
      rcases hmx : lf.maxItems with _ | mx
      · show lcFix lf pol (.list OUT1) = .ok (.list OUT1)
        have hloop1 : lcLoop (lf.itemType.getD "int") pol OUT1 [] = some OUT1 := by
          simpa using lcLoop_id (lf.itemType.getD "int") pol OUT1 [] hconv1
        rw [lcFix_if_form lf pol OUT1 hloop1]
        have hded : (if (!(lf.allowDuplicates.getD true)) = true
            then dedupPy OUT1 [] else OUT1) = OUT1 := by
          split
          · rename_i hdd
            exact dedupPy_id OUT1 [] (hpair1 hdd) (by simp)
          · rfl
        rw [hded, if_neg hgood, hmx]
      · show lcFix lf pol (.list (if decide (mx < ((OUT1.length : Int))) = true
            then pySliceTo OUT1 mx else OUT1)) = Except.ok (.list
            (if decide (mx < ((OUT1.length : Int))) = true
            then pySliceTo OUT1 mx else OUT1))
        by_cases hsl : decide (mx < ((OUT1.length : Int))) = true
        · rw [if_pos hsl]
          have hmx0 : (0 : Int) ≤ mx := by
            rw [hmx] at hfmax
            simpa using hfmax
          have hslint : mx < ((OUT1.length : Int)) := of_decide_eq_true hsl
          have hslsub : ∀ x ∈ pySliceTo OUT1 mx, x ∈ OUT1 := by
            intro x hx
            unfold pySliceTo at hx
            rw [if_pos hmx0] at hx
            exact List.take_subset _ _ hx
          have hsllen : ((pySliceTo OUT1 mx).length : Int) = mx := by
            unfold pySliceTo
            rw [if_pos hmx0, List.length_take]
            omega
          have hconvSL : ∀ x ∈ pySliceTo OUT1 mx,
              lcConvert (lf.itemType.getD "int") x = some x :=
            fun x hx => hconv1 x (hslsub x hx)
          have hloopSL : lcLoop (lf.itemType.getD "int") pol (pySliceTo OUT1 mx) []
              = some (pySliceTo OUT1 mx) := by
            simpa using lcLoop_id (lf.itemType.getD "int") pol (pySliceTo OUT1 mx) [] hconvSL
          rw [lcFix_if_form lf pol (pySliceTo OUT1 mx) hloopSL]
          have hdedSL : (if (!(lf.allowDuplicates.getD true)) = true
              then dedupPy (pySliceTo OUT1 mx) [] else pySliceTo OUT1 mx)
              = pySliceTo OUT1 mx := by
            split
            · rename_i hdd
              refine dedupPy_id _ [] ?_ (by simp)
              have hsub : List.Sublist (pySliceTo OUT1 mx) OUT1 := by
                unfold pySliceTo
                rw [if_pos hmx0]
                exact List.take_sublist _ _
              exact List.Pairwise.sublist hsub (hpair1 hdd)
            · rfl
          rw [hdedSL]
          have hcond : ((match lf.minItems with
              | some m => decide ((((pySliceTo OUT1 mx).length : Int)) < m)
              | Option.none => false) &&
              decide (¬ pol = ListConversionPolicy.convertBestEffort)) = false := by
            rcases hmn : lf.minItems with _ | mn
            · rfl
            · have hmnmx : mn ≤ mx := by
                rw [hmn, hmx] at hfminmax
                simpa using hfminmax
              show (decide ((((pySliceTo OUT1 mx).length : Int)) < mn) &&
                decide (¬ pol = ListConversionPolicy.convertBestEffort)) = false
              have hd : decide ((((pySliceTo OUT1 mx).length : Int)) < mn) = false := by
                rw [hsllen]
                exact decide_eq_false (by omega)
              rw [hd, Bool.false_and]
          rw [if_neg (by rw [hcond]; exact Bool.false_ne_true)]
          have htail : (match lf.maxItems with
              | some m => if decide (m < (((pySliceTo OUT1 mx).length : Int))) = true
                  then pySliceTo (pySliceTo OUT1 mx) m else pySliceTo OUT1 mx
              | Option.none => pySliceTo OUT1 mx) = pySliceTo OUT1 mx := by
            rw [hmx]
            show (if decide (mx < (((pySliceTo OUT1 mx).length : Int))) = true
                then pySliceTo (pySliceTo OUT1 mx) mx else pySliceTo OUT1 mx)
                = pySliceTo OUT1 mx
            rw [if_neg (by rw [hsllen]; simp)]
          rw [htail]
        · rw [if_neg hsl]
          show lcFix lf pol (.list OUT1) = .ok (.list OUT1)
          have hloop1 : lcLoop (lf.itemType.getD "int") pol OUT1 [] = some OUT1 := by
            simpa using lcLoop_id (lf.itemType.getD "int") pol OUT1 [] hconv1
          rw [lcFix_if_form lf pol OUT1 hloop1]
          have hded : (if (!(lf.allowDuplicates.getD true)) = true
              then dedupPy OUT1 [] else OUT1) = OUT1 := by
            split
            · rename_i hdd
              exact dedupPy_id OUT1 [] (hpair1 hdd) (by simp)
            · rfl
          rw [hded, if_neg hgood, hmx]
          show Except.ok (PyVal.list (if decide (mx < ((OUT1.length : Int))) = true
              then pySliceTo OUT1 mx else OUT1)) = Except.ok (PyVal.list OUT1)
          rw [if_neg hsl]

/-- The list_conversion fixer maps its own non-rejected output back to
itself under a well-formed size window. -/
theorem lcFix_stable {lf : LcFmt} {pol : ListConversionPolicy} {v u : PyVal}
    (hfmt : lcFmtOk lf = true) (h : lcFix lf pol v = .ok u)
    (hne : pyIsNone u = false) : lcFix lf pol u = .ok u := by
  by_cases hvn : pyIsNone v = true
  · unfold lcFix at h
    rw [if_pos hvn] at h
    injection h with h
    subst h
    rw [hne] at hvn
    exact Bool.noConfusion hvn
  · rw [lcFix_eq_list lf pol v (by simpa using hvn)] at h
    exact lcFix_list_stable lf pol _ hfmt h hne

/-- None means the input was Python None. -/
theorem pyIsNone_eq {v : PyVal} (hv : pyIsNone v = true) : v = PyVal.none := by
  cases v <;> simp_all [pyIsNone]

/-- A successful range-item coercion returns a number that the coercion
maps to itself. -/
theorem coerceRangeItem_out {isInt : Bool} {x a : PyVal}
    (h : coerceRangeItem isInt x = some a) :
    pyIsNum a = true ∧ coerceRangeItem isInt a = some a := by
  cases isInt with
  | false =>
    have h2 : pyCallAnn .aFloat x = some a := h
    cases x <;> simp only [pyCallAnn, Option.map_eq_some'] at h2 <;>
      first
        | exact Option.noConfusion h2
        | (injection h2 with h2; subst h2; exact ⟨rfl, rfl⟩)
        | (obtain ⟨n, hn, hc⟩ := h2; subst hc; exact ⟨rfl, rfl⟩)
  | true =>
    have h2 : pyCallAnn .aInt x = some a := h
    cases x <;> simp only [pyCallAnn, Option.map_eq_some'] at h2 <;>
      first
        | exact Option.noConfusion h2
        | (injection h2 with h2; subst h2; exact ⟨rfl, rfl⟩)
        | (obtain ⟨n, hn, hc⟩ := h2; subst hc; exact ⟨rfl, rfl⟩)

/-- A bound stored in the item type is numeric and fixed by the item
coercion. -/
theorem coerceRangeItem_bound {isInt : Bool} {m : PyVal}
    (h : boundMatches isInt (some m) = true) :
    pyIsNum m = true ∧ coerceRangeItem isInt m = some m := by
  cases isInt <;> cases m <;>
    first
      | exact ⟨rfl, rfl⟩
      | exact Bool.noConfusion h

theorem clampMin_none (pol : RangePolicy) (x : PyVal) :
    clampMin pol Option.none x = .ok x := rfl

theorem clampMax_none (pol : RangePolicy) (x : PyVal) :
    clampMax pol Option.none x = .ok x := rfl

/-- Closed form of the lower-bound step on numbers. -/
theorem clampMin_num {pol : RangePolicy} {m x : PyVal}
    (hx : pyIsNum x = true) (hm : pyIsNum m = true) :
    clampMin pol (some m) x =
      .ok (if decide (toR x < toR m) && decide (pol = RangePolicy.clampItems)
        then m else x) := by
  have h2 : clampMin pol (some m) x = Bind.bind (pyLtE x m) (fun lt =>
      pure (if lt && decide (pol = RangePolicy.clampItems) then m else x)) := rfl
  rw [h2, pyLtE_num hx hm]
  rfl

/-- Closed form of the upper-bound step on numbers. -/
theorem clampMax_num {pol : RangePolicy} {m x : PyVal}
    (hx : pyIsNum x = true) (hm : pyIsNum m = true) :
    clampMax pol (some m) x =
      .ok (if decide (toR m < toR x) && decide (pol = RangePolicy.clampItems)
        then m else x) := by
  have h2 : clampMax pol (some m) x = Bind.bind (pyGtE x m) (fun gt =>
      pure (if gt && decide (pol = RangePolicy.clampItems) then m else x)) := rfl
  rw [h2, pyGtE_num hx hm]
  rfl

/-- A successful lower-bound step against a numeric value has a numeric
bound. -/
theorem clampMin_ok_num {pol : RangePolicy} {m x y : PyVal} (hx : pyIsNum x = true)
    (h : clampMin pol (some m) x = .ok y) : pyIsNum m = true := by
  cases hlt : pyLtE x m with
  | error e =>
    rw [show clampMin pol (some m) x = Bind.bind (pyLtE x m) (fun lt =>
      pure (if lt && decide (pol = RangePolicy.clampItems) then m else x)) from rfl,
      hlt] at h
    exact Except.noConfusion h
  | ok t => exact pyLtE_ok_num hx hlt

/-- A successful upper-bound step against a numeric value has a numeric
bound. -/
theorem clampMax_ok_num {pol : RangePolicy} {m x y : PyVal} (hx : pyIsNum x = true)
    (h : clampMax pol (some m) x = .ok y) : pyIsNum m = true := by
  cases hgt : pyGtE x m with
  | error e =>
    rw [show clampMax pol (some m) x = Bind.bind (pyGtE x m) (fun gt =>
      pure (if gt && decide (pol = RangePolicy.clampItems) then m else x)) from rfl,
      hgt] at h
    exact Except.noConfusion h
  | ok t => exact pyLtE_ok_num_left hx hgt

/-- The two-sided per-item clamp maps its own output back to itself:
the output is numeric, is the input or one of the bounds, and a second
lower-then-upper pass reproduces it (also when the bounds are crossed). -/
theorem clampPipe_stable {pol : RangePolicy} {bm bM : Option PyVal} {a0 a1 a : PyVal}
    (ha0 : pyIsNum a0 = true)
    (h1 : clampMin pol bm a0 = .ok a1) (h2 : clampMax pol bM a1 = .ok a) :
    pyIsNum a = true ∧ (a = a0 ∨ bm = some a ∨ bM = some a) ∧
      ∃ c, clampMin pol bm a = .ok c ∧ clampMax pol bM c = .ok a := by
  cases bm with
  | none =>
    injection h1 with h1e
    subst h1e
    cases bM with
    | none =>
      injection h2 with h2e
      subst h2e
      exact ⟨ha0, Or.inl rfl, a0, rfl, rfl⟩
    | some M =>
      have hM : pyIsNum M = true := clampMax_ok_num ha0 h2
      rw [clampMax_num ha0 hM] at h2
      injection h2 with h2e
      by_cases hdc : pol = RangePolicy.clampItems
      · by_cases hlt : toR M < toR a0
        · rw [if_pos (by simp [hlt, hdc])] at h2e
          subst h2e
          refine ⟨hM, Or.inr (Or.inr rfl), M, rfl, ?_⟩
          rw [clampMax_num hM hM, if_neg (by simp)]
        · rw [if_neg (by simp [hlt])] at h2e
          subst h2e
          refine ⟨ha0, Or.inl rfl, a0, rfl, ?_⟩
          rw [clampMax_num ha0 hM, if_neg (by simp [hlt])]
      · rw [if_neg (by simp [hdc])] at h2e
        subst h2e
        refine ⟨ha0, Or.inl rfl, a0, rfl, ?_⟩
        rw [clampMax_num ha0 hM, if_neg (by simp [hdc])]
  | some m =>
    have hm : pyIsNum m = true := clampMin_ok_num ha0 h1
    rw [clampMin_num ha0 hm] at h1
    injection h1 with h1e
    by_cases hdc : pol = RangePolicy.clampItems
    · subst hdc
      by_cases hlt1 : toR a0 < toR m
      · rw [if_pos (by simp [hlt1])] at h1e
        subst h1e
        cases bM with
        | none =>
          injection h2 with h2e
          subst h2e
          refine ⟨hm, Or.inr (Or.inl rfl), m, ?_, rfl⟩
          rw [clampMin_num hm hm, if_neg (by simp)]
        | some M =>
          have hM : pyIsNum M = true := clampMax_ok_num hm h2
          rw [clampMax_num hm hM] at h2
          injection h2 with h2e
          by_cases hlt2 : toR M < toR m
          · rw [if_pos (by simp [hlt2])] at h2e
            subst h2e
            refine ⟨hM, Or.inr (Or.inr rfl), m, ?_, ?_⟩
            · rw [clampMin_num hM hm, if_pos (by simp [hlt2])]
            · rw [clampMax_num hm hM, if_pos (by simp [hlt2])]
          · rw [if_neg (by simp [hlt2])] at h2e
            subst h2e
            refine ⟨hm, Or.inr (Or.inl rfl), m, ?_, ?_⟩
            · rw [clampMin_num hm hm, if_neg (by simp)]
            · rw [clampMax_num hm hM, if_neg (by simp [hlt2])]
      · rw [if_neg (by simp [hlt1])] at h1e
        subst h1e
        cases bM with
        | none =>
          injection h2 with h2e
          subst h2e
          refine ⟨ha0, Or.inl rfl, a0, ?_, rfl⟩
          rw [clampMin_num ha0 hm, if_neg (by simp [hlt1])]
        | some M =>
          have hM : pyIsNum M = true := clampMax_ok_num ha0 h2
          rw [clampMax_num ha0 hM] at h2
          injection h2 with h2e
          by_cases hlt2 : toR M < toR a0
          · rw [if_pos (by simp [hlt2])] at h2e
            subst h2e
            by_cases hlt3 : toR M < toR m
            · refine ⟨hM, Or.inr (Or.inr rfl), m, ?_, ?_⟩
              · rw [clampMin_num hM hm, if_pos (by simp [hlt3])]
              · rw [clampMax_num hm hM, if_pos (by simp [hlt3])]
            · refine ⟨hM, Or.inr (Or.inr rfl), M, ?_, ?_⟩
              · rw [clampMin_num hM hm, if_neg (by simp [hlt3])]
              · rw [clampMax_num hM hM, if_neg (by simp)]
          · rw [if_neg (by simp [hlt2])] at h2e
            subst h2e
            refine ⟨ha0, Or.inl rfl, a0, ?_, ?_⟩
            · rw [clampMin_num ha0 hm, if_neg (by simp [hlt1])]
            · rw [clampMax_num ha0 hM, if_neg (by simp [hlt2])]
    · rw [if_neg (by simp [hdc])] at h1e
      subst h1e
      cases bM with
      | none =>
        injection h2 with h2e
        subst h2e
        refine ⟨ha0, Or.inl rfl, a0, ?_, rfl⟩
        rw [clampMin_num ha0 hm, if_neg (by simp [hdc])]
      | some M =>
        have hM : pyIsNum M = true := clampMax_ok_num ha0 h2
        rw [clampMax_num ha0 hM] at h2
        injection h2 with h2e
        rw [if_neg (by simp [hdc])] at h2e
        subst h2e
        refine ⟨ha0, Or.inl rfl, a0, ?_, ?_⟩
        · rw [clampMin_num ha0 hm, if_neg (by simp [hdc])]
        · rw [clampMax_num ha0 hM, if_neg (by simp [hdc])]

/-- Closed form of the ordering enforcement on numbers. -/
theorem rangeOrder_true_num {pol : RangePolicy} {a b : PyVal}
    (ha : pyIsNum a = true) (hb : pyIsNum b = true) :
    rangeOrder true pol a b =
      (if decide (toR b < toR a) then
        (if pol = RangePolicy.swapIfReversed || pol = RangePolicy.clampItems
         then Except.ok (PyVal.tuple [b, a])
         else if pol = RangePolicy.bypass then Except.ok (PyVal.tuple [a, b])
         else (Except.ok PyVal.none : Except PErr PyVal))
       else Except.ok (PyVal.tuple [a, b])) := by
  have h2 : rangeOrder true pol a b = Bind.bind (pyGtE a b) (fun gt =>
      if gt then
        if pol = RangePolicy.swapIfReversed || pol = RangePolicy.clampItems
        then Except.ok (PyVal.tuple [b, a])
        else if pol = RangePolicy.bypass then Except.ok (PyVal.tuple [a, b])
        else Except.ok PyVal.none
      else Except.ok (PyVal.tuple [a, b])) := rfl
  rw [h2, pyGtE_num ha hb]
  rfl

/-- The ordering stage maps the pair it produced back to itself: the
output pair is the clamped pair or its swap, and a second ordering pass
returns it unchanged. -/
theorem rangeOrder_stable {eo : Bool} {pol : RangePolicy} {a b u : PyVal}
    (ha : pyIsNum a = true) (hb : pyIsNum b = true)
    (h : rangeOrder eo pol a b = .ok u) (hu : pyIsNone u = false) :
    ∃ p q, u = .tuple [p, q] ∧ ((p = a ∧ q = b) ∨ (p = b ∧ q = a)) ∧
      rangeOrder eo pol p q = .ok u := by
  cases eo with
  | false =>
    have h2 : (Except.ok (PyVal.tuple [a, b]) : Except PErr PyVal) = Except.ok u := h
    injection h2 with h2
    subst h2
    exact ⟨a, b, rfl, Or.inl ⟨rfl, rfl⟩, rfl⟩
  | true =>
    rw [rangeOrder_true_num ha hb] at h
    by_cases hgt : toR b < toR a
    · rw [if_pos (by simpa using hgt)] at h
      by_cases hsw : (pol = RangePolicy.swapIfReversed || pol = RangePolicy.clampItems) = true
      · rw [if_pos hsw] at h
        injection h with h2
        subst h2
        refine ⟨b, a, rfl, Or.inr ⟨rfl, rfl⟩, ?_⟩
        rw [rangeOrder_true_num hb ha, if_neg (by simp [lt_asymm hgt])]
      · rw [if_neg hsw] at h
        by_cases hby : pol = RangePolicy.bypass
        · rw [if_pos hby] at h
          injection h with h2
          subst h2
          refine ⟨a, b, rfl, Or.inl ⟨rfl, rfl⟩, ?_⟩
          rw [rangeOrder_true_num ha hb, if_pos (by simpa using hgt), if_neg hsw,
            if_pos hby]
        · rw [if_neg hby] at h
          injection h with h2
          subst h2
          simp [pyIsNone] at hu
    · rw [if_neg (by simpa using hgt)] at h
      injection h with h2
      subst h2
      refine ⟨a, b, rfl, Or.inl ⟨rfl, rfl⟩, ?_⟩
      rw [rangeOrder_true_num ha hb, if_neg (by simpa using hgt)]

/-- The string-parsing stage never returns a string. -/
theorem rangeParse_not_str (sep : String) (allowSingle : Bool) (v : PyVal) :
    pyIsStr (rangeParse sep allowSingle v) = false := by
  cases v <;> try rfl
  simp only [rangeParse]
  split <;> rfl

/-- Non-strings pass the parsing stage unchanged. -/
theorem rangeParse_id (sep : String) (allowSingle : Bool) {v : PyVal}
    (hv : pyIsStr v = false) : rangeParse sep allowSingle v = v := by
  cases v <;> try rfl
  simp [pyIsStr] at hv

/-- A value failing the widening test passes the widening stage
unchanged. -/
theorem rangePair_id {allowSingle : Bool} {v : PyVal}
    (h : (pyIsNum v && allowSingle) = false) : rangePair allowSingle v = v := by
  unfold rangePair
  rw [if_neg (by simp [h])]

/-- Outcome split of the widening stage. -/
theorem rangePair_cases (allowSingle : Bool) (v : PyVal) :
    (rangePair allowSingle v = .list [v, v] ∧ (pyIsNum v && allowSingle) = true) ∨
      (rangePair allowSingle v = v ∧ (pyIsNum v && allowSingle) = false) := by
  by_cases hc : (pyIsNum v && allowSingle) = true
  · refine Or.inl ⟨?_, hc⟩
    unfold rangePair
    rw [if_pos hc]
  · exact Or.inr ⟨rangePair_id (by simpa using hc), by simpa using hc⟩

/-- Numbers are not two-element sequences. -/
theorem rangeElems_num_none {v : PyVal} (hv : pyIsNum v = true) :
    rangeElems v = Option.none := by
  cases v <;> first | rfl | exact Bool.noConfusion hv

/-- Parse-stage reduction of the range fixer on a non-None input. -/
theorem rangeFix_eq (rf : RangeFmt) (pol : RangePolicy) {v : PyVal}
    (hv : pyIsNone v = false) :
    rangeFix rf pol v =
      (match rangeElems (rangePair (rf.allowSingleValueAsRange.getD false)
          (rangeParse (rf.inputSeparator.getD "-")
            (rf.allowSingleValueAsRange.getD false) v)) with
       | Option.none =>
         if pol = RangePolicy.reject || pol = RangePolicy.rejectIfInvalidStructure
         then Except.ok PyVal.none
         else Except.ok (rangePair (rf.allowSingleValueAsRange.getD false)
            (rangeParse (rf.inputSeparator.getD "-")
              (rf.allowSingleValueAsRange.getD false) v))
       | some (x, y) =>
         match coerceRangeItem ((rf.itemType.getD "int") == "int") x,
               coerceRangeItem ((rf.itemType.getD "int") == "int") y with
         | some a0, some b0 => do
            let a1 ← clampMin pol rf.minItemValue a0
            let b1 ← clampMin pol rf.minItemValue b0
            let a ← clampMax pol rf.maxItemValue a1
            let b ← clampMax pol rf.maxItemValue b1
            rangeOrder (rf.enforceMinLeMax.getD true) pol a b
         | _, _ =>
           if pol = RangePolicy.reject || pol = RangePolicy.rejectIfInvalidStructure
           then Except.ok PyVal.none
           else Except.ok (rangePair (rf.allowSingleValueAsRange.getD false)
              (rangeParse (rf.inputSeparator.getD "-")
                (rf.allowSingleValueAsRange.getD false) v))) := by
  unfold rangeFix
  rw [if_neg (by simp [hv])]

/-- The clamp chain of the range fixer evaluated at known step results. -/
theorem rangeChain_eq {pol : RangePolicy} {bm bM : Option PyVal} {eo : Bool}
    {p q cp cq : PyVal} {r : Except PErr PyVal}
    (hp1 : clampMin pol bm p = .ok cp) (hq1 : clampMin pol bm q = .ok cq)
    (hp2 : clampMax pol bM cp = .ok p) (hq2 : clampMax pol bM cq = .ok q)
    (hord : rangeOrder eo pol p q = r) :
    (do
      let a1 ← clampMin pol bm p
      let b1 ← clampMin pol bm q
      let a ← clampMax pol bM a1
      let b ← clampMax pol bM b1
      rangeOrder eo pol a b) = r := by
  rw [hp1]
  show (do
    let b1 ← clampMin pol bm q
    let a ← clampMax pol bM cp
    let b ← clampMax pol bM b1
    rangeOrder eo pol a b) = r
  rw [hq1]
  show (do
    let a ← clampMax pol bM cp
    let b ← clampMax pol bM cq
    rangeOrder eo pol a b) = r
  rw [hp2]
  show (do
    let b ← clampMax pol bM cq
    rangeOrder eo pol p b) = r
  rw [hq2]
  exact hord

/-- A pair whose items the coercion and both clamp steps fix and whose
order the ordering stage accepts is a fixed point of the range fixer. -/
theorem rangeFix_tuple_run {rf : RangeFmt} {pol : RangePolicy} {p q cp cq : PyVal}
    (hcp : coerceRangeItem ((rf.itemType.getD "int") == "int") p = some p)
    (hcq : coerceRangeItem ((rf.itemType.getD "int") == "int") q = some q)
    (hp1 : clampMin pol rf.minItemValue p = .ok cp)
    (hp2 : clampMax pol rf.maxItemValue cp = .ok p)
    (hq1 : clampMin pol rf.minItemValue q = .ok cq)
    (hq2 : clampMax pol rf.maxItemValue cq = .ok q)
    (hord : rangeOrder (rf.enforceMinLeMax.getD true) pol p q = .ok (.tuple [p, q])) :
    rangeFix rf pol (.tuple [p, q]) = .ok (.tuple [p, q]) := by
  rw [rangeFix_eq rf pol (show pyIsNone (PyVal.tuple [p, q]) = false from rfl)]
  rw [rangeParse_id (rf.inputSeparator.getD "-") (rf.allowSingleValueAsRange.getD false)
    (show pyIsStr (PyVal.tuple [p, q]) = false from rfl)]
  rw [rangePair_id (show (pyIsNum (PyVal.tuple [p, q]) &&
    rf.allowSingleValueAsRange.getD false) = false from rfl)]
  rw [show rangeElems (PyVal.tuple [p, q]) = some (p, q) from rfl]
  show (match coerceRangeItem ((rf.itemType.getD "int") == "int") p,
        coerceRangeItem ((rf.itemType.getD "int") == "int") q with
    | some a0, some b0 => do
        let a1 ← clampMin pol rf.minItemValue a0
        let b1 ← clampMin pol rf.minItemValue b0
        let a ← clampMax pol rf.maxItemValue a1
        let b ← clampMax pol rf.maxItemValue b1
        rangeOrder (rf.enforceMinLeMax.getD true) pol a b
    | _, _ =>
      if pol = RangePolicy.reject || pol = RangePolicy.rejectIfInvalidStructure
      then Except.ok PyVal.none
      else Except.ok (PyVal.tuple [p, q])) = Except.ok (PyVal.tuple [p, q])
  rw [hcp, hcq]
  exact rangeChain_eq hp1 hq1 hp2 hq2 hord

/-- A non-string value that fails the widening test and parses to no
two-element structure passes the range fixer under a non-rejecting
policy. -/
theorem rangeFix_pass_none {rf : RangeFmt} {pol : RangePolicy} {u : PyVal}
    (hne : pyIsNone u = false) (hstr : pyIsStr u = false)
    (hcnd : (pyIsNum u && rf.allowSingleValueAsRange.getD false) = false)
    (hrej : (pol = RangePolicy.reject || pol = RangePolicy.rejectIfInvalidStructure) = false)
    (hEu : rangeElems u = Option.none) : rangeFix rf pol u = .ok u := by
  rw [rangeFix_eq rf pol hne,
    rangeParse_id (rf.inputSeparator.getD "-") (rf.allowSingleValueAsRange.getD false) hstr,
    rangePair_id hcnd, hEu]
  show (if pol = RangePolicy.reject || pol = RangePolicy.rejectIfInvalidStructure
      then (Except.ok PyVal.none : Except PErr PyVal) else Except.ok u) = Except.ok u
  rw [if_neg (by rw [hrej]; exact Bool.false_ne_true)]

/-- A two-element value whose first item fails coercion passes the range
fixer under a non-rejecting policy. -/
theorem rangeFix_pass_failx {rf : RangeFmt} {pol : RangePolicy} {u x y : PyVal}
    (hne : pyIsNone u = false) (hstr : pyIsStr u = false)
    (hcnd : (pyIsNum u && rf.allowSingleValueAsRange.getD false) = false)
    (hrej : (pol = RangePolicy.reject || pol = RangePolicy.rejectIfInvalidStructure) = false)
    (hEu : rangeElems u = some (x, y))
    (hcx : coerceRangeItem ((rf.itemType.getD "int") == "int") x = Option.none) :
    rangeFix rf pol u = .ok u := by
  rw [rangeFix_eq rf pol hne,
    rangeParse_id (rf.inputSeparator.getD "-") (rf.allowSingleValueAsRange.getD false) hstr,
    rangePair_id hcnd, hEu]
  show (match coerceRangeItem ((rf.itemType.getD "int") == "int") x,
        coerceRangeItem ((rf.itemType.getD "int") == "int") y with
    | some a0, some b0 => do
        let a1 ← clampMin pol rf.minItemValue a0
        let b1 ← clampMin pol rf.minItemValue b0
        let a ← clampMax pol rf.maxItemValue a1
        let b ← clampMax pol rf.maxItemValue b1
        rangeOrder (rf.enforceMinLeMax.getD true) pol a b
    | _, _ =>
      if pol = RangePolicy.reject || pol = RangePolicy.rejectIfInvalidStructure
      then Except.ok PyVal.none
      else Except.ok u) = Except.ok u
  rw [hcx]
  show (if pol = RangePolicy.reject || pol = RangePolicy.rejectIfInvalidStructure
      then (Except.ok PyVal.none : Except PErr PyVal) else Except.ok u) = Except.ok u
  rw [if_neg (by rw [hrej]; exact Bool.false_ne_true)]

/-- A two-element value whose second item fails coercion passes the
range fixer under a non-rejecting policy. -/
theorem rangeFix_pass_faily {rf : RangeFmt} {pol : RangePolicy} {u x y a0 : PyVal}
    (hne : pyIsNone u = false) (hstr : pyIsStr u = false)
    (hcnd : (pyIsNum u && rf.allowSingleValueAsRange.getD false) = false)
    (hrej : (pol = RangePolicy.reject || pol = RangePolicy.rejectIfInvalidStructure) = false)
    (hEu : rangeElems u = some (x, y))
    (hcx : coerceRangeItem ((rf.itemType.getD "int") == "int") x = some a0)
    (hcy : coerceRangeItem ((rf.itemType.getD "int") == "int") y = Option.none) :
    rangeFix rf pol u = .ok u := by
  rw [rangeFix_eq rf pol hne,
    rangeParse_id (rf.inputSeparator.getD "-") (rf.allowSingleValueAsRange.getD false) hstr,
    rangePair_id hcnd, hEu]
  show (match coerceRangeItem ((rf.itemType.getD "int") == "int") x,
        coerceRangeItem ((rf.itemType.getD "int") == "int") y with
    | some a0, some b0 => do
        let a1 ← clampMin pol rf.minItemValue a0
        let b1 ← clampMin pol rf.minItemValue b0
        let a ← clampMax pol rf.maxItemValue a1
        let b ← clampMax pol rf.maxItemValue b1
        rangeOrder (rf.enforceMinLeMax.getD true) pol a b
    | _, _ =>
      if pol = RangePolicy.reject || pol = RangePolicy.rejectIfInvalidStructure
      then Except.ok PyVal.none
      else Except.ok u) = Except.ok u
  rw [hcx, hcy]
  show (if pol = RangePolicy.reject || pol = RangePolicy.rejectIfInvalidStructure
      then (Except.ok PyVal.none : Except PErr PyVal) else Except.ok u) = Except.ok u
  rw [if_neg (by rw [hrej]; exact Bool.false_ne_true)]

/-- The range fixer maps its own non-rejected output back to itself when
the declared item bounds live in the declared item type. -/
theorem rangeFix_stable {rf : RangeFmt} {pol : RangePolicy} {v u : PyVal}
    (hfmt : rangeFmtOk rf = true) (h : rangeFix rf pol v = .ok u)
    (hne : pyIsNone u = false) : rangeFix rf pol u = .ok u := by
  by_cases hvn : pyIsNone v = true
  · unfold rangeFix at h
    rw [if_pos hvn] at h
    injection h with h2
    subst h2
    rw [hne] at hvn
    exact Bool.noConfusion hvn
  · rw [rangeFix_eq rf pol (by simpa using hvn)] at h
    cases hE : rangeElems (rangePair (rf.allowSingleValueAsRange.getD false)
        (rangeParse (rf.inputSeparator.getD "-")
          (rf.allowSingleValueAsRange.getD false) v)) with
    | none =>
      rw [hE] at h
      have h2 : (if pol = RangePolicy.reject || pol = RangePolicy.rejectIfInvalidStructure
          then (Except.ok PyVal.none : Except PErr PyVal)
          else Except.ok (rangePair (rf.allowSingleValueAsRange.getD false)
            (rangeParse (rf.inputSeparator.getD "-")
              (rf.allowSingleValueAsRange.getD false) v))) = Except.ok u := h
      by_cases hrej : (pol = RangePolicy.reject ||
          pol = RangePolicy.rejectIfInvalidStructure) = true
      · rw [if_pos hrej] at h2
        injection h2 with h2
        subst h2
        exact Bool.noConfusion hne
      · rw [if_neg hrej] at h2
        injection h2 with h2
        rcases rangePair_cases (rf.allowSingleValueAsRange.getD false)
            (rangeParse (rf.inputSeparator.getD "-")
              (rf.allowSingleValueAsRange.getD false) v) with ⟨hV2e, hc⟩ | ⟨hV2e, hc⟩
        · rw [hV2e] at hE
          exact Option.noConfusion hE
        · rw [hV2e] at h2 hE
          subst h2
          exact rangeFix_pass_none hne
            (rangeParse_not_str (rf.inputSeparator.getD "-")
              (rf.allowSingleValueAsRange.getD false) v) hc
            (by simpa using hrej) hE
    | some xy =>
      obtain ⟨x, y⟩ := xy
      rw [hE] at h
      have h3 : (match coerceRangeItem ((rf.itemType.getD "int") == "int") x,
            coerceRangeItem ((rf.itemType.getD "int") == "int") y with
        | some a0, some b0 => do
            let a1 ← clampMin pol rf.minItemValue a0
            let b1 ← clampMin pol rf.minItemValue b0
            let a ← clampMax pol rf.maxItemValue a1
            let b ← clampMax pol rf.maxItemValue b1
            rangeOrder (rf.enforceMinLeMax.getD true) pol a b
        | _, _ =>
          if pol = RangePolicy.reject || pol = RangePolicy.rejectIfInvalidStructure
          then Except.ok PyVal.none
          else Except.ok (rangePair (rf.allowSingleValueAsRange.getD false)
            (rangeParse (rf.inputSeparator.getD "-")
              (rf.allowSingleValueAsRange.getD false) v))) = Except.ok u := h
      cases hcx : coerceRangeItem ((rf.itemType.getD "int") == "int") x with
      | none =>
        rw [hcx] at h3
        have h2 : (if pol = RangePolicy.reject ||
              pol = RangePolicy.rejectIfInvalidStructure
            then (Except.ok PyVal.none : Except PErr PyVal)
            else Except.ok (rangePair (rf.allowSingleValueAsRange.getD false)
              (rangeParse (rf.inputSeparator.getD "-")
                (rf.allowSingleValueAsRange.getD false) v))) = Except.ok u := h3
        by_cases hrej : (pol = RangePolicy.reject ||
            pol = RangePolicy.rejectIfInvalidStructure) = true
        · rw [if_pos hrej] at h2
          injection h2 with h2
          subst h2
          exact Bool.noConfusion hne
        · rw [if_neg hrej] at h2
          injection h2 with h2
          rcases rangePair_cases (rf.allowSingleValueAsRange.getD false)
              (rangeParse (rf.inputSeparator.getD "-")
                (rf.allowSingleValueAsRange.getD false) v) with ⟨hV2e, hc⟩ | ⟨hV2e, hc⟩
          · rw [hV2e] at h2 hE
            subst h2
            exact rangeFix_pass_failx hne rfl rfl (by simpa using hrej) hE hcx
          · rw [hV2e] at h2 hE
            subst h2
            exact rangeFix_pass_failx hne
              (rangeParse_not_str (rf.inputSeparator.getD "-")
                (rf.allowSingleValueAsRange.getD false) v) hc
              (by simpa using hrej) hE hcx
      | some a0 =>
        rw [hcx] at h3
        cases hcy : coerceRangeItem ((rf.itemType.getD "int") == "int") y with
        | none =>
          rw [hcy] at h3
          have h2 : (if pol = RangePolicy.reject ||
                pol = RangePolicy.rejectIfInvalidStructure
              then (Except.ok PyVal.none : Except PErr PyVal)
              else Except.ok (rangePair (rf.allowSingleValueAsRange.getD false)
                (rangeParse (rf.inputSeparator.getD "-")
                  (rf.allowSingleValueAsRange.getD false) v))) = Except.ok u := h3
          by_cases hrej : (pol = RangePolicy.reject ||
              pol = RangePolicy.rejectIfInvalidStructure) = true
          · rw [if_pos hrej] at h2
            injection h2 with h2
            subst h2
            exact Bool.noConfusion hne
          · rw [if_neg hrej] at h2
            injection h2 with h2
            rcases rangePair_cases (rf.allowSingleValueAsRange.getD false)
                (rangeParse (rf.inputSeparator.getD "-")
                  (rf.allowSingleValueAsRange.getD false) v) with ⟨hV2e, hc⟩ | ⟨hV2e, hc⟩
            · rw [hV2e] at h2 hE
              subst h2
              exact rangeFix_pass_faily hne rfl rfl (by simpa using hrej) hE hcx hcy
            · rw [hV2e] at h2 hE
              subst h2
              exact rangeFix_pass_faily hne
                (rangeParse_not_str (rf.inputSeparator.getD "-")
                  (rf.allowSingleValueAsRange.getD false) v) hc
                (by simpa using hrej) hE hcx hcy
        | some b0 =>
          rw [hcy] at h3
          have h4 : (do
              let a1 ← clampMin pol rf.minItemValue a0
              let b1 ← clampMin pol rf.minItemValue b0
              let a ← clampMax pol rf.maxItemValue a1
              let b ← clampMax pol rf.maxItemValue b1
              rangeOrder (rf.enforceMinLeMax.getD true) pol a b) = Except.ok u := h3
          obtain ⟨a1, ha1, h5⟩ := exceptBind_ok _ _ _ h4
          obtain ⟨b1, hb1, h6⟩ := exceptBind_ok _ _ _ h5
          obtain ⟨a, ha2, h7⟩ := exceptBind_ok _ _ _ h6
          obtain ⟨b, hb2, h8⟩ := exceptBind_ok _ _ _ h7
          have hao := coerceRangeItem_out hcx
          have hbo := coerceRangeItem_out hcy
          obtain ⟨haN, haMem, ca, hca1, hca2⟩ := clampPipe_stable hao.1 ha1 ha2
          obtain ⟨hbN, hbMem, cb, hcb1, hcb2⟩ := clampPipe_stable hbo.1 hb1 hb2
          obtain ⟨p, q, hu, hpq, hord⟩ := rangeOrder_stable haN hbN h8 hne
          subst hu
          have hfmt2 : boundMatches ((rf.itemType.getD "int") == "int")
                rf.minItemValue = true ∧
              boundMatches ((rf.itemType.getD "int") == "int") rf.maxItemValue = true := by
            simpa [rangeFmtOk] using hfmt
          have hcra : coerceRangeItem ((rf.itemType.getD "int") == "int") a = some a := by
            rcases haMem with he | he | he
            · rw [he]; exact hao.2
            · have hb3 := hfmt2.1
              rw [he] at hb3
              exact (coerceRangeItem_bound hb3).2
            · have hb3 := hfmt2.2
              rw [he] at hb3
              exact (coerceRangeItem_bound hb3).2
          have hcrb : coerceRangeItem ((rf.itemType.getD "int") == "int") b = some b := by
            rcases hbMem with he | he | he
            · rw [he]; exact hbo.2
            · have hb3 := hfmt2.1
              rw [he] at hb3
              exact (coerceRangeItem_bound hb3).2
            · have hb3 := hfmt2.2
              rw [he] at hb3
              exact (coerceRangeItem_bound hb3).2
          rcases hpq with ⟨hp, hq⟩ | ⟨hp, hq⟩
          · subst hp
            subst hq
            exact rangeFix_tuple_run hcra hcrb hca1 hca2 hcb1 hcb2 hord
          · subst hp
            subst hq
            exact rangeFix_tuple_run hcrb hcra hcb1 hcb2 hca1 hca2 hord

/-- A None-or-list tail can only return a non-number non-string. -/
theorem okNoneOrList_shape {c : Bool} {xs : List PyVal} {u : PyVal}
    (h : (if c = true then (Except.ok PyVal.none : Except PErr PyVal)
      else Except.ok (PyVal.list xs)) = .ok u) :
    pyIsNum u = false ∧ pyIsStr u = false := by
  split at h <;> (injection h with h2; subst h2; exact ⟨rfl, rfl⟩)

/-- The multiple_choice fixer never returns a number or a string. -/
theorem mcFix_out_shape {mf : McFmt} {pol : MultipleChoicePolicy} {v u : PyVal}
    (h : mcFix [] mf pol v = .ok u) : pyIsNum u = false ∧ pyIsStr u = false := by
  by_cases hvn : pyIsNone v = true
  · unfold mcFix at h
    rw [if_pos hvn] at h
    injection h with h2
    subst h2
    rw [pyIsNone_eq hvn]
    exact ⟨rfl, rfl⟩
  · unfold mcFix at h
    rw [if_neg hvn] at h
    obtain ⟨lr, hlr, h2⟩ := exceptBind_ok _ _ _ h
    cases lr with
    | none =>
      have h3 : (Except.ok PyVal.none : Except PErr PyVal) = Except.ok u := h2
      injection h3 with h3
      subst h3
      exact ⟨rfl, rfl⟩
    | some items => exact okNoneOrList_shape h2

/-- The list_conversion fixer on a parsed list never returns a number or
a string. -/
theorem lcFix_list_shape (lf : LcFmt) (pol : ListConversionPolicy) (lst : List PyVal)
    {u : PyVal} (h : lcFix lf pol (.list lst) = .ok u) :
    pyIsNum u = false ∧ pyIsStr u = false := by
  rcases hl : lcLoop (lf.itemType.getD "int") pol lst [] with _ | out0
  · have hrun : lcFix lf pol (.list lst) = .ok PyVal.none := by
      unfold lcFix
      rw [if_neg (by simp [pyIsNone])]
      simp only [ne_eq]
      rw [hl]
    rw [hrun] at h
    injection h with h2
    subst h2
    exact ⟨rfl, rfl⟩
  · rw [lcFix_if_form lf pol lst hl] at h
    split at h <;> split at h <;> (injection h with h2; subst h2; exact ⟨rfl, rfl⟩)

/-- The list_conversion fixer never returns a number or a string. -/
theorem lcFix_out_shape {lf : LcFmt} {pol : ListConversionPolicy} {v u : PyVal}
    (h : lcFix lf pol v = .ok u) : pyIsNum u = false ∧ pyIsStr u = false := by
  by_cases hvn : pyIsNone v = true
  · unfold lcFix at h
    rw [if_pos hvn] at h
    injection h with h2
    subst h2
    rw [pyIsNone_eq hvn]
    exact ⟨rfl, rfl⟩
  · rw [lcFix_eq_list lf pol v (by simpa using hvn)] at h
    exact lcFix_list_shape lf pol _ h

/-- The ordering stage returns the sentinel or a two-element tuple. -/
theorem rangeOrder_out_shape {eo : Bool} {pol : RangePolicy} {a b u : PyVal}
    (h : rangeOrder eo pol a b = .ok u) :
    u = PyVal.none ∨ ∃ x y, u = PyVal.tuple [x, y] := by
  cases eo with
  | false =>
    have h2 : (Except.ok (PyVal.tuple [a, b]) : Except PErr PyVal) = Except.ok u := h
    injection h2 with h2
    exact Or.inr ⟨a, b, h2.symm⟩
  | true =>
    have h2 : Bind.bind (pyGtE a b) (fun gt =>
        if gt then
          if pol = RangePolicy.swapIfReversed || pol = RangePolicy.clampItems
          then Except.ok (PyVal.tuple [b, a])
          else if pol = RangePolicy.bypass then Except.ok (PyVal.tuple [a, b])
          else Except.ok PyVal.none
        else Except.ok (PyVal.tuple [a, b])) = Except.ok u := h
    obtain ⟨g, hg, h3⟩ := exceptBind_ok _ _ _ h2
    cases g with
    | false =>
      have h4 : (Except.ok (PyVal.tuple [a, b]) : Except PErr PyVal) = Except.ok u := h3
      injection h4 with h4
      exact Or.inr ⟨a, b, h4.symm⟩
    | true =>
      have h5 : (if pol = RangePolicy.swapIfReversed || pol = RangePolicy.clampItems
          then (Except.ok (PyVal.tuple [b, a]) : Except PErr PyVal)
          else if pol = RangePolicy.bypass then Except.ok (PyVal.tuple [a, b])
          else Except.ok PyVal.none) = Except.ok u := h3
      by_cases hsw : (pol = RangePolicy.swapIfReversed || pol = RangePolicy.clampItems) = true
      · rw [if_pos hsw] at h5
        injection h5 with h5
        exact Or.inr ⟨b, a, h5.symm⟩
      · rw [if_neg hsw] at h5
        by_cases hby : pol = RangePolicy.bypass
        · rw [if_pos hby] at h5
          injection h5 with h5
          exact Or.inr ⟨a, b, h5.symm⟩
        · rw [if_neg hby] at h5
          injection h5 with h5
          exact Or.inl h5.symm

/-- Facts about a successful range-fix output: it is never a string, and
a numeric output forces allow_single_value_as_range off and a
non-rejecting policy. -/
theorem rangeFix_out_facts {rf : RangeFmt} {pol : RangePolicy} {v u : PyVal}
    (h : rangeFix rf pol v = .ok u) :
    pyIsStr u = false ∧
    (pyIsNum u = true →
      (rf.allowSingleValueAsRange.getD false) = false ∧
      (pol = RangePolicy.reject || pol = RangePolicy.rejectIfInvalidStructure) = false) := by
  by_cases hvn : pyIsNone v = true
  · unfold rangeFix at h
    rw [if_pos hvn] at h
    injection h with h2
    subst h2
    rw [pyIsNone_eq hvn]
    exact ⟨rfl, fun hn => Bool.noConfusion hn⟩
  · rw [rangeFix_eq rf pol (by simpa using hvn)] at h
    cases hE : rangeElems (rangePair (rf.allowSingleValueAsRange.getD false)
        (rangeParse (rf.inputSeparator.getD "-")
          (rf.allowSingleValueAsRange.getD false) v)) with
    | none =>
      rw [hE] at h
      have h2 : (if pol = RangePolicy.reject || pol = RangePolicy.rejectIfInvalidStructure
          then (Except.ok PyVal.none : Except PErr PyVal)
          else Except.ok (rangePair (rf.allowSingleValueAsRange.getD false)
            (rangeParse (rf.inputSeparator.getD "-")
              (rf.allowSingleValueAsRange.getD false) v))) = Except.ok u := h
      by_cases hrej : (pol = RangePolicy.reject ||
          pol = RangePolicy.rejectIfInvalidStructure) = true
      · rw [if_pos hrej] at h2
        injection h2 with h2
        subst h2
        exact ⟨rfl, fun hn => Bool.noConfusion hn⟩
      · rw [if_neg hrej] at h2
        injection h2 with h2
        rcases rangePair_cases (rf.allowSingleValueAsRange.getD false)
            (rangeParse (rf.inputSeparator.getD "-")
              (rf.allowSingleValueAsRange.getD false) v) with ⟨hV2e, hc⟩ | ⟨hV2e, hc⟩
        · rw [hV2e] at hE
          exact Option.noConfusion hE
        · rw [hV2e] at h2
          subst h2
          refine ⟨rangeParse_not_str (rf.inputSeparator.getD "-")
            (rf.allowSingleValueAsRange.getD false) v, fun hn => ⟨?_, by simpa using hrej⟩⟩
          rw [hn] at hc
          simpa using hc
    | some xy =>
      obtain ⟨x, y⟩ := xy
      rw [hE] at h
      have h3 : (match coerceRangeItem ((rf.itemType.getD "int") == "int") x,
            coerceRangeItem ((rf.itemType.getD "int") == "int") y with
        | some a0, some b0 => do
            let a1 ← clampMin pol rf.minItemValue a0
            let b1 ← clampMin pol rf.minItemValue b0
            let a ← clampMax pol rf.maxItemValue a1
            let b ← clampMax pol rf.maxItemValue b1
            rangeOrder (rf.enforceMinLeMax.getD true) pol a b
        | _, _ =>
          if pol = RangePolicy.reject || pol = RangePolicy.rejectIfInvalidStructure
          then Except.ok PyVal.none
          else Except.ok (rangePair (rf.allowSingleValueAsRange.getD false)
            (rangeParse (rf.inputSeparator.getD "-")
              (rf.allowSingleValueAsRange.getD false) v))) = Except.ok u := h
      have hpass : (if pol = RangePolicy.reject ||
            pol = RangePolicy.rejectIfInvalidStructure
          then (Except.ok PyVal.none : Except PErr PyVal)
          else Except.ok (rangePair (rf.allowSingleValueAsRange.getD false)
            (rangeParse (rf.inputSeparator.getD "-")
              (rf.allowSingleValueAsRange.getD false) v))) = Except.ok u →
          pyIsStr u = false ∧
          (pyIsNum u = true →
            (rf.allowSingleValueAsRange.getD false) = false ∧
            (pol = RangePolicy.reject ||
              pol = RangePolicy.rejectIfInvalidStructure) = false) := by
        intro h2
        by_cases hrej : (pol = RangePolicy.reject ||
            pol = RangePolicy.rejectIfInvalidStructure) = true
        · rw [if_pos hrej] at h2
          injection h2 with h2
          subst h2
          exact ⟨rfl, fun hn => Bool.noConfusion hn⟩
        · rw [if_neg hrej] at h2
          injection h2 with h2
          rcases rangePair_cases (rf.allowSingleValueAsRange.getD false)
              (rangeParse (rf.inputSeparator.getD "-")
                (rf.allowSingleValueAsRange.getD false) v) with ⟨hV2e, hc⟩ | ⟨hV2e, hc⟩
          · rw [hV2e] at h2
            subst h2
            exact ⟨rfl, fun hn => Bool.noConfusion hn⟩
          · rw [hV2e] at h2
            subst h2
            refine ⟨rangeParse_not_str (rf.inputSeparator.getD "-")
              (rf.allowSingleValueAsRange.getD false) v, fun hn => ⟨?_, by simpa using hrej⟩⟩
            rw [hn] at hc
            simpa using hc
      cases hcx : coerceRangeItem ((rf.itemType.getD "int") == "int") x with
      | none =>
        rw [hcx] at h3
        exact hpass h3
      | some a0 =>
        rw [hcx] at h3
        cases hcy : coerceRangeItem ((rf.itemType.getD "int") == "int") y with
        | none =>
          rw [hcy] at h3
          exact hpass h3
        | some b0 =>
          rw [hcy] at h3
          have h4 : (do
              let a1 ← clampMin pol rf.minItemValue a0
              let b1 ← clampMin pol rf.minItemValue b0
              let a ← clampMax pol rf.maxItemValue a1
              let b ← clampMax pol rf.maxItemValue b1
              rangeOrder (rf.enforceMinLeMax.getD true) pol a b) = Except.ok u := h3
          obtain ⟨a1, ha1, h5⟩ := exceptBind_ok _ _ _ h4
          obtain ⟨b1, hb1, h6⟩ := exceptBind_ok _ _ _ h5
          obtain ⟨a, ha2, h7⟩ := exceptBind_ok _ _ _ h6
          obtain ⟨b, hb2, h8⟩ := exceptBind_ok _ _ _ h7
          rcases rangeOrder_out_shape h8 with he | ⟨xx, yy, he⟩ <;> subst he
          · exact ⟨rfl, fun hn => Bool.noConfusion hn⟩
          · exact ⟨rfl, fun hn => Bool.noConfusion hn⟩

/-- A number passing a range format with single-value widening off under
a non-rejecting policy is returned unchanged. -/
theorem rangeFix_num_pass {rf : RangeFmt} {pol : RangePolicy} {w : PyVal}
    (hn : pyIsNum w = true)
    (hAS : rf.allowSingleValueAsRange.getD false = false)
    (hrej : (pol = RangePolicy.reject || pol = RangePolicy.rejectIfInvalidStructure) = false) :
    rangeFix rf pol w = .ok w :=
  rangeFix_pass_none (pyIsNum_not_none hn) (pyIsNum_not_str hn)
    (by rw [hAS, Bool.and_false]) hrej (rangeElems_num_none hn)

/-- The numeric fixer keeps a non-number non-string input (bypass) or
rejects it: the int and float coercions fail on every such shape. -/
theorem numFix_nonnum_nonstr {p : Parse} {ann : Ann} {low high : Option PyVal}
    {pol : NumericPolicy} {ev : Bool} {v1 v2 : PyVal}
    (hann : ann = Ann.aInt ∨ ann = Ann.aFloat)
    (hn : pyIsNum v1 = false) (hstr : pyIsStr v1 = false)
    (h : numFix p ann low high pol ev v1 = .ok v2) :
    v2 = v1 ∨ v2 = PyVal.none := by
  have hca : pyCallAnn ann v1 = Option.none := by
    rcases hann with he | he <;> subst he <;>
      (cases v1 <;>
        first
          | rfl
          | exact Bool.noConfusion hn
          | exact Bool.noConfusion hstr)
  simp only [numFix] at h
  rw [numEvalStage_nonstr p low high ev hstr, hn, hca] at h
  have h2 : (if pol = NumericPolicy.bypass then (Except.ok v1 : Except PErr PyVal)
      else Except.ok PyVal.none) = Except.ok v2 := h
  by_cases hpol : pol = NumericPolicy.bypass
  · rw [if_pos hpol] at h2
    injection h2 with h2
    exact Or.inl h2.symm
  · rw [if_neg hpol] at h2
    injection h2 with h2
    exact Or.inr h2.symm

/-- The numeric stage and tail return a non-number non-string format
output unchanged when they accept at all. -/
theorem numtail_nonnum {p : Parse} {ann : Ann} {low high mo : Option PyVal}
    {pol : NumericPolicy} {ev : Bool} {minl maxl : Option Nat} {v1 v2 w : PyVal}
    (hann : ann = Ann.aInt ∨ ann = Ann.aFloat)
    (hn : pyIsNum v1 = false) (hstr : pyIsStr v1 = false)
    (hv2 : numFix p ann low high pol ev v1 = .ok v2)
    (hmult : multCheck mo pol (lenCheckMax maxl pol (lenCheckMin minl pol v2)) = .ok w)
    (hw : pyIsNone w = false) : w = v1 := by
  rcases numFix_nonnum_nonstr hann hn hstr hv2 with he | he <;> subst he
  · rcases lenCheckMin_or minl pol v2 with h1 | h1 <;> rw [h1] at hmult
    · rcases lenCheckMax_or maxl pol v2 with h2 | h2 <;> rw [h2] at hmult
      · rw [multCheck_not_num mo pol v2 hn] at hmult
        injection hmult with hmult
        exact hmult.symm
      · rw [multCheck_none_val] at hmult
        injection hmult with hmult
        rw [← hmult] at hw
        exact Bool.noConfusion hw
    · rw [lenCheckMax_none, multCheck_none_val] at hmult
      injection hmult with hmult
      rw [← hmult] at hw
      exact Bool.noConfusion hw
  · rw [lenCheckMin_none, lenCheckMax_none, multCheck_none_val] at hmult
    injection hmult with hmult
    rw [← hmult] at hw
    exact Bool.noConfusion hw

/-- The multiple_of check on a number returns a number or the sentinel. -/
theorem multCheck_out_num {mo : Option PyVal} {pol : NumericPolicy} {v w : PyVal}
    (hv : pyIsNum v = true) (h : multCheck mo pol v = .ok w) :
    pyIsNum w = true ∨ w = PyVal.none := by
  cases mo with
  | none =>
    rw [multCheck_none_mult] at h
    injection h with h2
    exact Or.inl (h2 ▸ hv)
  | some m =>
    have h2 : (if pyIsNone v = true then Except.ok v
        else if pyIsNum v = true then
          if (!pyIsNum m) = true then Except.error PErr.typeError
          else if toR m = 0 then Except.error PErr.zeroDivision
          else
            if ¬ (qSub (qDiv (toR v) (toR m))
                (((qDiv (toR v) (toR m)).floor : Int) : Rat) = 0) then
              if pol = NumericPolicy.clamp then
                Except.ok (numPair (.int (bankRound (qDiv (toR v) (toR m)))) m qMul (· * ·))
              else if pol = NumericPolicy.reject then Except.ok PyVal.none
              else Except.ok v
            else Except.ok v
        else Except.ok v) = Except.ok w := h
    rw [if_neg (by simp [pyIsNum_not_none hv]), if_pos hv] at h2
    split_ifs at h2 <;>
      first
        | exact Except.noConfusion h2
        | (injection h2 with h2; subst h2;
            first
              | exact Or.inl hv
              | exact Or.inl (numPair_num _ _ _ _)
              | exact Or.inr rfl)

/-- The per-field fixer with no declared options, phrased as its three
stages (the generic options stage is then the identity). -/
theorem fixVal_eq_noopts (p : Parse) (ps : PolicySet) (s : FieldSpec) (v : PyVal)
    (hopt : s.options = Option.none) :
    fixVal p ps s v = Bind.bind (fmtStage ps s v) (fun v1 =>
      Bind.bind (numBranch p ps s v1) (fun v2 => fixTail ps s v2)) := by
  unfold fixVal fmtStage numBranch fixTail numericDeclared
  rw [hopt]
  cases hg : ((s.ge.orElse fun x => s.gt).isSome || (s.le.orElse fun x => s.lt).isSome ||
      s.multipleOf.isSome) with
  | true =>
    simp only [hg]
    cases hf : s.fmt with
    | none => rfl
    | some f => cases f <;> rfl
  | false =>
    simp only [hg]
    cases hf : s.fmt with
    | none => rfl
    | some f => cases f <;> rfl

/-- Reassembly of a second fixer run from per-stage results. -/
theorem fixTail_run {p : Parse} {ps : PolicySet} {s : FieldSpec} {w v2b : PyVal}
    (hfmtw : fmtStage ps s w = .ok w)
    (hnum : numBranch p ps s w = .ok v2b)
    (htail : fixTail ps s v2b = .ok w) :
    Bind.bind (fmtStage ps s w) (fun v1 => Bind.bind (numBranch p ps s v1)
      (fun v2 => fixTail ps s v2)) = Except.ok w := by
  rw [hfmtw]
  show Bind.bind (numBranch p ps s w) (fun v2 => fixTail ps s v2) = Except.ok w
  rw [hnum]
  exact htail

/-- The format stage of a stable spec maps its own non-rejected output
back to itself. -/
theorem fmtStage_stable {ps : PolicySet} {s : FieldSpec} {v u : PyVal}
    (hs : specStable s = true) (h : fmtStage ps s v = .ok u)
    (hu : pyIsNone u = false) : fmtStage ps s u = .ok u := by
  have hs' := hs
  simp only [specStable, Bool.and_eq_true] at hs'
  obtain ⟨⟨hopt0, hann0⟩, hfmt0⟩ := hs'
  unfold fmtStage at h ⊢
  cases hf : s.fmt with
  | none =>
    rw [hf] at h
    have h2 : (Except.ok v : Except PErr PyVal) = Except.ok u := h
    injection h2 with h2
    subst h2
    exact rfl
  | some f =>
    rw [hf] at h hfmt0
    cases f with
    | range rf => exact rangeFix_stable hfmt0 h hu
    | multipleChoice mf => exact mcFix_stable h hu
    | listConversion lf => exact lcFix_stable hfmt0 h hu
    | booleanFlexible bf =>
      have h2 : (Except.ok (boolFix bf (s.ovBoolean.getD ps.booleanP) v) :
          Except PErr PyVal) = Except.ok u := h
      injection h2 with h2
      show (Except.ok (boolFix bf (s.ovBoolean.getD ps.booleanP) u) :
          Except PErr PyVal) = Except.ok u
      rw [← h2, boolFix_stable bf _ v (by rw [h2]; exact hu)]

/-- The per-field fixer of a stable spec maps its own non-rejected
output back to itself: a second run reproduces the fixed value. -/
theorem fixVal_stable {p : Parse} {ps : PolicySet} {s : FieldSpec} {v w : PyVal}
    (hs : specStable s = true) (h : fixVal p ps s v = .ok w)
    (hw : pyIsNone w = false) : fixVal p ps s w = .ok w := by
  have hs' := hs
  simp only [specStable, Bool.and_eq_true] at hs'
  obtain ⟨⟨hopt0, hann0⟩, hfmt0⟩ := hs'
  have hopt : s.options = Option.none := by
    cases ho : s.options with
    | none => rfl
    | some o =>
      rw [ho] at hopt0
      exact Bool.noConfusion hopt0
  rw [fixVal_eq_noopts p ps s v hopt] at h
  rw [fixVal_eq_noopts p ps s w hopt]
  obtain ⟨v1, hv1, h2⟩ := exceptBind_ok _ _ _ h
  obtain ⟨v2, hv2, h3⟩ := exceptBind_ok _ _ _ h2
  unfold fixTail at h3
  by_cases hnd : numericDeclared s = true
  · unfold numBranch at hv2
    rw [if_pos hnd] at hv2
    have hann : s.ann = Ann.aInt ∨ s.ann = Ann.aFloat := by
      have h5 := hann0
      rw [hnd] at h5
      simp only [Bool.not_true, Bool.false_or, Bool.or_eq_true, beq_iff_eq] at h5
      exact h5
    by_cases hwv1 : w = v1
    · subst hwv1
      exact fixTail_run (fmtStage_stable hs hv1 hw)
        (by unfold numBranch; rw [if_pos hnd]; exact hv2) h3
    · obtain ⟨v2b, hnum2, htail2⟩ := numStage_stable hann hv2 h3 hw hwv1
      cases hf : s.fmt with
      | none =>
        refine fixTail_run ?_ (by unfold numBranch; rw [if_pos hnd]; exact hnum2) htail2
        unfold fmtStage
        rw [hf]
        have hv1e : (Except.ok v : Except PErr PyVal) = Except.ok v1 := by
          rw [← hv1]
          unfold fmtStage
          rw [hf]
          rfl
        injection hv1e with hv1e
        exact rfl
      | some f =>
        unfold fmtStage at hv1
        rw [hf] at hv1
        cases f with
        | booleanFlexible bf =>
          exfalso
          rw [hf] at hfmt0
          have h6 : (!numericDeclared s) = true := hfmt0
          rw [hnd] at h6
          exact Bool.noConfusion h6
        | multipleChoice mf =>
          exfalso
          have hsh := mcFix_out_shape hv1
          exact hwv1 (numtail_nonnum hann hsh.1 hsh.2 hv2 h3 hw)
        | listConversion lf =>
          exfalso
          have hsh := lcFix_out_shape hv1
          exact hwv1 (numtail_nonnum hann hsh.1 hsh.2 hv2 h3 hw)
        | range rf =>
          have hsh := rangeFix_out_facts hv1
          by_cases hn1 : pyIsNum v1 = true
          · have hwnum : pyIsNum w = true := by
              rcases numFix_out hann hv2 with ⟨he, hnn⟩ | he | ⟨cv, hcv, henf⟩
              · rw [hn1] at hnn
                exact Bool.noConfusion hnn
              · exfalso
                subst he
                rw [lenCheckMin_none, lenCheckMax_none, multCheck_none_val] at h3
                injection h3 with h3e
                rw [← h3e] at hw
                exact Bool.noConfusion hw
              · have hv2ne : pyIsNone v2 = false := by
                  by_cases hb2 : pyIsNone v2 = true
                  · exfalso
                    rw [pyIsNone_eq hb2] at h3
                    rw [lenCheckMin_none, lenCheckMax_none, multCheck_none_val] at h3
                    injection h3 with h3e
                    rw [← h3e] at hw
                    exact Bool.noConfusion hw
                  · simpa using hb2
                have hv2num : pyIsNum v2 = true := (numEnforce_idem hcv henf hv2ne).1
                rw [lenCheckMin_num _ _ _ hv2num, lenCheckMax_num _ _ _ hv2num] at h3
                rcases multCheck_out_num hv2num h3 with hq | hq
                · exact hq
                · exfalso
                  rw [hq] at hw
                  exact Bool.noConfusion hw
            refine fixTail_run ?_ (by unfold numBranch; rw [if_pos hnd]; exact hnum2) htail2
            unfold fmtStage
            rw [hf]
            exact rangeFix_num_pass hwnum (hsh.2 hn1).1 (hsh.2 hn1).2
          · exfalso
            exact hwv1 (numtail_nonnum hann (by simpa using hn1) hsh.1 hv2 h3 hw)
  · unfold numBranch at hv2
    rw [if_neg hnd] at hv2
    injection hv2 with hv2e
    subst hv2e
    have hmo : s.multipleOf = Option.none := by
      cases hmo2 : s.multipleOf with
      | none => rfl
      | some m =>
        exfalso
        apply hnd
        simp [numericDeclared, hmo2]
    rw [hmo, multCheck_none_mult] at h3
    injection h3 with h3e
    rcases lenCheckMin_or s.minLength (s.ovNumeric.getD ps.numeric) v1 with h4 | h4
    · rw [h4] at h3e
      rcases lenCheckMax_or s.maxLength (s.ovNumeric.getD ps.numeric) v1 with h5 | h5
      · rw [h5] at h3e
        subst h3e
        exact fixTail_run (fmtStage_stable hs hv1 hw)
          (by unfold numBranch; rw [if_neg hnd]; rfl)
          (by unfold fixTail; rw [hmo, multCheck_none_mult, h4, h5])
      · rw [h5] at h3e
        rw [← h3e] at hw
        exact Bool.noConfusion hw
    · rw [h4, lenCheckMax_none] at h3e
      rw [← h3e] at hw
      exact Bool.noConfusion hw

/-- One field of the _auto loop for a stable spec maps its own kept
output back to itself: the fixed value is re-accepted, and a rejected
field keeps rejecting the same raw value. -/
theorem fixField_stable {p : Parse} {ps : PolicySet} {s : FieldSpec} {v w : PyVal}
    (hs : specStable s = true) (h : fixField p ps s v = .ok w) :
    fixField p ps s w = .ok w := by
  obtain ⟨u, hu, h2⟩ := exceptBind_ok _ _ _ h
  have h2' : (Except.ok (if pyIsNone u = true then v else u) : Except PErr PyVal) =
      Except.ok w := h2
  injection h2' with h2e
  by_cases hun : pyIsNone u = true
  · rw [if_pos hun] at h2e
    subst h2e
    unfold fixField
    rw [hu]
    show (Except.ok (if pyIsNone u = true then v else u) : Except PErr PyVal) = Except.ok v
    rw [if_pos hun]
  · rw [if_neg hun] at h2e
    subst h2e
    have hst := fixVal_stable hs hu (by simpa using hun)
    unfold fixField
    rw [hst]
    show (Except.ok (if pyIsNone u = true then u else u) : Except PErr PyVal) = Except.ok u
    rw [if_neg hun]

/-- Updating a key with the value it already holds changes nothing. -/
theorem aupdate_id : ∀ (m : List (String × PyVal)) (k : String) (v : PyVal),
    alookup m k = some v → aupdate m k v = m
  | [], k, v, h => by simp [alookup] at h
  | (k2, u) :: rest, k, v, h => by
    rw [alookup] at h
    rw [aupdate]
    by_cases hk : (k2 == k) = true
    · rw [if_pos hk] at h
      rw [if_pos hk]
      injection h with h2
      subst h2
      rw [show k2 = k from by simpa using hk]
    · rw [if_neg hk] at h
      rw [if_neg hk, aupdate_id rest k v h]

/-- Updating any key keeps an absent key absent. -/
theorem alookup_none_aupdate : ∀ (m : List (String × PyVal)) (k nm : String) (w : PyVal),
    alookup m nm = Option.none → alookup (aupdate m k w) nm = Option.none
  | [], _, _, _, _ => rfl
  | (k2, u) :: rest, k, nm, w, h => by
    rw [alookup] at h
    by_cases h2 : (k2 == nm) = true
    · rw [if_pos h2] at h
      exact Option.noConfusion h
    · rw [if_neg h2] at h
      rw [aupdate]
      by_cases h3 : (k2 == k) = true
      · rw [if_pos h3]
        rw [alookup]
        have hkn : (k == nm) = false := by
          have he : k2 = k := by simpa using h3
          rw [← he]
          simpa using h2
        rw [hkn]
        show alookup rest nm = Option.none
        exact h
      · rw [if_neg h3]
        rw [alookup, if_neg h2]
        exact alookup_none_aupdate rest k nm w h

/-- The _auto pass never introduces a field absent from the input. -/
theorem autoFixPass_preserves_none (p : Parse) (ps : PolicySet) :
    ∀ (specs : List (String × FieldSpec)) (raw out : List (String × PyVal)) (nm : String),
    alookup raw nm = Option.none → autoFixPass p ps specs raw = .ok out →
    alookup out nm = Option.none
  | [], raw, out, nm, hl, h => by
    injection h with h2
    subst h2
    exact hl
  | (k2, s2) :: rest, raw, out, nm, hl, h => by
    have heq : autoFixPass p ps ((k2, s2) :: rest) raw =
        (match alookup raw k2 with
         | Option.none => autoFixPass p ps rest raw
         | some v => do
            let w ← fixField p ps s2 v
            autoFixPass p ps rest (aupdate raw k2 w)) := rfl
    rw [heq] at h
    cases hl2 : alookup raw k2 with
    | none =>
      rw [hl2] at h
      exact autoFixPass_preserves_none p ps rest raw out nm hl h
    | some v =>
      rw [hl2] at h
      obtain ⟨w, hwf, h2⟩ := exceptBind_ok _ _ _ h
      exact autoFixPass_preserves_none p ps rest (aupdate raw k2 w) out nm
        (alookup_none_aupdate raw k2 nm w hl) h2

/-- The _auto pass over stable specs with distinct field names maps its
own output back to itself: every kept value is re-accepted unchanged and
every rejected field rejects identically again. -/
theorem autoFixPass_stable (p : Parse) (ps : PolicySet) :
    ∀ (specs : List (String × FieldSpec)) (raw out : List (String × PyVal)),
    (∀ kv ∈ specs, specStable kv.2 = true) →
    (specs.map Prod.fst).Nodup →
    autoFixPass p ps specs raw = .ok out →
    autoFixPass p ps specs out = .ok out
  | [], raw, out, _, _, h => by
    injection h with h2
    subst h2
    rfl
  | (nm, s) :: rest, raw, out, hst, hnd, h => by
    have heq : ∀ (m : List (String × PyVal)), autoFixPass p ps ((nm, s) :: rest) m =
        (match alookup m nm with
         | Option.none => autoFixPass p ps rest m
         | some v => do
            let w ← fixField p ps s v
            autoFixPass p ps rest (aupdate m nm w)) := fun m => rfl
    have hstRest : ∀ kv ∈ rest, specStable kv.2 = true :=
      fun kv hkv => hst kv (List.mem_cons_of_mem _ hkv)
    have hndRest : (rest.map Prod.fst).Nodup := by
      rw [List.map_cons, List.nodup_cons] at hnd
      exact hnd.2
    have hnmRest : nm ∉ rest.map Prod.fst := by
      rw [List.map_cons, List.nodup_cons] at hnd
      exact hnd.1
    rw [heq raw] at h
    rw [heq out]
    cases hl : alookup raw nm with
    | none =>
      rw [hl] at h
      have h2 := autoFixPass_stable p ps rest raw out hstRest hndRest h
      rw [autoFixPass_preserves_none p ps rest raw out nm hl h]
      exact h2
    | some v =>
      rw [hl] at h
      obtain ⟨w, hwf, h2⟩ := exceptBind_ok _ _ _ h
      have hlo : alookup out nm = some w := by
        rw [autoFixPass_not_mentioned p ps rest (aupdate raw nm w) out nm hnmRest h2]
        exact alookup_aupdate_self raw nm w v hl
      rw [hlo]
      show Bind.bind (fixField p ps s w)
        (fun w2 => autoFixPass p ps rest (aupdate out nm w2)) = Except.ok out
      rw [fixField_stable (hst (nm, s) (List.mem_cons_self _ _)) hwf]
      show autoFixPass p ps rest (aupdate out nm w) = Except.ok out
      rw [aupdate_id out nm w hlo]
      exact autoFixPass_stable p ps rest (aupdate raw nm w) out hstRest hndRest h2

/-- C7 counterexample: the auto-fix pass is not idempotent on every
input.  For a range field whose max_item_value 7.5 does not live in the
declared int item type, the string "9-9" is first clamped to the float
pair (7.5, 7.5); a second pass re-coerces the items through int(),
truncating them to (7, 7), so the second application changes the mapping
the first one produced. -/
theorem C7_counterexample_range_mismatch_not_idempotent :
    autoFixPass parseNone {} [("f", rangeMismatchSpec)] [("f", PyVal.str "9-9")] =
      .ok [("f", PyVal.tuple [.float (mkRat 15 2), .float (mkRat 15 2)])] ∧
    autoFixPass parseNone {} [("f", rangeMismatchSpec)]
        [("f", PyVal.tuple [.float (mkRat 15 2), .float (mkRat 15 2)])] =
      .ok [("f", PyVal.tuple [.int 7, .int 7])] ∧
    ([("f", PyVal.tuple [.float (mkRat 15 2), .float (mkRat 15 2)])] :
        List (String × PyVal)) ≠
      [("f", PyVal.tuple [PyVal.int 7, PyVal.int 7])] :=
  ⟨by decide, by decide, by decide⟩

/-- C7 (amended): the auto-fix pass is idempotent on every mapping it
accepts provided each field spec is stable - no declared options, a
numeric int or float annotation whenever a bound or multiple_of is
declared, item bounds stored in the item type for range formats, no
bounds on boolean_flexible formats, and a coherent non-negative size
window for list_conversion formats - and the declared field names are
distinct: applying the pass a second time to the mapping produced by the
first application returns that mapping unchanged. -/
theorem C7_autofix_idempotent_for_stable_specs (p : Parse) (ps : PolicySet)
    (specs : List (String × FieldSpec)) (raw out : List (String × PyVal))
    (hst : ∀ kv ∈ specs, specStable kv.2 = true)
    (hnd : (specs.map Prod.fst).Nodup)
    (h : autoFixPass p ps specs raw = .ok out) :
    autoFixPass p ps specs out = .ok out :=
  autoFixPass_stable p ps specs raw out hst hnd h

/-- Witness for the amended C7 at a concrete input: an int field clamped
from 12 to its upper bound 10 is accepted unchanged by a second pass. -/
theorem C7_autofix_idempotent_for_stable_specs_witness :
    autoFixPass parseNone {}
      [("f", { ann := Ann.aInt, ge := some (PyVal.int 0), le := some (PyVal.int 10) })]
      [("f", PyVal.int 10)] = .ok [("f", PyVal.int 10)] :=
  C7_autofix_idempotent_for_stable_specs parseNone {}
    [("f", { ann := Ann.aInt, ge := some (PyVal.int 0), le := some (PyVal.int 10) })]
    [("f", PyVal.int 12)] [("f", PyVal.int 10)] (by decide) (by decide) (by decide)

end DCM
